import Mathlib

/-!
# slotmap: booking grid and action log

A shallow embedding of the booking core of `slotmap.c`: the in-memory rooms
array, the rooms file (`save_rooms`, `load_rooms`), the append-only bookings
file, the last-action scan, the two transactions `book_slot` and
`cancel_booking`, the history part of `my_bookings`, `add_classroom`, the
seeding of `initialize_sample_data`, and the hour texts of `hour_to_ampm`
and `parse_ampm_input`.

Files are modelled as character lists (`none` when the file does not
exist).  The C library calls the code relies on (`fgets`, `sscanf`,
`fprintf`) are modelled on character lists; `%d` stores into an `int`, a
numeral outside its range wrapping around as the C library makes it.
-/

namespace Slotmap

/-! ## Text primitives -/

/-- The C locale `isspace`. -/
def isspace (c : Char) : Bool :=
  c == ' ' || c == '\t' || c == '\n' || c == '\x0b' || c == '\x0c' || c == '\r'

/-- The C `isdigit`. -/
def isdigit (c : Char) : Bool :=
  '0'.toNat ≤ c.toNat && c.toNat ≤ '9'.toNat

/-- The character of a decimal digit. -/
def digitChar (d : Nat) : Char :=
  match d with
  | 0 => '0' | 1 => '1' | 2 => '2' | 3 => '3' | 4 => '4'
  | 5 => '5' | 6 => '6' | 7 => '7' | 8 => '8' | _ => '9'

/-- The value of a decimal digit character. -/
def digitVal (c : Char) : Nat := c.toNat - '0'.toNat

/-- Decimal digits of `n`, most significant first, in front of `acc`
(`fuel` bounds the number of digits produced). -/
def fmtNatAux : Nat → Nat → List Char → List Char
  | 0, _, acc => acc
  | fuel + 1, n, acc =>
    if n < 10 then digitChar n :: acc
    else fmtNatAux fuel (n / 10) (digitChar (n % 10) :: acc)

/-- The text `printf("%d")` writes for a natural number. -/
def fmtNat (n : Nat) : List Char := fmtNatAux (n + 1) n []

/-- The text `printf("%d")` writes for an integer. -/
def fmtInt (i : Int) : List Char :=
  match i with
  | Int.ofNat n => fmtNat n
  | Int.negSucc n => '-' :: fmtNat (n + 1)

/-- Skipping of leading white space, as every `scanf` directive but `%c` does. -/
def skipWs : List Char → List Char
  | [] => []
  | c :: cs => if isspace c then skipWs cs else c :: cs

/-- Reading of a maximal run of digits, accumulating its decimal value. -/
def scanDigits : Nat → List Char → Nat × List Char
  | v, [] => (v, [])
  | v, c :: cs => if isdigit c then scanDigits (v * 10 + digitVal c) cs else (v, c :: cs)

/-- The digits of an unsigned decimal number: at least one digit is required. -/
def scanNat (s : List Char) : Option (Nat × List Char) :=
  match s with
  | [] => none
  | c :: _ => if isdigit c then some (scanDigits 0 s) else none

/-- The value `strtol` returns for a decimal numeral: the number, clipped to
the range of a 64-bit `long`. -/
def to_long (v : Int) : Int :=
  if v > 9223372036854775807 then 9223372036854775807
  else if v < -9223372036854775808 then -9223372036854775808
  else v

/-- The conversion of a `long` to `int`: its low 32 bits in two's complement. -/
def to_int (v : Int) : Int := (v + 2147483648) % 4294967296 - 2147483648

/-- The values of an `int`. -/
def int_range (v : Int) : Prop := -2147483648 ≤ v ∧ v ≤ 2147483647

instance (v : Int) : Decidable (int_range v) := by
  unfold int_range; infer_instance

/-- The `%d` directive: white space, an optional sign, at least one digit.
The numeral is converted as the C library does (`strtol`, then the store
into the `int`), so a number outside the range of `int` wraps around. -/
def scanInt (s : List Char) : Option (Int × List Char) :=
  match skipWs s with
  | '-' :: cs => (scanNat cs).map fun p => (to_int (to_long (-(p.1 : Int))), p.2)
  | '+' :: cs => (scanNat cs).map fun p => (to_int (to_long (p.1 : Int)), p.2)
  | cs => (scanNat cs).map fun p => (to_int (to_long (p.1 : Int)), p.2)

/-- At most `n` leading characters that are not white space. -/
def takeToken : Nat → List Char → List Char × List Char
  | 0, s => ([], s)
  | _ + 1, [] => ([], [])
  | n + 1, c :: cs =>
    if isspace c then ([], c :: cs)
    else ((c :: (takeToken n cs).1), (takeToken n cs).2)

/-- The `%Ns` directive: white space, then one to `n` characters that are
not white space. -/
def scanStr (n : Nat) (s : List Char) : Option (List Char × List Char) :=
  match skipWs s with
  | [] => none
  | cs => some (takeToken n cs)

/-- The ` %c` directive (a blank in the format, then `%c`): white space,
then one character. -/
def scanChar (s : List Char) : Option (Char × List Char) :=
  match skipWs s with
  | [] => none
  | c :: cs => some (c, cs)

/-- The characters of a C string held in a buffer: those before the first NUL. -/
def cstr : List Char → List Char
  | [] => []
  | c :: cs => if c = '\x00' then [] else c :: cstr cs

/-- The characters `fgets` stores when its buffer has room for `n` of them:
it stops after a newline, after `n` characters, or at end of file. -/
def fgets_take : Nat → List Char → List Char × List Char
  | 0, fp => ([], fp)
  | _ + 1, [] => ([], [])
  | n + 1, c :: cs =>
    if c = '\n' then ([c], cs)
    else ((c :: (fgets_take n cs).1), (fgets_take n cs).2)

/-- The call `fgets(line, size, fp)`: `none` at end of file, else the line read
and the rest of the stream. -/
def fgets (size : Nat) (fp : List Char) : Option (List Char × List Char) :=
  match fp with
  | [] => none
  | _ :: _ => some (fgets_take (size - 1) fp)

/-! ## Data structures -/

/-- The struct `Classroom`: `schedule d h` is true when the slot is booked. -/
structure Classroom where
  id : Int
  department : List Char
  type : List Char
  schedule : Fin 7 → Fin 24 → Bool

/-- The struct `User`. -/
structure User where
  username : List Char
  password : List Char
  is_admin : Bool
  deriving DecidableEq

/-- The struct `BookingRecord`: `action` is `'B'` for a booking and `'C'`
for a cancellation. -/
structure BookingRecord where
  room_id : Int
  day : Int
  hour : Int
  username : List Char
  action : Char
  deriving DecidableEq

/-- The globals of the program and the two files the booking core writes:
`rooms` holds the first `room_count` entries of the array, `users` the first
`user_count`, `current_user_index` is `none` for `-1`; a file is `none`
when it does not exist. -/
structure State where
  rooms : List Classroom
  users : List User
  current_user_index : Option Nat
  rooms_file : Option (List Char)
  bookings_file : Option (List Char)

/-- The lines the transactions print. -/
inductive Msg where
  | must_login_to_book
  | must_login_to_cancel
  | invalid_room_id
  | room_not_found
  | slot_already_booked_by (booker : List Char)
  | slot_already_booked
  | save_schedule_failed
  | warn_record_not_saved
  | booking_successful
  | slot_not_booked
  | only_own_bookings
  | save_changes_failed
  | warn_cancellation_not_logged
  | cancellation_successful
  | admin_cancellation_performed
  deriving DecidableEq

/-! ## Room ids and the rooms array -/

/-- The function `validate_room_id`; `/` and `%` of C truncate toward zero. -/
def validate_room_id (id : Int) : Bool :=
  if id < 101 ∨ id > 999 then false
  else
    let floor := Int.tdiv id 100
    let room := Int.tmod id 100
    (decide (floor ≥ 1) && decide (floor ≤ 9)) && (decide (room ≥ 1) && decide (room ≤ 99))

/-- The function `find_room_by_id`: the first index holding the id, `none` for `-1`. -/
def find_room_by_id : List Classroom → Int → Option Nat
  | [], _ => none
  | r :: rs, room_id =>
    if r.id = room_id then some 0 else (find_room_by_id rs room_id).map (· + 1)

/-- The read `rooms[i].schedule[d][h]`. -/
def slot_at (rooms : List Classroom) (i : Nat) (d : Fin 7) (h : Fin 24) : Bool :=
  match rooms[i]? with
  | some r => r.schedule d h
  | none => false

/-- The assignment `schedule[d][h] = v` inside one room. -/
def Classroom.set (r : Classroom) (d : Fin 7) (h : Fin 24) (v : Bool) : Classroom :=
  { r with schedule := fun d1 h1 => if d1 = d ∧ h1 = h then v else r.schedule d1 h1 }

/-- The assignment `rooms[i].schedule[d][h] = v`. -/
def set_slot : List Classroom → Nat → Fin 7 → Fin 24 → Bool → List Classroom
  | [], _, _, _, _ => []
  | r :: rs, 0, d, h, v => r.set d h v :: rs
  | r :: rs, i + 1, d, h, v => r :: set_slot rs i d h v

/-- The entry `users[current_user_index]`, `none` when nobody is logged in. -/
def current_user (s : State) : Option User :=
  match s.current_user_index with
  | none => none
  | some i => s.users[i]?

/-! ## The rooms file -/

/-- One row of the matrix as `save_rooms` writes it: each flag followed by
a blank, then a newline. -/
def fmt_row (row : Fin 24 → Bool) : List Char :=
  ((List.finRange 24).flatMap fun h => fmtInt (if row h then 1 else 0) ++ [' ']) ++ ['\n']

/-- One room as `save_rooms` writes it. -/
def fmt_room (r : Classroom) : List Char :=
  fmtInt r.id ++ [' '] ++ r.department ++ [' '] ++ r.type ++ ['\n']
    ++ (List.finRange 7).flatMap fun d => fmt_row (r.schedule d)

/-- The text `save_rooms` writes. -/
def save_rooms_text (rooms : List Classroom) : List Char :=
  fmtInt rooms.length ++ ['\n'] ++ rooms.flatMap fmt_room

/-- The function `save_rooms`; `fopen_ok` tells whether the file could be
opened for writing. -/
def save_rooms (s : State) (fopen_ok : Bool) : Bool × State :=
  if fopen_ok then (true, { s with rooms_file := some (save_rooms_text s.rooms) })
  else (false, s)

/-! ## The bookings file -/

/-- The line `fprintf(fp, "%d %d %d %c %s\n", ...)` writes. -/
def fmt_record (room_id day hour : Int) (action : Char) (username : List Char) : List Char :=
  fmtInt room_id ++ [' '] ++ fmtInt day ++ [' '] ++ fmtInt hour ++ [' '] ++ [action] ++ [' ']
    ++ username ++ ['\n']

/-- The function `append_booking_record_with_action`; `fopen_ok` tells
whether the file could be opened for appending (which creates it). -/
def append_booking_record_with_action (s : State) (room_id day hour : Int)
    (username : List Char) (action : Char) (fopen_ok : Bool) : Bool × State :=
  if fopen_ok then
    let line := fmt_record room_id day hour action username
    (true, { s with bookings_file := some (s.bookings_file.getD [] ++ line) })
  else (false, s)

/-- The call `sscanf(line, "%d %d %d %c %49s", ...) == 5`: the record read,
`none` when fewer than five fields are assigned. -/
def sscanf_record (line : List Char) : Option BookingRecord :=
  match scanInt (cstr line) with
  | none => none
  | some (room_id, s1) =>
    match scanInt s1 with
    | none => none
    | some (day, s2) =>
      match scanInt s2 with
      | none => none
      | some (hour, s3) =>
        match scanChar s3 with
        | none => none
        | some (action, s4) =>
          match scanStr 49 s4 with
          | none => none
          | some (username, _) =>
            some { room_id := room_id, day := day, hour := hour,
                   username := username, action := action }

/-- The body of the scanning loop on one line: `found` and `last_match`. -/
def scan_step (room_id day hour : Int) (st : Bool × BookingRecord) (line : List Char) :
    Bool × BookingRecord :=
  match sscanf_record line with
  | none => st
  | some rec =>
    if rec.room_id = room_id ∧ rec.day = day ∧ rec.hour = hour then (true, rec) else st

/-- The loop `while (fgets(line, sizeof(line), fp))` of `get_last_slot_action`;
`fuel` bounds the number of iterations. -/
def scan_loop (room_id day hour : Int) : Nat → List Char → Bool × BookingRecord →
    Bool × BookingRecord
  | 0, _, st => st
  | fuel + 1, fp, st =>
    match fgets 256 fp with
    | none => st
    | some (line, rest) => scan_loop room_id day hour fuel rest (scan_step room_id day hour st line)

/-- The results of `get_last_slot_action`: its return value, `*found`, and
the two out parameters, which every caller initialises to the empty string
and to the NUL character. -/
structure SlotAction where
  ret : Bool
  found : Bool
  username : List Char
  action : Char
  deriving DecidableEq

/-- The content of `last_match` before any assignment. -/
def no_match : BookingRecord :=
  { room_id := 0, day := 0, hour := 0, username := [], action := '\x00' }

/-- The function `get_last_slot_action`.  Every `fgets` call consumes a
character, so the length of the file is enough fuel for the loop. -/
def get_last_slot_action (file : Option (List Char)) (room_id day hour : Int) : SlotAction :=
  match file with
  | none => { ret := true, found := false, username := [], action := '\x00' }
  | some fp =>
    let st := scan_loop room_id day hour fp.length fp (false, no_match)
    if st.1 then { ret := true, found := true, username := st.2.username, action := st.2.action }
    else { ret := true, found := false, username := [], action := '\x00' }

/-! ## The transactions -/

/-- The index of a day or hour as the `int` the code compares and prints. -/
def day_int (d : Fin 7) : Int := (d.val : Int)

/-- The hour as an `int`. -/
def hour_int (h : Fin 24) : Int := (h.val : Int)

/-- The function `book_slot` on a request that passed the input loops
(`day` and `hour` are in range by their type; a room id the loops refuse is
answered by the refusal, the state unchanged).  `save_ok` and `append_ok`
tell whether `save_rooms` and the log append can open their file. -/
def book_slot (s : State) (room_id : Int) (day : Fin 7) (hour : Fin 24)
    (save_ok append_ok : Bool) : State × List Msg :=
  match current_user s with
  | none => (s, [Msg.must_login_to_book])
  | some u =>
    if !validate_room_id room_id then (s, [Msg.invalid_room_id])
    else
      match find_room_by_id s.rooms room_id with
      | none => (s, [Msg.room_not_found])
      | some room_index =>
        if slot_at s.rooms room_index day hour then
          let r := get_last_slot_action s.bookings_file room_id (day_int day) (hour_int hour)
          if r.found && r.action == 'B' then (s, [Msg.slot_already_booked_by r.username])
          else (s, [Msg.slot_already_booked])
        else
          let s1 := { s with rooms := set_slot s.rooms room_index day hour true }
          match save_rooms s1 save_ok with
          | (false, s2) =>
            ({ s2 with rooms := set_slot s2.rooms room_index day hour false },
              [Msg.save_schedule_failed])
          | (true, s2) =>
            match append_booking_record_with_action s2 room_id (day_int day) (hour_int hour)
                u.username 'B' append_ok with
            | (false, s3) => (s3, [Msg.warn_record_not_saved, Msg.booking_successful])
            | (true, s3) => (s3, [Msg.booking_successful])

/-- The function `cancel_booking` on a request that passed the input loops. -/
def cancel_booking (s : State) (room_id : Int) (day : Fin 7) (hour : Fin 24)
    (save_ok append_ok : Bool) : State × List Msg :=
  match current_user s with
  | none => (s, [Msg.must_login_to_cancel])
  | some u =>
    if !validate_room_id room_id then (s, [Msg.invalid_room_id])
    else
      match find_room_by_id s.rooms room_id with
      | none => (s, [Msg.room_not_found])
      | some room_index =>
        if !slot_at s.rooms room_index day hour then (s, [Msg.slot_not_booked])
        else
          let r := get_last_slot_action s.bookings_file room_id (day_int day) (hour_int hour)
          if !u.is_admin &&
              (!r.ret || !r.found || r.action != 'B' || r.username != u.username) then
            (s, [Msg.only_own_bookings])
          else
            let s1 := { s with rooms := set_slot s.rooms room_index day hour false }
            match save_rooms s1 save_ok with
            | (false, s2) =>
              ({ s2 with rooms := set_slot s2.rooms room_index day hour true },
                [Msg.save_changes_failed])
            | (true, s2) =>
              match append_booking_record_with_action s2 room_id (day_int day) (hour_int hour)
                  u.username 'C' append_ok with
              | (false, s3) =>
                (s3, [Msg.warn_cancellation_not_logged, Msg.cancellation_successful]
                  ++ if u.is_admin then [Msg.admin_cancellation_performed] else [])
              | (true, s3) =>
                (s3, [Msg.cancellation_successful]
                  ++ if u.is_admin then [Msg.admin_cancellation_performed] else [])

/-! ## The log as a sequence of entries -/

/-- A string as `%49s` stores it: one to forty-nine characters, none of
them white space or NUL.  Every user name of the program is read that way
(`register_user`, `load_users`) or is a seeded one. -/
def valid_token (u : List Char) : Prop :=
  u ≠ [] ∧ u.length ≤ 49 ∧ ∀ c ∈ u, isspace c = false ∧ c ≠ '\x00'

instance (u : List Char) : Decidable (valid_token u) := by
  unfold valid_token; infer_instance

/-- An action code the program writes. -/
def valid_action (a : Char) : Prop := a = 'B' ∨ a = 'C'

/-- A log file whose last line is complete: it is empty or ends in a
newline, as every append of the program leaves it. -/
def closed (fp : List Char) : Prop := ∀ c, fp.getLast? = some c → c = '\n'

instance (fp : List Char) : Decidable (closed fp) := by
  unfold closed
  cases h : fp.getLast? with
  | none => exact isTrue (fun c hc => by simp at hc)
  | some a =>
    by_cases ha : a = '\n'
    · exact isTrue (fun c hc => by simp only [Option.some.injEq] at hc; rw [← hc]; exact ha)
    · exact isFalse (fun hall => ha (hall a rfl))

/-- The lines a scanning loop sees: the successive results of
`fgets(line, 256, fp)` (`fuel` bounds their number). -/
def log_lines : Nat → List Char → List (List Char)
  | 0, _ => []
  | fuel + 1, fp =>
    match fgets 256 fp with
    | none => []
    | some (line, rest) => line :: log_lines fuel rest

/-- The entries of a log in append order: the lines from which `sscanf`
reads all five fields. -/
def log_entries (fp : List Char) : List BookingRecord :=
  (log_lines fp.length fp).filterMap sscanf_record

/-- The entries of the bookings file, none when the file does not exist. -/
def file_entries (file : Option (List Char)) : List BookingRecord :=
  match file with
  | none => []
  | some fp => log_entries fp

/-- An entry is about the slot `(room_id, day, hour)`. -/
def for_slot (room_id day hour : Int) (r : BookingRecord) : Bool :=
  decide (r.room_id = room_id ∧ r.day = day ∧ r.hour = hour)

/-- The last action on a slot in the words of the specification: the last
entry of the log, in append order, that is about the slot. -/
def last_entry_for (entries : List BookingRecord) (room_id day hour : Int) :
    Option BookingRecord :=
  (entries.filter (for_slot room_id day hour)).getLast?

/-- A line `fgets` reads whole: at most 254 characters before its newline. -/
def whole_line (line : List Char) : Prop :=
  ∃ body, line = body ++ ['\n'] ∧ (∀ c ∈ body, c ≠ '\n') ∧ body.length < 255

/-! ## Seeding, occupancy and reachable states -/

/-- The constant `MAX_ROOMS`. -/
def MAX_ROOMS : Nat := 100

/-- A room with an all-free grid, as the seeding loops and `memset` leave it. -/
def free_room (id : Int) (department type : List Char) : Classroom :=
  { id := id, department := department, type := type, schedule := fun _ _ => false }

/-- One seeding loop of `initialize_sample_data`: `n` consecutive ids from
`i` on, while `idx < MAX_ROOMS`. -/
def seed_rooms : Nat → Int → List Char → List Char → List Classroom → List Classroom
  | 0, _, _, _, rooms => rooms
  | n + 1, i, department, type, rooms =>
    if rooms.length < MAX_ROOMS then
      seed_rooms n (i + 1) department type (rooms ++ [free_room i department type])
    else rooms

/-- The function `initialize_sample_data`: two users, the rooms 101..123,
201..223 and 301..323, and the bookings file created when it is absent
(`fopen_ok` tells whether it could be opened). -/
def initialize_sample_data (s : State) (fopen_ok : Bool) : State :=
  { s with
    users := [ { username := "admin".toList, password := "admin123".toList, is_admin := true },
               { username := "faculty".toList, password := "faculty123".toList,
                 is_admin := false } ]
    rooms :=
      seed_rooms 23 301 "CSE".toList "lab".toList
        (seed_rooms 23 201 "EEE".toList "general".toList
          (seed_rooms 23 101 "CSE".toList "lab".toList []))
    bookings_file := if fopen_ok then some (s.bookings_file.getD []) else s.bookings_file }

/-- The test `rooms[find_room_by_id(room_id)].schedule[day][hour]` both
transactions make: the slot of the room found for the id is booked. -/
def occupied (s : State) (room_id : Int) (day : Fin 7) (hour : Fin 24) : Bool :=
  match find_room_by_id s.rooms room_id with
  | none => false
  | some i => slot_at s.rooms i day hour

/-- The permission test of `cancel_booking` (the condition under which it
prints the own-bookings line): true for a Regular actor unless the last
action on the slot is a Book by that actor. -/
def gate_closed (s : State) (u : User) (room_id : Int) (day : Fin 7) (hour : Fin 24) : Bool :=
  !u.is_admin &&
    (!(get_last_slot_action s.bookings_file room_id (day_int day) (hour_int hour)).ret
      || !(get_last_slot_action s.bookings_file room_id (day_int day) (hour_int hour)).found
      || (get_last_slot_action s.bookings_file room_id (day_int day) (hour_int hour)).action
          != 'B'
      || (get_last_slot_action s.bookings_file room_id (day_int day) (hour_int hour)).username
          != u.username)

/-- The states the program reaches from seeded data and an empty log when
every `save_rooms` and every log append succeeds.  Registration, login and
logout only change the accounts and the current user; every user name
they store is a `%49s` token. -/
inductive Reachable : State → Prop
  | seeded (s : State) (fopen_ok : Bool) (h : s.bookings_file.getD [] = []) :
      Reachable (initialize_sample_data s fopen_ok)
  | accounts (s : State) (users : List User) (current : Option Nat)
      (h : Reachable s) (hv : ∀ u ∈ users, valid_token u.username) :
      Reachable { s with users := users, current_user_index := current }
  | book (s : State) (room_id : Int) (day : Fin 7) (hour : Fin 24) (h : Reachable s) :
      Reachable (book_slot s room_id day hour true true).1
  | cancel (s : State) (room_id : Int) (day : Fin 7) (hour : Fin 24) (h : Reachable s) :
      Reachable (cancel_booking s room_id day hour true true).1

/-- Grid and log agree: a slot is booked exactly when the log holds an
entry for it and the last one is a booking. -/
def consistent (rooms : List Classroom) (file : Option (List Char)) : Prop :=
  ∀ (i : Nat) (r : Classroom) (d : Fin 7) (h : Fin 24), rooms[i]? = some r →
    (r.schedule d h = true ↔
      ∃ e, last_entry_for (file_entries file) r.id (day_int d) (hour_int h) = some e
        ∧ e.action = 'B')

/-- The invariant of the reachable states: user names are tokens, the log
ends in a complete line, room ids are pairwise distinct, and grid and log
agree. -/
def invariant (s : State) : Prop :=
  (∀ u ∈ s.users, valid_token u.username)
    ∧ closed (s.bookings_file.getD [])
    ∧ (s.rooms.map fun r => r.id).Nodup
    ∧ consistent s.rooms s.bookings_file

/-! ## Sample states -/

/-- The seeded state of a first run: no files yet, nobody logged in. -/
def st_seed : State :=
  initialize_sample_data
    { rooms := [], users := [], current_user_index := none, rooms_file := none,
      bookings_file := none } true

/-- Two registered regular users next to the seeded accounts, `alice`
(index 2) logged in. -/
def st_alice : State :=
  { st_seed with
    users := st_seed.users ++
      [ { username := "alice".toList, password := "pw1".toList, is_admin := false },
        { username := "bob".toList, password := "pw2".toList, is_admin := false } ]
    current_user_index := some 2 }

/-- After `alice` booked room 101 on Monday at 9. -/
def st_booked : State := (book_slot st_alice 101 1 9 true true).1

/-- The booked state with `bob` (index 3) logged in. -/
def st_bob : State := { st_booked with current_user_index := some 3 }

/-- The booked state with the seeded admin (index 0) logged in. -/
def st_admin : State := { st_booked with current_user_index := some 0 }

/-- The frame of a request on the slot `(room_id, day, hour)`: between `s`
and `t` the accounts, the current user and the room count are the same,
every room keeps its id, department and type, and a cell differs only if it
is the cell `(day, hour)` of the room found for `room_id`. -/
def only_cell_differs (s t : State) (room_id : Int) (day : Fin 7) (hour : Fin 24) : Prop :=
  t.users = s.users ∧ t.current_user_index = s.current_user_index
    ∧ t.rooms.length = s.rooms.length
    ∧ ∀ (j : Nat) (r r1 : Classroom), s.rooms[j]? = some r → t.rooms[j]? = some r1 →
        r1.id = r.id ∧ r1.department = r.department ∧ r1.type = r.type
          ∧ ∀ (d : Fin 7) (h : Fin 24), r1.schedule d h ≠ r.schedule d h →
              find_room_by_id s.rooms room_id = some j ∧ d = day ∧ h = hour

/-! ## The history part of `my_bookings` -/

/-- The lines the history listing selects for printing, each for a log
record; `HistoryLine.text` is the text printed, which reads `days[rec.day]`
without a range check. -/
inductive HistoryLine where
  /-- The line `[BOOKED] Room r | day at hour`. -/
  | booked (rec : BookingRecord)
  /-- The line `[CANCELLED] Room r | day at hour`, for an own record whose
  action is neither `'B'` nor `'C'`. -/
  | cancelled (rec : BookingRecord)
  /-- The line `[CANCELLED] Room r | day at hour (by you)`. -/
  | cancelled_by_you (rec : BookingRecord)
  /-- The line `[CANCELLED] Room r | day at hour (by admin)`. -/
  | cancelled_by_admin (rec : BookingRecord)
  deriving DecidableEq

/-- The log record a history line was printed for. -/
def HistoryLine.record : HistoryLine → BookingRecord
  | booked rec => rec
  | cancelled rec => rec
  | cancelled_by_you rec => rec
  | cancelled_by_admin rec => rec

/-- What the first pass prints for a record of the queried user. -/
def own_line (rec : BookingRecord) : HistoryLine :=
  if rec.action = 'B' then HistoryLine.booked rec
  else if rec.action = 'C' then HistoryLine.cancelled_by_you rec
  else HistoryLine.cancelled rec

/-- The first pass of `my_bookings` over the bookings file: the records
whose user name is the queried one. -/
def history_pass1 (username : List Char) : Nat → List Char → List HistoryLine
  | 0, _ => []
  | fuel + 1, fp =>
    match fgets 256 fp with
    | none => []
    | some (line, rest) =>
      match sscanf_record line with
      | none => history_pass1 username fuel rest
      | some rec =>
        if rec.username = username then own_line rec :: history_pass1 username fuel rest
        else history_pass1 username fuel rest

/-- The test of the second pass on one record: a Cancel by another user on
a slot for which `get_last_slot_action` (a scan of the whole file) reports
a Book by the queried user. -/
def cross_referenced (file : Option (List Char)) (username : List Char)
    (rec : BookingRecord) : Bool :=
  decide (rec.action = 'C' ∧ rec.username ≠ username)
    && ((get_last_slot_action file rec.room_id rec.day rec.hour).found
      && (get_last_slot_action file rec.room_id rec.day rec.hour).action == 'B'
      && (get_last_slot_action file rec.room_id rec.day rec.hour).username == username)

/-- The second pass of `my_bookings`, after `rewind(fp)`. -/
def history_pass2 (file : Option (List Char)) (username : List Char) :
    Nat → List Char → List HistoryLine
  | 0, _ => []
  | fuel + 1, fp =>
    match fgets 256 fp with
    | none => []
    | some (line, rest) =>
      match sscanf_record line with
      | none => history_pass2 file username fuel rest
      | some rec =>
        if cross_referenced file username rec then
          HistoryLine.cancelled_by_admin rec :: history_pass2 file username fuel rest
        else history_pass2 file username fuel rest

/-- What the history part of `my_bookings` prints. -/
inductive HistoryOutput where
  /-- Nobody is logged in. -/
  | must_login
  /-- The bookings file could not be opened. -/
  | could_not_open
  /-- The lines of the two passes; `found_any` is false when the line
  `No booking history found.` closes the listing. -/
  | history (lines : List HistoryLine) (found_any : Bool)
  deriving DecidableEq

/-- The history part of the function `my_bookings`.  Every `fgets` call
consumes a character, so the length of the file is enough fuel for both
passes. -/
def my_bookings (s : State) : HistoryOutput :=
  match current_user s with
  | none => HistoryOutput.must_login
  | some u =>
    match s.bookings_file with
    | none => HistoryOutput.could_not_open
    | some fp =>
      let lines := history_pass1 u.username fp.length fp
        ++ history_pass2 (some fp) u.username fp.length fp
      HistoryOutput.history lines (!lines.isEmpty)

/-- The queried user's history as a list of lines (empty when nothing is
listed). -/
def history_lines (s : State) : List HistoryLine :=
  match my_bookings s with
  | HistoryOutput.history lines _ => lines
  | _ => []

/-- After the admin cancelled the booking of `alice`, with `alice` (index
2) logged in. -/
def st_cancelled : State :=
  { (cancel_booking st_admin 101 1 9 true true).1 with current_user_index := some 2 }

/-- After `alice` booked the slot again. -/
def st_rebooked : State := (book_slot st_cancelled 101 1 9 true true).1

/-! ## Reading the rooms file and adding rooms -/

/-- The cells of one room as `load_rooms` reads them: `n` calls
`fscanf(fp, "%d", &booked)`, each giving the flag `booked == 1`. -/
def read_flags : Nat → List Char → Option (List Bool × List Char)
  | 0, fp => some ([], fp)
  | n + 1, fp =>
    match scanInt fp with
    | none => none
    | some (booked, rest) =>
      match read_flags n rest with
      | none => none
      | some (flags, rest1) => some (decide (booked = 1) :: flags, rest1)

/-- The matrix filled from the flags read day-major, hour-minor. -/
def schedule_of (flags : List Bool) : Fin 7 → Fin 24 → Bool :=
  fun d h => flags.getD (d.val * 24 + h.val) false

/-- The loop of `load_rooms` over `n` rooms: `fscanf(fp, "%d %19s %9s", ...)`
then the 7 x 24 flags; `none` when a read fails (the function returns false). -/
def read_rooms : Nat → List Char → Option (List Classroom)
  | 0, _ => some []
  | n + 1, fp =>
    match scanInt fp with
    | none => none
    | some (id, s1) =>
      match scanStr 19 s1 with
      | none => none
      | some (department, s2) =>
        match scanStr 9 s2 with
        | none => none
        | some (type, s3) =>
          match read_flags 168 s3 with
          | none => none
          | some (flags, s4) =>
            match read_rooms n s4 with
            | none => none
            | some rooms =>
              some ({ id := id, department := department, type := type,
                      schedule := schedule_of flags } :: rooms)

/-- The outcome of `load_rooms`. -/
inductive LoadResult where
  /-- The function returns false: the file cannot be opened or a read fails
  (the arrays are then partly overwritten and the only caller seeds them again). -/
  | failed
  /-- The count read is negative: the function returns true with
  `room_count` negative, which no state of this model holds. -/
  | negative_count (room_count : Int)
  /-- The count read is above `MAX_ROOMS` and `MAX_ROOMS` rooms have been
  read: the next room is stored past the end of the array, which is
  undefined behaviour. -/
  | overrun
  /-- The function returns true with these rooms, `room_count` being their
  number. -/
  | loaded (rooms : List Classroom)

/-- The rooms of a successful load. -/
def LoadResult.rooms : LoadResult → Option (List Classroom)
  | loaded rooms => some rooms
  | _ => none

/-- A string as `%19s` or `%9s` stores it in a room: one to `n` characters,
none of them white space. -/
def room_token (n : Nat) (t : List Char) : Prop :=
  t ≠ [] ∧ t.length ≤ n ∧ ∀ c ∈ t, isspace c = false

/-- The C `tolower` on ASCII letters. -/
def tolower (c : Char) : Char :=
  if 'A'.toNat ≤ c.toNat ∧ c.toNat ≤ 'Z'.toNat then Char.ofNat (c.toNat + 32) else c

/-- The function `to_lower_case`. -/
def to_lower_case (str : List Char) : List Char := str.map tolower

/-- The function `validate_room_type`: the first nine characters, in lower
case, are `lab` or `general`. -/
def validate_room_type (type : List Char) : Bool :=
  to_lower_case (type.take 9) == "lab".toList
    || to_lower_case (type.take 9) == "general".toList

/-- The lines `add_classroom` prints. -/
inductive AddMsg where
  | only_admins
  | max_capacity
  | invalid_input
  | invalid_room_id
  | room_exists
  | invalid_type
  | warn_not_saved
  | added_and_saved
  deriving DecidableEq

/-- The loop of `add_classroom` asking for the room type: each answer is
put in lower case and the first valid one is kept; the list holds the
successive answers as `%9s` stores them. -/
def ask_room_type : List (List Char) → Option (List Char) × List AddMsg
  | [] => (none, [])
  | t :: ts =>
    if validate_room_type (to_lower_case t) then (some (to_lower_case t), [])
    else ((ask_room_type ts).1, AddMsg.invalid_type :: (ask_room_type ts).2)

/-- The function `add_classroom`.  `id` is the number `scanf("%d")` read
(`none` when it read none), `department` the string `%19s` stored, `types`
the successive answers to the type prompt (when none of them is valid the
loop is still asking and no room has been added). -/
def add_classroom (s : State) (id : Option Int) (department : List Char)
    (types : List (List Char)) (save_ok : Bool) : State × List AddMsg :=
  match current_user s with
  | none => (s, [AddMsg.only_admins])
  | some u =>
    if !u.is_admin then (s, [AddMsg.only_admins])
    else if s.rooms.length ≥ MAX_ROOMS then (s, [AddMsg.max_capacity])
    else
      match id with
      | none => (s, [AddMsg.invalid_input])
      | some id =>
        if !validate_room_id id then (s, [AddMsg.invalid_room_id])
        else
          match find_room_by_id s.rooms id with
          | some _ => (s, [AddMsg.room_exists])
          | none =>
            match ask_room_type types with
            | (none, msgs) => (s, msgs)
            | (some type, msgs) =>
              let s1 := { s with rooms :=
                s.rooms ++ [free_room id (department.take 19) (type.take 9)] }
              match save_rooms s1 save_ok with
              | (false, s2) => (s2, msgs ++ [AddMsg.warn_not_saved])
              | (true, s2) => (s2, msgs ++ [AddMsg.added_and_saved])

/-- The states reached from seeded data by account changes (registration,
login, logout), `add_classroom`, `book_slot` and `cancel_booking`, whatever
the outcome of the file operations.  The department `add_classroom` gets is
a `%19s` string. -/
inductive RoomsReachable : State → Prop
  | seeded (s : State) (fopen_ok : Bool) : RoomsReachable (initialize_sample_data s fopen_ok)
  | accounts (s : State) (users : List User) (current : Option Nat) (h : RoomsReachable s) :
      RoomsReachable { s with users := users, current_user_index := current }
  | add (s : State) (id : Option Int) (department : List Char) (types : List (List Char))
      (save_ok : Bool) (h : RoomsReachable s) (hd : room_token 19 department) :
      RoomsReachable (add_classroom s id department types save_ok).1
  | book (s : State) (room_id : Int) (day : Fin 7) (hour : Fin 24) (save_ok append_ok : Bool)
      (h : RoomsReachable s) : RoomsReachable (book_slot s room_id day hour save_ok append_ok).1
  | cancel (s : State) (room_id : Int) (day : Fin 7) (hour : Fin 24) (save_ok append_ok : Bool)
      (h : RoomsReachable s) :
      RoomsReachable (cancel_booking s room_id day hour save_ok append_ok).1

/-- The identifiers of the rooms are pairwise distinct, each passes
`validate_room_id`, the rooms fit the array, and departments and types are
strings `%19s` and `%9s` read back. -/
def rooms_invariant (rooms : List Classroom) : Prop :=
  (rooms.map fun r => r.id).Nodup
    ∧ (∀ r ∈ rooms, validate_room_id r.id = true)
    ∧ rooms.length ≤ MAX_ROOMS
    ∧ ∀ r ∈ rooms, room_token 19 r.department ∧ room_token 9 r.type

/-- The seeded state with the admin (index 0) logged in. -/
def st_seed_admin : State := { st_seed with current_user_index := some 0 }

/-- The flags of a matrix row by row, in the order `save_rooms` writes them. -/
def matrix_rows (schedule : Fin 7 → Fin 24 → Bool) : List (List Bool) :=
  (List.finRange 7).map fun d => (List.finRange 24).map fun h => schedule d h

instance (n : Nat) (t : List Char) : Decidable (room_token n t) := by
  unfold room_token; infer_instance

/-! ## Hours in the 12-hour clock -/

/-- The C `toupper` on ASCII letters. -/
def toupper (c : Char) : Char :=
  if 'a'.toNat ≤ c.toNat ∧ c.toNat ≤ 'z'.toNat then Char.ofNat (c.toNat - 32) else c

/-- The function `hour_to_ampm`: the text `sprintf` stores. -/
def hour_to_ampm (hour24 : Int) : List Char :=
  if hour24 = 0 then "12AM".toList
  else if hour24 < 12 then fmtInt hour24 ++ "AM".toList
  else if hour24 = 12 then "12PM".toList
  else fmtInt (hour24 - 12) ++ "PM".toList

/-- The call `sscanf(input, "%d%2s%n", &hour, period, &parsed)` when it
returns 2: the hour, the period and the text from `input[parsed]` on. -/
def sscanf_hour_period (input : List Char) : Option (Int × List Char × List Char) :=
  match scanInt (cstr input) with
  | none => none
  | some (hour, s1) =>
    match scanStr 2 s1 with
    | none => none
    | some (period, unread) => some (hour, period, unread)

/-- The call `sscanf(input, "%d %2s%n", &hour, period, &parsed)` when it
returns 2: the blank of the format skips white space before `%2s` does. -/
def sscanf_hour_blank_period (input : List Char) : Option (Int × List Char × List Char) :=
  match scanInt (cstr input) with
  | none => none
  | some (hour, s1) =>
    match scanStr 2 (skipWs s1) with
    | none => none
    | some (period, unread) => some (hour, period, unread)

/-- The two attempts of `parse_ampm_input` to read an hour and a period with
nothing left unread (`input[parsed] == '\0'`). -/
def read_hour_period (input : List Char) : Option (Int × List Char) :=
  match sscanf_hour_period input with
  | some (hour, period, []) => some (hour, period)
  | _ =>
    match sscanf_hour_blank_period input with
    | some (hour, period, []) => some (hour, period)
    | _ => none

/-- The function `parse_ampm_input`: the value stored in `*hour24` when it
returns true, `none` when it returns false. -/
def parse_ampm_input (input : List Char) : Option Int :=
  match read_hour_period input with
  | none => none
  | some (hour, period0) =>
    let period := period0.map toupper
    if period ≠ "AM".toList ∧ period ≠ "PM".toList then none
    else if hour < 1 ∨ hour > 12 then none
    else if period = "AM".toList then some (if hour = 12 then 0 else hour)
    else some (if hour = 12 then 12 else hour + 12)

/-- The spellings of a suffix that `toupper` turns into `AM`. -/
def am_forms : List (List Char) := ["AM".toList, "Am".toList, "aM".toList, "am".toList]

/-- The spellings of a suffix that `toupper` turns into `PM`. -/
def pm_forms : List (List Char) := ["PM".toList, "Pm".toList, "pM".toList, "pm".toList]

/-- The function `load_rooms` on the text of the rooms file: the count,
then at most `MAX_ROOMS` rooms into the array. -/
def load_rooms_text (fp : List Char) : LoadResult :=
  match scanInt fp with
  | none => LoadResult.failed
  | some (room_count, rest) =>
    if room_count < 0 then LoadResult.negative_count room_count
    else if room_count > (MAX_ROOMS : Int) then
      match read_rooms MAX_ROOMS rest with
      | none => LoadResult.failed
      | some _ => LoadResult.overrun
    else
      match read_rooms room_count.toNat rest with
      | none => LoadResult.failed
      | some rooms => LoadResult.loaded rooms

/-- The function `load_rooms`: it reads the rooms file and touches nothing
but `rooms` and `room_count`. -/
def load_rooms (s : State) : LoadResult :=
  match s.rooms_file with
  | none => LoadResult.failed
  | some fp => load_rooms_text fp

/-- The array `days`. -/
def days : List (List Char) :=
  ["Sun".toList, "Mon".toList, "Tue".toList, "Wed".toList, "Thu".toList, "Fri".toList,
    "Sat".toList]

/-- The read `days[day]`: `none` when the index is outside the array, where
the read is undefined behaviour. -/
def day_name (day : Int) : Option (List Char) :=
  if 0 ≤ day ∧ day < 7 then days[day.toNat]? else none

/-- The buffer `time_display[10]` after `hour_to_ampm(hour, time_display)`:
`none` when the text and its terminator do not fit the ten bytes. -/
def time_display (hour : Int) : Option (List Char) :=
  if (hour_to_ampm hour).length < 10 then some (hour_to_ampm hour) else none

/-- The text `my_bookings` prints for a history line; `none` when printing
it reads `days[rec.day]` outside the array or overruns `time_display`. -/
def HistoryLine.text (l : HistoryLine) : Option (List Char) :=
  match day_name l.record.day, time_display l.record.hour with
  | some day, some time =>
    let slot := "Room ".toList ++ fmtInt l.record.room_id ++ " | ".toList ++ day
      ++ " at ".toList ++ time
    match l with
    | HistoryLine.booked _ => some ("\t\t\t\t\t[BOOKED] ".toList ++ slot ++ "\n".toList)
    | HistoryLine.cancelled _ => some ("\t\t\t\t\t[CANCELLED] ".toList ++ slot ++ "\n".toList)
    | HistoryLine.cancelled_by_you _ =>
      some ("\t\t\t\t\t[CANCELLED] ".toList ++ slot ++ " (by you)\n".toList)
    | HistoryLine.cancelled_by_admin _ =>
      some ("\t\t\t\t\t[CANCELLED] ".toList ++ slot ++ " (by admin)\n".toList)
  | _, _ => none

/-- The booked state with the log lacking its final newline. -/
def st_admin_open_log : State := { st_admin with bookings_file := some "101 1 9 B alice".toList }

/-- A state that holds nothing but the rooms file `save_rooms` wrote for the
booked state. -/
def st_reload : State :=
  { rooms := [], users := [], current_user_index := none,
    rooms_file := (save_rooms st_booked true).2.rooms_file, bookings_file := none }

/-! ## Decimal text: writing then reading gives the number back -/

theorem digitChar_facts (d : Fin 10) :
    isdigit (digitChar d.val) = true ∧ digitVal (digitChar d.val) = d.val := by
  revert d; decide

theorem isdigit_digitChar (d : Nat) (h : d < 10) : isdigit (digitChar d) = true :=
  (digitChar_facts ⟨d, h⟩).1

theorem digitVal_digitChar (d : Nat) (h : d < 10) : digitVal (digitChar d) = d :=
  (digitChar_facts ⟨d, h⟩).2

theorem fmtNatAux_acc (fuel n : Nat) (acc : List Char) :
    fmtNatAux fuel n acc = fmtNatAux fuel n [] ++ acc := by
  induction fuel generalizing n acc with
  | zero => simp [fmtNatAux]
  | succ k ih =>
    simp only [fmtNatAux]
    split
    · simp
    · rw [ih (n / 10) (digitChar (n % 10) :: acc), ih (n / 10) [digitChar (n % 10)]]
      simp

theorem fmtNatAux_fuel (f1 f2 n : Nat) (acc : List Char) (h1 : n < f1) (h2 : n < f2) :
    fmtNatAux f1 n acc = fmtNatAux f2 n acc := by
  induction f1 generalizing f2 n acc with
  | zero => omega
  | succ k ih =>
    cases f2 with
    | zero => omega
    | succ m =>
      simp only [fmtNatAux]
      split
      · rfl
      · exact ih m (n / 10) _ (by omega) (by omega)

theorem fmtNat_lt (n : Nat) (h : n < 10) : fmtNat n = [digitChar n] := by
  simp [fmtNat, fmtNatAux, h]

theorem fmtNat_ge (n : Nat) (h : 10 ≤ n) :
    fmtNat n = fmtNat (n / 10) ++ [digitChar (n % 10)] := by
  have hn : ¬ n < 10 := by omega
  unfold fmtNat
  rw [fmtNatAux, if_neg hn, fmtNatAux_acc]
  rw [fmtNatAux_fuel n (n / 10 + 1) (n / 10) [] (by omega) (by omega)]

theorem fmtNat_digits (n : Nat) : ∀ c ∈ fmtNat n, isdigit c = true := by
  induction n using Nat.strong_induction_on with
  | _ n ih =>
    by_cases h : n < 10
    · rw [fmtNat_lt n h]
      intro c hc
      simp only [List.mem_singleton] at hc
      subst hc
      exact isdigit_digitChar n h
    · rw [fmtNat_ge n (by omega)]
      intro c hc
      rcases List.mem_append.1 hc with hc | hc
      · exact ih (n / 10) (by omega) c hc
      · simp only [List.mem_singleton] at hc
        subst hc
        exact isdigit_digitChar _ (Nat.mod_lt _ (by omega))

theorem fmtNat_ne_nil (n : Nat) : fmtNat n ≠ [] := by
  by_cases h : n < 10
  · rw [fmtNat_lt n h]; simp
  · rw [fmtNat_ge n (by omega)]; simp

theorem fmtNat_length (n k : Nat) (h : n < 10 ^ (k + 1)) : (fmtNat n).length ≤ k + 1 := by
  induction k generalizing n with
  | zero => rw [fmtNat_lt n (by simpa using h)]; simp
  | succ k ih =>
    by_cases h10 : n < 10
    · rw [fmtNat_lt n h10]; simp
    · rw [fmtNat_ge n (by omega)]
      have : n / 10 < 10 ^ (k + 1) := by
        rw [Nat.div_lt_iff_lt_mul (by omega)]
        calc n < 10 ^ (k + 1 + 1) := h
          _ = 10 ^ (k + 1) * 10 := by ring
      have := ih (n / 10) this
      simp only [List.length_append, List.length_singleton]
      omega

theorem scanDigits_append (ds rest : List Char) (v : Nat) (h : ∀ c ∈ ds, isdigit c = true) :
    scanDigits v (ds ++ rest)
      = scanDigits (ds.foldl (fun a c => a * 10 + digitVal c) v) rest := by
  induction ds generalizing v with
  | nil => simp
  | cons c cs ih =>
    have hc : isdigit c = true := h c (List.mem_cons_self _ _)
    simp only [List.cons_append, scanDigits, hc, if_true, List.foldl_cons]
    exact ih _ (fun x hx => h x (List.mem_cons_of_mem _ hx))

theorem fmtNat_value (n v : Nat) :
    (fmtNat n).foldl (fun a c => a * 10 + digitVal c) v = v * 10 ^ (fmtNat n).length + n := by
  induction n using Nat.strong_induction_on generalizing v with
  | _ n ih =>
    by_cases h : n < 10
    · rw [fmtNat_lt n h]
      simp [digitVal_digitChar n h]
    · rw [fmtNat_ge n (by omega)]
      rw [List.foldl_append, ih (n / 10) (by omega)]
      simp only [List.foldl_cons, List.foldl_nil, List.length_append, List.length_singleton]
      rw [digitVal_digitChar _ (Nat.mod_lt _ (by omega))]
      have := Nat.div_add_mod n 10
      rw [pow_succ]
      nlinarith [Nat.div_add_mod n 10]

theorem scanDigits_stop (v : Nat) (rest : List Char)
    (h : ∀ c t, rest = c :: t → isdigit c = false) : scanDigits v rest = (v, rest) := by
  cases rest with
  | nil => rfl
  | cons c t => simp [scanDigits, h c t rfl]

theorem scanNat_fmtNat (n : Nat) (rest : List Char)
    (h : ∀ c t, rest = c :: t → isdigit c = false) :
    scanNat (fmtNat n ++ rest) = some (n, rest) := by
  have hd := fmtNat_digits n
  have hne := fmtNat_ne_nil n
  have key : scanDigits 0 (fmtNat n ++ rest) = (n, rest) := by
    rw [scanDigits_append _ _ _ hd, fmtNat_value, scanDigits_stop _ _ h]
    simp
  cases hf : fmtNat n with
  | nil => exact absurd hf hne
  | cons c t =>
    have hc : isdigit c = true := hd c (by rw [hf]; exact List.mem_cons_self _ _)
    rw [hf] at key
    simp only [scanNat, List.cons_append, hc, if_true] at key ⊢
    rw [key]

theorem isdigit_not_space (c : Char) (h : isdigit c = true) :
    isspace c = false ∧ c ≠ '-' ∧ c ≠ '+' ∧ c ≠ '\x00' ∧ c ≠ '\n' := by
  have h1 : 48 ≤ c.toNat ∧ c.toNat ≤ 57 := by
    simpa [isdigit] using h
  refine ⟨?_, ?_, ?_, ?_, ?_⟩
  · simp only [isspace, Bool.or_eq_false_iff, beq_eq_false_iff_ne, ne_eq]
    refine ⟨⟨⟨⟨⟨?_, ?_⟩, ?_⟩, ?_⟩, ?_⟩, ?_⟩ <;> (intro hc; subst hc; revert h1; decide)
  all_goals (intro hc; subst hc; revert h1; decide)

theorem to_int_to_long (v : Int) (h : int_range v) : to_int (to_long v) = v := by
  obtain ⟨h1, h2⟩ := h
  have hl : to_long v = v := by
    unfold to_long
    rw [if_neg (by omega), if_neg (by omega)]
  rw [hl]
  unfold to_int
  omega

/-- What `%d` reads from a number written in decimal: the number as stored
into the `int`. -/
theorem scanInt_fmtInt_wrap (i : Int) (rest : List Char)
    (h : ∀ c t, rest = c :: t → isdigit c = false) :
    scanInt (fmtInt i ++ rest) = some (to_int (to_long i), rest) := by
  cases i with
  | ofNat n =>
    have hs := scanNat_fmtNat n rest h
    have hd := fmtNat_digits n
    cases hf : fmtNat n with
    | nil => exact absurd hf (fmtNat_ne_nil n)
    | cons c t =>
      have hc : isdigit c = true := hd c (by rw [hf]; exact List.mem_cons_self _ _)
      obtain ⟨h1, h2, h3, -, -⟩ := isdigit_not_space c hc
      rw [hf] at hs
      simp only [fmtInt, hf, List.cons_append] at hs ⊢
      unfold scanInt
      simp only [skipWs, h1, Bool.false_eq_true, if_false]
      split
      · rename_i heq; simp only [List.cons.injEq] at heq; exact absurd heq.1 h2
      · rename_i heq; simp only [List.cons.injEq] at heq; exact absurd heq.1 h3
      · rw [hs]; rfl
  | negSucc n =>
    have hs := scanNat_fmtNat (n + 1) rest h
    simp only [fmtInt, List.cons_append]
    unfold scanInt
    have : isspace '-' = false := by decide
    simp only [skipWs, this, Bool.false_eq_true, if_false]
    rw [hs]
    simp [Int.negSucc_eq]

theorem scanInt_fmtInt (i : Int) (rest : List Char) (hi : int_range i)
    (h : ∀ c t, rest = c :: t → isdigit c = false) :
    scanInt (fmtInt i ++ rest) = some (i, rest) := by
  rw [scanInt_fmtInt_wrap i rest h, to_int_to_long i hi]

theorem int_range_small (i : Int) (h : 0 ≤ i ∧ i < 1000) : int_range i := by
  unfold int_range
  omega

theorem scanInt_blank (s : List Char) : scanInt (' ' :: s) = scanInt s := by
  have : isspace ' ' = true := by decide
  simp [scanInt, skipWs, this]

theorem fmtInt_chars (i : Int) :
    ∀ c ∈ fmtInt i, isspace c = false ∧ c ≠ '\x00' ∧ c ≠ '\n' := by
  intro c hc
  cases i with
  | ofNat n =>
    obtain ⟨h1, -, -, h4, h5⟩ := isdigit_not_space c (fmtNat_digits n c hc)
    exact ⟨h1, h4, h5⟩
  | negSucc n =>
    simp only [fmtInt, List.mem_cons] at hc
    rcases hc with hc | hc
    · subst hc; decide
    · obtain ⟨h1, -, -, h4, h5⟩ := isdigit_not_space c (fmtNat_digits _ c hc)
      exact ⟨h1, h4, h5⟩

theorem fmtInt_length (i : Int) (h0 : 0 ≤ i) (h : i < 1000) : (fmtInt i).length ≤ 3 := by
  cases i with
  | ofNat n =>
    have : n < 10 ^ (2 + 1) := by
      have : (n : Int) < 1000 := h
      omega
    exact fmtNat_length n 2 this
  | negSucc n => exact absurd h0 (by simp [Int.negSucc_lt_zero])

/-! ## Tokens: what `%49s` reads back -/

theorem takeToken_token (u rest : List Char) (n : Nat) (hlen : u.length ≤ n)
    (hu : ∀ c ∈ u, isspace c = false) (hr : ∀ c t, rest = c :: t → isspace c = true) :
    takeToken n (u ++ rest) = (u, rest) := by
  induction u generalizing n with
  | nil =>
    cases n with
    | zero => simp [takeToken]
    | succ m =>
      cases rest with
      | nil => simp [takeToken]
      | cons c t => simp [takeToken, hr c t rfl]
  | cons c cs ih =>
    cases n with
    | zero => simp at hlen
    | succ m =>
      have hc : isspace c = false := hu c (List.mem_cons_self _ _)
      have := ih m (by simpa using hlen) (fun x hx => hu x (List.mem_cons_of_mem _ hx))
      simp [takeToken, hc, this]

theorem cstr_id (l : List Char) (h : ∀ c ∈ l, c ≠ '\x00') : cstr l = l := by
  induction l with
  | nil => rfl
  | cons c cs ih =>
    have hc : c ≠ '\x00' := h c (List.mem_cons_self _ _)
    simp [cstr, hc, ih (fun x hx => h x (List.mem_cons_of_mem _ hx))]

theorem fmt_record_no_nul (room_id day hour : Int) (action : Char) (username : List Char)
    (ha : valid_action action) (hu : valid_token username) :
    ∀ c ∈ fmt_record room_id day hour action username, c ≠ '\x00' := by
  intro c hc
  simp only [fmt_record, List.mem_append, List.mem_singleton] at hc
  rcases hc with ((((((((hc | hc) | hc) | hc) | hc) | hc) | hc) | hc) | hc) | hc
  · exact (fmtInt_chars _ c hc).2.1
  · subst hc; decide
  · exact (fmtInt_chars _ c hc).2.1
  · subst hc; decide
  · exact (fmtInt_chars _ c hc).2.1
  · subst hc; decide
  · subst hc; rcases ha with ha | ha <;> (subst ha; decide)
  · subst hc; decide
  · exact (hu.2.2 c hc).2
  · subst hc; decide

theorem sscanf_fmt_record (room_id day hour : Int) (action : Char) (username : List Char)
    (hr : int_range room_id) (hd : int_range day) (hh : int_range hour)
    (ha : valid_action action) (hu : valid_token username) :
    sscanf_record (fmt_record room_id day hour action username)
      = some { room_id := room_id, day := day, hour := hour,
               username := username, action := action } := by
  have hsp : ∀ (c : Char) (t : List Char) (l : List Char), (' ' :: l) = c :: t →
      isdigit c = false := by
    intro c t l h
    simp only [List.cons.injEq] at h
    rw [← h.1]; decide
  have hact : isspace action = false := by
    rcases ha with ha | ha <;> (subst ha; decide)
  obtain ⟨hne, hlen, hch⟩ := hu
  unfold sscanf_record
  rw [cstr_id _ (fmt_record_no_nul room_id day hour action username ha ⟨hne, hlen, hch⟩)]
  have e : fmt_record room_id day hour action username
      = fmtInt room_id ++ (' ' :: (fmtInt day ++ (' ' :: (fmtInt hour ++
          (' ' :: action :: ' ' :: (username ++ ['\n'])))))) := by
    simp [fmt_record]
  rw [e, scanInt_fmtInt room_id _ hr (fun c t h => hsp c t _ h)]
  simp only
  rw [scanInt_blank, scanInt_fmtInt day _ hd (fun c t h => hsp c t _ h)]
  simp only
  rw [scanInt_blank, scanInt_fmtInt hour _ hh (fun c t h => hsp c t _ h)]
  have hspace : isspace ' ' = true := by decide
  have h4 : scanChar (' ' :: action :: ' ' :: (username ++ ['\n']))
      = some (action, ' ' :: (username ++ ['\n'])) := by
    simp [scanChar, skipWs, hspace, hact]
  simp only [h4]
  cases username with
  | nil => exact absurd rfl hne
  | cons c cs =>
    have hc : isspace c = false := (hch c (List.mem_cons_self _ _)).1
    have htok := takeToken_token (c :: cs) ['\n'] 49 hlen (fun x hx => (hch x hx).1)
      (by intro x t h; simp only [List.cons.injEq] at h; rw [← h.1]; decide)
    have h5 : scanStr 49 (' ' :: (c :: cs ++ ['\n'])) = some (c :: cs, ['\n']) := by
      unfold scanStr
      simp only [skipWs, hspace, if_true, List.cons_append, hc, Bool.false_eq_true, if_false]
      simp only [List.cons_append] at htok
      exact congrArg some htok
    simp only [h5]

/-! ## Reading the log line by line -/

theorem fgets_take_split (n : Nat) (fp : List Char) :
    (fgets_take n fp).1 ++ (fgets_take n fp).2 = fp := by
  induction fp generalizing n with
  | nil => cases n <;> simp [fgets_take]
  | cons c cs ih =>
    cases n with
    | zero => simp [fgets_take]
    | succ m =>
      simp only [fgets_take]
      split
      · simp
      · simp [ih m]

theorem fgets_take_shorter (n : Nat) (c : Char) (cs : List Char) :
    (fgets_take (n + 1) (c :: cs)).2.length ≤ cs.length := by
  induction cs generalizing n c with
  | nil =>
    simp only [fgets_take]
    split
    · simp
    · cases n <;> simp [fgets_take]
  | cons d ds ih =>
    simp only [fgets_take]
    split
    · simp
    · cases n with
      | zero => simp [fgets_take]
      | succ m =>
        have := ih m d
        simp only [List.length_cons]
        omega

theorem fgets_rest_shorter (fp line rest : List Char) (h : fgets 256 fp = some (line, rest)) :
    rest.length < fp.length := by
  cases fp with
  | nil => simp [fgets] at h
  | cons c cs =>
    simp only [fgets, Option.some.injEq] at h
    have : (fgets_take 255 (c :: cs)).2.length ≤ cs.length := fgets_take_shorter 254 c cs
    have e : (fgets_take 255 (c :: cs)).2 = rest := by rw [h]
    rw [← e]
    simp only [List.length_cons]
    omega

theorem fgets_split (fp line rest : List Char) (h : fgets 256 fp = some (line, rest)) :
    line ++ rest = fp := by
  cases fp with
  | nil => simp [fgets] at h
  | cons c cs =>
    simp only [fgets, Option.some.injEq] at h
    have := fgets_take_split 255 (c :: cs)
    rw [h] at this
    exact this

/-- Enough fuel: once the fuel covers the length of the file the loop ends
at end of file, and more fuel changes nothing. -/
theorem scan_loop_fuel (room_id day hour : Int) (f1 f2 : Nat) (fp : List Char)
    (st : Bool × BookingRecord) (h1 : fp.length ≤ f1) (h2 : fp.length ≤ f2) :
    scan_loop room_id day hour f1 fp st = scan_loop room_id day hour f2 fp st := by
  induction f1 generalizing f2 fp st with
  | zero =>
    have : fp = [] := List.length_eq_zero.1 (by omega)
    subst this
    cases f2 <;> simp [scan_loop, fgets]
  | succ k ih =>
    cases f2 with
    | zero =>
      have : fp = [] := List.length_eq_zero.1 (by omega)
      subst this
      simp [scan_loop, fgets]
    | succ m =>
      simp only [scan_loop]
      cases hf : fgets 256 fp with
      | none => rfl
      | some p =>
        obtain ⟨line, rest⟩ := p
        have := fgets_rest_shorter fp line rest hf
        exact ih m rest _ (by omega) (by omega)

theorem log_lines_fuel (f1 f2 : Nat) (fp : List Char)
    (h1 : fp.length ≤ f1) (h2 : fp.length ≤ f2) : log_lines f1 fp = log_lines f2 fp := by
  induction f1 generalizing f2 fp with
  | zero =>
    have : fp = [] := List.length_eq_zero.1 (by omega)
    subst this
    cases f2 <;> simp [log_lines, fgets]
  | succ k ih =>
    cases f2 with
    | zero =>
      have : fp = [] := List.length_eq_zero.1 (by omega)
      subst this
      simp [log_lines, fgets]
    | succ m =>
      simp only [log_lines]
      cases hf : fgets 256 fp with
      | none => rfl
      | some p =>
        obtain ⟨line, rest⟩ := p
        have := fgets_rest_shorter fp line rest hf
        simp only [List.cons.injEq, true_and]
        exact ih m rest (by omega) (by omega)

/-- The lines read cover the whole file: nothing is lost to the fuel. -/
theorem log_lines_join (fuel : Nat) (fp : List Char) (h : fp.length ≤ fuel) :
    (log_lines fuel fp).flatten = fp := by
  induction fuel generalizing fp with
  | zero =>
    have : fp = [] := List.length_eq_zero.1 (by omega)
    subst this
    simp [log_lines]
  | succ k ih =>
    simp only [log_lines]
    cases hf : fgets 256 fp with
    | none =>
      cases fp with
      | nil => simp
      | cons c cs => simp [fgets] at hf
    | some p =>
      obtain ⟨line, rest⟩ := p
      have h1 := fgets_rest_shorter fp line rest hf
      have h2 := fgets_split fp line rest hf
      simp only [List.flatten_cons]
      rw [ih rest (by omega), h2]

theorem scan_loop_lines (room_id day hour : Int) (fuel : Nat) (fp : List Char)
    (st : Bool × BookingRecord) :
    scan_loop room_id day hour fuel fp st
      = (log_lines fuel fp).foldl (scan_step room_id day hour) st := by
  induction fuel generalizing fp st with
  | zero => simp [scan_loop, log_lines]
  | succ k ih =>
    simp only [scan_loop, log_lines]
    cases hf : fgets 256 fp with
    | none => simp
    | some p =>
      obtain ⟨line, rest⟩ := p
      simp only [List.foldl_cons]
      exact ih rest _

theorem last_entry_for_concat (es : List BookingRecord) (r : BookingRecord)
    (room_id day hour : Int) :
    last_entry_for (es ++ [r]) room_id day hour
      = if for_slot room_id day hour r then some r else last_entry_for es room_id day hour := by
  unfold last_entry_for
  rw [List.filter_append]
  by_cases h : for_slot room_id day hour r = true
  · have : List.filter (for_slot room_id day hour) [r] = [r] := by simp [List.filter, h]
    rw [this, if_pos h, List.getLast?_concat]
  · have : List.filter (for_slot room_id day hour) [r] = [] := by simp [List.filter, h]
    rw [this, if_neg h, List.append_nil]

theorem foldl_scan_step (room_id day hour : Int) (lines : List (List Char))
    (st : Bool × BookingRecord) :
    lines.foldl (scan_step room_id day hour) st
      = match last_entry_for (lines.filterMap sscanf_record) room_id day hour with
        | none => st
        | some r => (true, r) := by
  induction lines using List.reverseRecOn with
  | nil => simp [last_entry_for]
  | append_singleton ls l ih =>
    rw [List.foldl_append, ih, List.filterMap_append]
    simp only [List.foldl_cons, List.foldl_nil, scan_step]
    cases hl : sscanf_record l with
    | none =>
      have : List.filterMap sscanf_record [l] = [] := by simp [List.filterMap, hl]
      rw [this, List.append_nil]
    | some r =>
      have : List.filterMap sscanf_record [l] = [r] := by simp [List.filterMap, hl]
      rw [this, last_entry_for_concat]
      by_cases hm : r.room_id = room_id ∧ r.day = day ∧ r.hour = hour
      · have hs : for_slot room_id day hour r = true := by simp [for_slot, hm]
        simp only [hm, and_self, if_true, hs]
      · have hs : for_slot room_id day hour r = false := by simp [for_slot, hm]
        simp only [hm, if_false, hs, Bool.false_eq_true]

/-- The result record of `get_last_slot_action` for a last entry. -/
theorem get_last_slot_action_eq (file : Option (List Char)) (room_id day hour : Int) :
    get_last_slot_action file room_id day hour
      = match last_entry_for (file_entries file) room_id day hour with
        | none => { ret := true, found := false, username := [], action := '\x00' }
        | some r => { ret := true, found := true, username := r.username, action := r.action } := by
  cases file with
  | none => simp [get_last_slot_action, file_entries, last_entry_for]
  | some fp =>
    simp only [get_last_slot_action, file_entries, log_entries]
    rw [scan_loop_lines, foldl_scan_step]
    cases last_entry_for (List.filterMap sscanf_record (log_lines fp.length fp)) room_id day hour
      <;> simp

/-! ## Appending one record to a closed log -/

theorem closed_nil : closed [] := by
  intro c hc; simp at hc

theorem closed_tail (c : Char) (cs : List Char) (h : closed (c :: cs)) : closed cs := by
  cases cs with
  | nil => exact closed_nil
  | cons d ds =>
    intro x hx
    apply h x
    rw [List.getLast?_cons_cons]
    exact hx

theorem closed_append_newline (fp body : List Char) : closed (fp ++ (body ++ ['\n'])) := by
  intro c hc
  rw [← List.append_assoc, List.getLast?_concat] at hc
  simp only [Option.some.injEq] at hc
  exact hc.symm

theorem fgets_take_append (n : Nat) (fp line : List Char) (hc : closed fp) (hne : fp ≠ []) :
    fgets_take n (fp ++ line) = ((fgets_take n fp).1, (fgets_take n fp).2 ++ line)
      ∧ closed (fgets_take n fp).2 := by
  induction fp generalizing n with
  | nil => exact absurd rfl hne
  | cons c cs ih =>
    cases n with
    | zero => exact ⟨by simp [fgets_take], hc⟩
    | succ m =>
      by_cases hnl : c = '\n'
      · subst hnl
        exact ⟨by simp [fgets_take], by simpa [fgets_take] using closed_tail _ _ hc⟩
      · have hcs : cs ≠ [] := by
          intro h
          subst h
          exact hnl (hc c (by simp))
        obtain ⟨h1, h2⟩ := ih m (closed_tail c cs hc) hcs
        refine ⟨?_, by simpa [fgets_take, hnl] using h2⟩
        simp only [List.cons_append, fgets_take, hnl, if_false, List.append_eq]
        rw [h1]

theorem fgets_take_line (n : Nat) (body : List Char) (hb : ∀ c ∈ body, c ≠ '\n')
    (hlen : body.length < n) :
    fgets_take n (body ++ ['\n']) = (body ++ ['\n'], []) := by
  induction body generalizing n with
  | nil =>
    cases n with
    | zero => simp at hlen
    | succ m => simp [fgets_take]
  | cons c cs ih =>
    cases n with
    | zero => simp at hlen
    | succ m =>
      have hc : c ≠ '\n' := hb c (List.mem_cons_self _ _)
      have := ih m (fun x hx => hb x (List.mem_cons_of_mem _ hx)) (by simpa using hlen)
      simp [fgets_take, hc, this]

theorem log_lines_append (fuel : Nat) (fp line : List Char) (hc : closed fp)
    (hlen : fp.length ≤ fuel) (hl : whole_line line) :
    log_lines (fuel + 1) (fp ++ line) = log_lines fuel fp ++ [line] := by
  obtain ⟨body, hbody, hb, hblen⟩ := hl
  induction fuel generalizing fp with
  | zero =>
    have : fp = [] := List.length_eq_zero.1 (by omega)
    subst this
    have h1 : fgets_take 255 (body ++ ['\n']) = (body ++ ['\n'], []) :=
      fgets_take_line 255 body hb hblen
    subst hbody
    cases body with
    | nil => simp [log_lines, fgets, fgets_take]
    | cons b bs =>
      simp only [List.nil_append, List.cons_append, log_lines, fgets] at h1 ⊢
      simp only [Nat.add_one_sub_one, h1]
  | succ k ih =>
    cases fp with
    | nil =>
      have h1 : fgets_take 255 (body ++ ['\n']) = (body ++ ['\n'], []) :=
        fgets_take_line 255 body hb hblen
      subst hbody
      cases body with
      | nil => simp [log_lines, fgets, fgets_take]
      | cons b bs =>
        simp only [List.nil_append, List.cons_append, log_lines, fgets] at h1 ⊢
        simp only [Nat.add_one_sub_one, h1]
    | cons c cs =>
      obtain ⟨h1, h2⟩ := fgets_take_append 255 (c :: cs) line hc (by simp)
      have h3 : (fgets_take 255 (c :: cs)).2.length ≤ cs.length := fgets_take_shorter 254 c cs
      have hk : (fgets_take 255 (c :: cs)).2.length ≤ k := by
        simp only [List.length_cons] at hlen
        omega
      have e1 : log_lines (k + 1 + 1) (c :: cs ++ line)
          = (fgets_take 255 (c :: cs)).1
              :: log_lines (k + 1) ((fgets_take 255 (c :: cs)).2 ++ line) := by
        rw [log_lines]
        simp only [List.cons_append, fgets, Nat.add_one_sub_one]
        rw [← List.cons_append, h1]
      have e2 : log_lines (k + 1) (c :: cs)
          = (fgets_take 255 (c :: cs)).1 :: log_lines k (fgets_take 255 (c :: cs)).2 := by
        rw [log_lines]
        simp only [fgets, Nat.add_one_sub_one]
      rw [e1, e2, ih _ h2 hk]
      simp

theorem log_entries_append (fp line : List Char) (hc : closed fp) (hl : whole_line line) :
    log_entries (fp ++ line) = log_entries fp ++ (sscanf_record line).toList := by
  unfold log_entries
  have h1 : (fp ++ line).length = (fp.length + (line.length - 1)) + 1 := by
    obtain ⟨body, hbody, -, -⟩ := hl
    subst hbody
    simp only [List.length_append, List.length_singleton]
    omega
  rw [h1, log_lines_append _ fp line hc (Nat.le_add_right _ _) hl,
    log_lines_fuel (fp.length + (line.length - 1)) fp.length fp (Nat.le_add_right _ _)
      (Nat.le_refl _), List.filterMap_append]
  cases h : sscanf_record line <;> simp [List.filterMap, h]

theorem fmt_record_whole_line (room_id day hour : Int) (action : Char) (username : List Char)
    (hr : 0 ≤ room_id ∧ room_id < 1000) (hd : 0 ≤ day ∧ day < 1000)
    (hh : 0 ≤ hour ∧ hour < 1000) (ha : valid_action action) (hu : valid_token username) :
    whole_line (fmt_record room_id day hour action username) := by
  refine ⟨fmtInt room_id ++ [' '] ++ fmtInt day ++ [' '] ++ fmtInt hour ++ [' '] ++ [action]
    ++ [' '] ++ username, by simp [fmt_record], ?_, ?_⟩
  · intro c hc
    simp only [List.mem_append, List.mem_singleton] at hc
    rcases hc with (((((((hc | hc) | hc) | hc) | hc) | hc) | hc) | hc) | hc
    · exact (fmtInt_chars _ c hc).2.2
    · subst hc; decide
    · exact (fmtInt_chars _ c hc).2.2
    · subst hc; decide
    · exact (fmtInt_chars _ c hc).2.2
    · subst hc; decide
    · subst hc; rcases ha with ha | ha <;> (subst ha; decide)
    · subst hc; decide
    · intro h
      have := (hu.2.2 c hc).1
      subst h
      exact absurd this (by decide)
  · have h1 := fmtInt_length room_id hr.1 hr.2
    have h2 := fmtInt_length day hd.1 hd.2
    have h3 := fmtInt_length hour hh.1 hh.2
    have h4 := hu.2.1
    simp only [List.length_append, List.length_singleton]
    omega

/-- Appending a record the program writes to a closed log adds exactly that
record to the entries the scan reads back. -/
theorem file_entries_append (file : Option (List Char)) (room_id day hour : Int)
    (action : Char) (username : List Char) (hc : closed (file.getD []))
    (hr : 0 ≤ room_id ∧ room_id < 1000) (hd : 0 ≤ day ∧ day < 1000)
    (hh : 0 ≤ hour ∧ hour < 1000) (ha : valid_action action) (hu : valid_token username) :
    file_entries (some (file.getD [] ++ fmt_record room_id day hour action username))
      = file_entries file ++ [{ room_id := room_id, day := day, hour := hour,
                                username := username, action := action }] := by
  have hl := fmt_record_whole_line room_id day hour action username hr hd hh ha hu
  simp only [file_entries]
  rw [log_entries_append _ _ hc hl, sscanf_fmt_record _ _ _ _ _ (int_range_small _ hr)
    (int_range_small _ hd) (int_range_small _ hh) ha hu]
  cases file with
  | none => simp [log_entries, log_lines]
  | some fp => simp

/-! ## The rooms array -/

theorem find_room_by_id_some (rooms : List Classroom) (room_id : Int) (i : Nat)
    (h : find_room_by_id rooms room_id = some i) :
    ∃ r, rooms[i]? = some r ∧ r.id = room_id := by
  induction rooms generalizing i with
  | nil => simp [find_room_by_id] at h
  | cons r rs ih =>
    simp only [find_room_by_id] at h
    split at h
    · rename_i hid
      simp only [Option.some.injEq] at h
      subst h
      exact ⟨r, by simp, hid⟩
    · cases hf : find_room_by_id rs room_id with
      | none => simp [hf] at h
      | some j =>
        simp only [hf, Option.map_some', Option.some.injEq] at h
        subst h
        obtain ⟨r1, h1, h2⟩ := ih j hf
        exact ⟨r1, by simpa using h1, h2⟩

theorem Classroom.set_self (r : Classroom) (d : Fin 7) (h : Fin 24) :
    r.set d h (r.schedule d h) = r := by
  cases r with
  | mk id dep ty sch =>
    simp only [Classroom.set, Classroom.mk.injEq, true_and]
    funext d1 h1
    by_cases hc : d1 = d ∧ h1 = h
    · simp [hc]
    · simp [hc]

theorem Classroom.set_set (r : Classroom) (d : Fin 7) (h : Fin 24) (v w : Bool) :
    (r.set d h v).set d h w = r.set d h w := by
  simp only [Classroom.set, Classroom.mk.injEq, true_and]
  funext d1 h1
  by_cases hc : d1 = d ∧ h1 = h
  · simp [hc]
  · simp [hc]

theorem set_slot_set_slot (rooms : List Classroom) (i : Nat) (d : Fin 7) (h : Fin 24)
    (v w : Bool) : set_slot (set_slot rooms i d h v) i d h w = set_slot rooms i d h w := by
  induction rooms generalizing i with
  | nil => simp [set_slot]
  | cons r rs ih =>
    cases i with
    | zero => simp [set_slot, Classroom.set_set]
    | succ j => simp [set_slot, ih j]

theorem set_slot_self (rooms : List Classroom) (i : Nat) (d : Fin 7) (h : Fin 24) :
    set_slot rooms i d h (slot_at rooms i d h) = rooms := by
  induction rooms generalizing i with
  | nil => simp [set_slot]
  | cons r rs ih =>
    cases i with
    | zero => simp [set_slot, slot_at, Classroom.set_self]
    | succ j =>
      have := ih j
      simp only [slot_at, List.getElem?_cons_succ] at this ⊢
      simp [set_slot, this]

/-- Rolling back: writing the old value again restores the whole array. -/
theorem set_slot_restore (rooms : List Classroom) (i : Nat) (d : Fin 7) (h : Fin 24)
    (v w : Bool) (hv : slot_at rooms i d h = v) :
    set_slot (set_slot rooms i d h w) i d h v = rooms := by
  rw [set_slot_set_slot, ← hv, set_slot_self]

theorem getElem?_set_slot (rooms : List Classroom) (i j : Nat) (d : Fin 7) (h : Fin 24) (v : Bool) :
    (set_slot rooms i d h v)[j]?
      = (rooms[j]?).map fun r => if j = i then r.set d h v else r := by
  induction rooms generalizing i j with
  | nil => simp [set_slot]
  | cons r rs ih =>
    cases i with
    | zero =>
      cases j with
      | zero => simp [set_slot]
      | succ k =>
        simp only [set_slot, List.getElem?_cons_succ]
        cases rs[k]? <;> simp
    | succ m =>
      cases j with
      | zero => simp [set_slot]
      | succ k =>
        simp only [set_slot, List.getElem?_cons_succ, ih m k]
        cases rs[k]? <;> simp

theorem slot_at_set_slot (rooms : List Classroom) (i : Nat) (d : Fin 7) (h : Fin 24) (v : Bool)
    (r : Classroom) (hr : rooms[i]? = some r) :
    slot_at (set_slot rooms i d h v) i d h = v := by
  simp [slot_at, getElem?_set_slot, hr, Classroom.set]

theorem map_id_set_slot (rooms : List Classroom) (i : Nat) (d : Fin 7) (h : Fin 24) (v : Bool) :
    (set_slot rooms i d h v).map (fun r => r.id) = rooms.map (fun r => r.id) := by
  induction rooms generalizing i with
  | nil => simp [set_slot]
  | cons r rs ih =>
    cases i with
    | zero => simp [set_slot, Classroom.set]
    | succ j => simp [set_slot, ih j]

theorem find_room_by_id_set_slot (rooms : List Classroom) (i : Nat) (d : Fin 7) (h : Fin 24)
    (v : Bool) (room_id : Int) :
    find_room_by_id (set_slot rooms i d h v) room_id = find_room_by_id rooms room_id := by
  induction rooms generalizing i with
  | nil => simp [set_slot]
  | cons r rs ih =>
    cases i with
    | zero => simp [set_slot, find_room_by_id, Classroom.set]
    | succ j => simp [set_slot, find_room_by_id, ih j]

theorem validate_room_id_range (id : Int) (h : validate_room_id id = true) :
    0 ≤ id ∧ id < 1000 := by
  unfold validate_room_id at h
  split at h
  · simp at h
  · omega

theorem day_int_range (d : Fin 7) : 0 ≤ day_int d ∧ day_int d < 1000 := by
  have := d.isLt
  unfold day_int
  omega

theorem hour_int_range (h : Fin 24) : 0 ≤ hour_int h ∧ hour_int h < 1000 := by
  have := h.isLt
  unfold hour_int
  omega

theorem day_int_inj (d1 d2 : Fin 7) (h : day_int d1 = day_int d2) : d1 = d2 := by
  unfold day_int at h
  exact Fin.ext (by omega)

theorem hour_int_inj (h1 h2 : Fin 24) (h : hour_int h1 = hour_int h2) : h1 = h2 := by
  unfold hour_int at h
  exact Fin.ext (by omega)

theorem current_user_mem (s : State) (u : User) (h : current_user s = some u) : u ∈ s.users := by
  unfold current_user at h
  cases hi : s.current_user_index with
  | none => simp [hi] at h
  | some i =>
    simp only [hi] at h
    exact List.getElem?_mem h

/-! ## The last entry for a slot -/

theorem last_entry_for_split (es : List BookingRecord) (room_id day hour : Int)
    (e : BookingRecord) (h : last_entry_for es room_id day hour = some e) :
    ∃ pre post, es = pre ++ e :: post ∧ for_slot room_id day hour e = true
      ∧ ∀ x ∈ post, for_slot room_id day hour x = false := by
  induction es using List.reverseRecOn with
  | nil => simp [last_entry_for] at h
  | append_singleton l r ih =>
    rw [last_entry_for_concat] at h
    by_cases hr : for_slot room_id day hour r = true
    · rw [if_pos hr] at h
      simp only [Option.some.injEq] at h
      subst h
      exact ⟨l, [], rfl, hr, by simp⟩
    · rw [if_neg hr] at h
      obtain ⟨pre, post, h1, h2, h3⟩ := ih h
      refine ⟨pre, post ++ [r], by simp [h1], h2, ?_⟩
      intro x hx
      rcases List.mem_append.1 hx with hx | hx
      · exact h3 x hx
      · simp only [List.mem_singleton] at hx
        subst hx
        simpa using hr

theorem last_entry_for_none (es : List BookingRecord) (room_id day hour : Int) :
    last_entry_for es room_id day hour = none
      ↔ ∀ e ∈ es, for_slot room_id day hour e = false := by
  induction es using List.reverseRecOn with
  | nil => simp [last_entry_for]
  | append_singleton l r ih =>
    rw [last_entry_for_concat]
    by_cases hr : for_slot room_id day hour r = true
    · rw [if_pos hr]
      constructor
      · intro h; simp at h
      · intro h
        have := h r (by simp)
        rw [hr] at this
        exact absurd this (by simp)
    · rw [if_neg hr, ih]
      constructor
      · intro h e he
        rcases List.mem_append.1 he with he | he
        · exact h e he
        · simp only [List.mem_singleton] at he
          subst he
          simpa using hr
      · intro h e he
        exact h e (List.mem_append_left _ he)

/-- What the scan returns once a record has been appended to a closed log:
the new record for its own slot, the former answer for every other slot. -/
theorem get_last_slot_action_append (file : Option (List Char)) (room_id day hour : Int)
    (action : Char) (username : List Char) (r1 d1 h1 : Int) (hc : closed (file.getD []))
    (hr : 0 ≤ room_id ∧ room_id < 1000) (hd : 0 ≤ day ∧ day < 1000)
    (hh : 0 ≤ hour ∧ hour < 1000) (ha : valid_action action) (hu : valid_token username) :
    get_last_slot_action (some (file.getD [] ++ fmt_record room_id day hour action username))
        r1 d1 h1
      = if room_id = r1 ∧ day = d1 ∧ hour = h1 then
          { ret := true, found := true, username := username, action := action }
        else get_last_slot_action file r1 d1 h1 := by
  rw [get_last_slot_action_eq, file_entries_append file room_id day hour action username hc hr hd
    hh ha hu, last_entry_for_concat]
  by_cases hm : room_id = r1 ∧ day = d1 ∧ hour = h1
  · simp [for_slot, hm]
  · rw [if_neg hm, get_last_slot_action_eq]
    simp [for_slot, hm]

theorem last_entry_for_append (file : Option (List Char)) (room_id day hour : Int)
    (action : Char) (username : List Char) (r1 d1 h1 : Int) (hc : closed (file.getD []))
    (hr : 0 ≤ room_id ∧ room_id < 1000) (hd : 0 ≤ day ∧ day < 1000)
    (hh : 0 ≤ hour ∧ hour < 1000) (ha : valid_action action) (hu : valid_token username) :
    last_entry_for
        (file_entries (some (file.getD [] ++ fmt_record room_id day hour action username)))
        r1 d1 h1
      = if room_id = r1 ∧ day = d1 ∧ hour = h1 then
          some { room_id := room_id, day := day, hour := hour, username := username,
                 action := action }
        else last_entry_for (file_entries file) r1 d1 h1 := by
  rw [file_entries_append file room_id day hour action username hc hr hd hh ha hu,
    last_entry_for_concat]
  by_cases hm : room_id = r1 ∧ day = d1 ∧ hour = h1
  · simp [for_slot, hm]
  · rw [if_neg hm]
    simp [for_slot, hm]

/-- The state a booking that reaches the log append ends in. -/
theorem book_slot_commit (s : State) (u : User) (room_id : Int) (day : Fin 7) (hour : Fin 24)
    (i : Nat) (hu : current_user s = some u) (hv : validate_room_id room_id = true)
    (hf : find_room_by_id s.rooms room_id = some i)
    (hfree : slot_at s.rooms i day hour = false) :
    book_slot s room_id day hour true true
      = ({ s with
            rooms := set_slot s.rooms i day hour true,
            rooms_file := some (save_rooms_text (set_slot s.rooms i day hour true)),
            bookings_file := some (s.bookings_file.getD []
              ++ fmt_record room_id (day_int day) (hour_int hour) 'B' u.username) },
         [Msg.booking_successful]) := by
  unfold book_slot
  simp [hu, hv, hf, hfree, save_rooms, append_booking_record_with_action]

/-- A booking of an occupied slot leaves the state as it is. -/
theorem book_slot_occupied_state (s : State) (u : User) (room_id : Int) (day : Fin 7)
    (hour : Fin 24) (save_ok append_ok : Bool) (i : Nat) (hu : current_user s = some u)
    (hv : validate_room_id room_id = true) (hf : find_room_by_id s.rooms room_id = some i)
    (hocc : slot_at s.rooms i day hour = true) :
    (book_slot s room_id day hour save_ok append_ok).1 = s := by
  unfold book_slot
  simp only [hu, hv, hf, hocc, if_true, Bool.not_true, Bool.false_eq_true, if_false]
  split <;> rfl

/-- The state a cancellation that reaches the log append ends in. -/
theorem cancel_booking_commit (s : State) (u : User) (room_id : Int) (day : Fin 7)
    (hour : Fin 24) (i : Nat) (hu : current_user s = some u)
    (hv : validate_room_id room_id = true) (hf : find_room_by_id s.rooms room_id = some i)
    (hocc : slot_at s.rooms i day hour = true)
    (hgate : gate_closed s u room_id day hour = false) :
    cancel_booking s room_id day hour true true
      = ({ s with
            rooms := set_slot s.rooms i day hour false,
            rooms_file := some (save_rooms_text (set_slot s.rooms i day hour false)),
            bookings_file := some (s.bookings_file.getD []
              ++ fmt_record room_id (day_int day) (hour_int hour) 'C' u.username) },
         [Msg.cancellation_successful]
           ++ if u.is_admin then [Msg.admin_cancellation_performed] else []) := by
  unfold gate_closed at hgate
  unfold cancel_booking
  simp only [hu, hv, hf, hocc, hgate, save_rooms, append_booking_record_with_action,
    Bool.not_true, Bool.false_eq_true, if_false, if_true]

/-- A cancellation the gate refuses. -/
theorem cancel_booking_refused (s : State) (u : User) (room_id : Int) (day : Fin 7)
    (hour : Fin 24) (save_ok append_ok : Bool) (i : Nat) (hu : current_user s = some u)
    (hv : validate_room_id room_id = true) (hf : find_room_by_id s.rooms room_id = some i)
    (hocc : slot_at s.rooms i day hour = true)
    (hgate : gate_closed s u room_id day hour = true) :
    cancel_booking s room_id day hour save_ok append_ok = (s, [Msg.only_own_bookings]) := by
  unfold gate_closed at hgate
  unfold cancel_booking
  simp only [hu, hv, hf, hocc, hgate, Bool.not_true, Bool.false_eq_true, if_false, if_true]

/-- What a reported booking tells about the request. -/
theorem book_slot_success_inv (s : State) (u : User) (room_id : Int) (day : Fin 7)
    (hour : Fin 24) (save_ok append_ok : Bool) (hu : current_user s = some u)
    (hok : Msg.booking_successful ∈ (book_slot s room_id day hour save_ok append_ok).2) :
    validate_room_id room_id = true ∧ save_ok = true
      ∧ ∃ i, find_room_by_id s.rooms room_id = some i ∧ slot_at s.rooms i day hour = false := by
  unfold book_slot at hok
  simp only [hu] at hok
  cases hv : validate_room_id room_id with
  | false => simp [hv] at hok
  | true =>
    cases hf : find_room_by_id s.rooms room_id with
    | none => simp [hv, hf] at hok
    | some i =>
      cases hs : slot_at s.rooms i day hour with
      | true =>
        simp only [hv, hf, hs, if_true, Bool.not_true, Bool.false_eq_true, if_false] at hok
        split at hok <;> simp at hok
      | false =>
        cases save_ok with
        | false => simp [hv, hf, hs, save_rooms] at hok
        | true => exact ⟨rfl, rfl, i, rfl, hs⟩

/-- What a reported cancellation tells about the request. -/
theorem cancel_booking_success_inv (s : State) (u : User) (room_id : Int) (day : Fin 7)
    (hour : Fin 24) (save_ok append_ok : Bool) (hu : current_user s = some u)
    (hok : Msg.cancellation_successful ∈ (cancel_booking s room_id day hour save_ok append_ok).2) :
    validate_room_id room_id = true ∧ save_ok = true
      ∧ gate_closed s u room_id day hour = false
      ∧ ∃ i, find_room_by_id s.rooms room_id = some i ∧ slot_at s.rooms i day hour = true := by
  cases hv : validate_room_id room_id with
  | false => simp [cancel_booking, hu, hv] at hok
  | true =>
    cases hf : find_room_by_id s.rooms room_id with
    | none => simp [cancel_booking, hu, hv, hf] at hok
    | some i =>
      cases hs : slot_at s.rooms i day hour with
      | false => simp [cancel_booking, hu, hv, hf, hs] at hok
      | true =>
        cases hg : gate_closed s u room_id day hour with
        | true =>
          rw [cancel_booking_refused s u room_id day hour save_ok append_ok i hu hv hf hs hg]
            at hok
          simp at hok
        | false =>
          cases save_ok with
          | false =>
            unfold gate_closed at hg
            unfold cancel_booking at hok
            simp only [hu, hv, hf, hs, hg, save_rooms, Bool.not_true, Bool.false_eq_true,
              if_false] at hok
            simp at hok
          | true => exact ⟨rfl, rfl, rfl, i, rfl, hs⟩

/-! ## Grid and log stay in agreement -/

theorem ids_unique (rooms : List Classroom) (hn : (rooms.map fun r => r.id).Nodup)
    (i j : Nat) (ri rj : Classroom) (hi : rooms[i]? = some ri) (hj : rooms[j]? = some rj)
    (h : ri.id = rj.id) : i = j := by
  induction rooms generalizing i j with
  | nil => simp at hi
  | cons r rs ih =>
    simp only [List.map_cons, List.nodup_cons, List.mem_map, not_exists, not_and] at hn
    cases i with
    | zero =>
      cases j with
      | zero => rfl
      | succ k =>
        simp only [List.getElem?_cons_zero, Option.some.injEq] at hi
        simp only [List.getElem?_cons_succ] at hj
        subst hi
        exact absurd h.symm (hn.1 rj (List.getElem?_mem hj))
    | succ m =>
      cases j with
      | zero =>
        simp only [List.getElem?_cons_zero, Option.some.injEq] at hj
        simp only [List.getElem?_cons_succ] at hi
        subst hj
        exact absurd h (hn.1 ri (List.getElem?_mem hi))
      | succ k =>
        simp only [List.getElem?_cons_succ] at hi hj
        rw [ih hn.2 m k hi hj]

/-- Flipping one cell and appending the matching record keeps grid and log
in agreement. -/
theorem consistent_update (rooms : List Classroom) (file : Option (List Char)) (room_id : Int)
    (day : Fin 7) (hour : Fin 24) (v : Bool) (action : Char) (username : List Char) (i : Nat)
    (hcons : consistent rooms file) (hn : (rooms.map fun r => r.id).Nodup)
    (hc : closed (file.getD [])) (hf : find_room_by_id rooms room_id = some i)
    (hr : 0 ≤ room_id ∧ room_id < 1000) (ha : valid_action action)
    (hu : valid_token username) (hva : v = true ↔ action = 'B') :
    consistent (set_slot rooms i day hour v)
      (some (file.getD [] ++ fmt_record room_id (day_int day) (hour_int hour) action username)) := by
  obtain ⟨ri, hri, hid⟩ := find_room_by_id_some rooms room_id i hf
  intro j r1 d h hj
  rw [getElem?_set_slot] at hj
  cases hrj : rooms[j]? with
  | none => simp [hrj] at hj
  | some r =>
    simp only [hrj, Option.map_some', Option.some.injEq] at hj
    rw [last_entry_for_append file room_id (day_int day) (hour_int hour) action username _ _ _ hc
      hr (day_int_range day) (hour_int_range hour) ha hu]
    by_cases hji : j = i
    · subst hji
      have hrr : r = ri := by
        rw [hri] at hrj
        exact (Option.some.inj hrj).symm
      subst hrr
      simp only [if_true] at hj
      subst hj
      by_cases hdh : d = day ∧ h = hour
      · obtain ⟨hd, hh⟩ := hdh
        subst hd
        subst hh
        have hm : room_id = (r.set d h v).id ∧ day_int d = day_int d ∧ hour_int h = hour_int h :=
          ⟨by simp [Classroom.set, hid], rfl, rfl⟩
        rw [if_pos hm]
        simp only [Classroom.set, and_self, if_true, Option.some.injEq, exists_eq_left']
        exact hva
      · have hm : ¬ (room_id = (r.set day hour v).id ∧ day_int day = day_int d
            ∧ hour_int hour = hour_int h) := by
          rintro ⟨-, h1, h2⟩
          exact hdh ⟨(day_int_inj _ _ h1).symm, (hour_int_inj _ _ h2).symm⟩
        rw [if_neg hm]
        have := hcons j r d h hrj
        simpa [Classroom.set, hdh] using this
    · simp only [hji, if_false] at hj
      subst hj
      have hm : ¬ (room_id = r.id ∧ day_int day = day_int d ∧ hour_int hour = hour_int h) := by
        rintro ⟨h0, -, -⟩
        exact hji (ids_unique rooms hn j i r ri hrj hri (by rw [hid, h0]))
      rw [if_neg hm]
      exact hcons j r d h hrj

theorem seed_rooms_free (n : Nat) (i : Int) (department type : List Char)
    (rooms : List Classroom) (h : ∀ r ∈ rooms, ∀ d hr, r.schedule d hr = false) :
    ∀ r ∈ seed_rooms n i department type rooms, ∀ d hr, r.schedule d hr = false := by
  induction n generalizing i rooms with
  | zero => simpa [seed_rooms] using h
  | succ k ih =>
    simp only [seed_rooms]
    split
    · apply ih
      intro r hr
      rcases List.mem_append.1 hr with hr | hr
      · exact h r hr
      · simp only [List.mem_singleton] at hr
        subst hr
        intro d hr
        rfl
    · exact h

theorem invariant_seeded (s : State) (fopen_ok : Bool) (h : s.bookings_file.getD [] = []) :
    invariant (initialize_sample_data s fopen_ok) := by
  have hfile : (initialize_sample_data s fopen_ok).bookings_file = none
      ∨ (initialize_sample_data s fopen_ok).bookings_file = some [] := by
    simp only [initialize_sample_data]
    cases fopen_ok with
    | true => right; simp [h]
    | false =>
      cases hb : s.bookings_file with
      | none => left; simp
      | some fp =>
        right
        rw [hb] at h
        simp only [Option.getD_some] at h
        simp [h]
  have hent : file_entries (initialize_sample_data s fopen_ok).bookings_file = [] := by
    rcases hfile with hfile | hfile <;> rw [hfile] <;> rfl
  refine ⟨?_, ?_, ?_, ?_⟩
  · simp only [initialize_sample_data]
    decide
  · rcases hfile with hfile | hfile <;> rw [hfile] <;> exact closed_nil
  · simp only [initialize_sample_data]
    decide
  · intro i r d hr hi
    rw [hent]
    have hfree : r.schedule d hr = false := by
      have hmem : r ∈ (initialize_sample_data s fopen_ok).rooms := List.getElem?_mem hi
      simp only [initialize_sample_data] at hmem
      exact seed_rooms_free _ _ _ _ _
        (seed_rooms_free _ _ _ _ _
          (seed_rooms_free _ _ _ _ [] (by simp))) r hmem d hr
    simp [hfree, last_entry_for]

theorem invariant_book (s : State) (room_id : Int) (day : Fin 7) (hour : Fin 24)
    (h : invariant s) : invariant (book_slot s room_id day hour true true).1 := by
  cases hu : current_user s with
  | none => simpa [book_slot, hu] using h
  | some u =>
    cases hv : validate_room_id room_id with
    | false => simpa [book_slot, hu, hv] using h
    | true =>
      cases hf : find_room_by_id s.rooms room_id with
      | none => simpa [book_slot, hu, hv, hf] using h
      | some i =>
        cases hs : slot_at s.rooms i day hour with
        | true =>
          rw [book_slot_occupied_state s u room_id day hour true true i hu hv hf hs]
          exact h
        | false =>
          rw [book_slot_commit s u room_id day hour i hu hv hf hs]
          obtain ⟨h1, h2, h3, h4⟩ := h
          refine ⟨h1, ?_, ?_, ?_⟩
          · simp only [Option.getD_some, fmt_record]
            exact closed_append_newline _ _
          · simp only
            rw [map_id_set_slot]
            exact h3
          · exact consistent_update s.rooms s.bookings_file room_id day hour true 'B' u.username i
              h4 h3 h2 hf (validate_room_id_range room_id hv) (Or.inl rfl)
              (h1 u (current_user_mem s u hu)) (by simp)

theorem invariant_cancel (s : State) (room_id : Int) (day : Fin 7) (hour : Fin 24)
    (h : invariant s) : invariant (cancel_booking s room_id day hour true true).1 := by
  cases hu : current_user s with
  | none => simpa [cancel_booking, hu] using h
  | some u =>
    cases hv : validate_room_id room_id with
    | false => simpa [cancel_booking, hu, hv] using h
    | true =>
      cases hf : find_room_by_id s.rooms room_id with
      | none => simpa [cancel_booking, hu, hv, hf] using h
      | some i =>
        cases hs : slot_at s.rooms i day hour with
        | false => simpa [cancel_booking, hu, hv, hf, hs] using h
        | true =>
          cases hg : gate_closed s u room_id day hour with
          | true =>
            rw [cancel_booking_refused s u room_id day hour true true i hu hv hf hs hg]
            exact h
          | false =>
            rw [cancel_booking_commit s u room_id day hour i hu hv hf hs hg]
            obtain ⟨h1, h2, h3, h4⟩ := h
            refine ⟨h1, ?_, ?_, ?_⟩
            · simp only [Option.getD_some, fmt_record]
              exact closed_append_newline _ _
            · simp only
              rw [map_id_set_slot]
              exact h3
            · exact consistent_update s.rooms s.bookings_file room_id day hour false 'C'
                u.username i h4 h3 h2 hf (validate_room_id_range room_id hv) (Or.inr rfl)
                (h1 u (current_user_mem s u hu)) (by simp)

theorem invariant_reachable (s : State) (h : Reachable s) : invariant s := by
  induction h with
  | seeded s fopen_ok h => exact invariant_seeded s fopen_ok h
  | accounts s users current _ hv ih => exact ⟨hv, ih.2.1, ih.2.2.1, ih.2.2.2⟩
  | book s room_id day hour _ ih => exact invariant_book s room_id day hour ih
  | cancel s room_id day hour _ ih => exact invariant_cancel s room_id day hour ih

/-! ## The claims -/

/-- C1: in every state reachable from the seeded initial state (all slots
free, empty log) by `book_slot` and `cancel_booking` requests whose
`save_rooms` and log append succeed, for every existing room, day and hour
the cell of the grid is true if and only if the log holds an entry for the
slot and the last such entry has action `'B'`; `get_last_slot_action` reports
exactly that. -/
theorem grid_matches_log (s : State) (h : Reachable s) (i : Nat) (r : Classroom)
    (d : Fin 7) (hr : Fin 24) (hi : s.rooms[i]? = some r) :
    (r.schedule d hr = true ↔
      ∃ e, last_entry_for (file_entries s.bookings_file) r.id (day_int d) (hour_int hr) = some e
        ∧ e.action = 'B')
    ∧ (r.schedule d hr = true ↔
        (get_last_slot_action s.bookings_file r.id (day_int d) (hour_int hr)).found = true
          ∧ (get_last_slot_action s.bookings_file r.id (day_int d) (hour_int hr)).action = 'B') := by
  have hinv := (invariant_reachable s h).2.2.2 i r d hr hi
  refine ⟨hinv, ?_⟩
  rw [hinv, get_last_slot_action_eq]
  cases last_entry_for (file_entries s.bookings_file) r.id (day_int d) (hour_int hr) with
  | none => simp
  | some e => simp

/-- C1 at a concrete state: after `alice` booked room 101 on Monday at 9,
the cell is true and the last entry for the slot is a booking. -/
theorem grid_matches_log_witness :
    Reachable st_booked
    ∧ ((free_room 101 "CSE".toList "lab".toList).set 1 9 true).schedule 1 9 = true
    ∧ ∃ e, last_entry_for (file_entries st_booked.bookings_file) 101 (day_int 1) (hour_int 9)
            = some e
          ∧ e.action = 'B' :=
  have hreach : Reachable st_booked :=
    Reachable.book st_alice 101 1 9
      (Reachable.accounts st_seed _ (some 2) (Reachable.seeded _ true rfl) (by decide))
  ⟨hreach, by decide,
    (grid_matches_log st_booked hreach 0
      ((free_room 101 "CSE".toList "lab".toList).set 1 9 true) 1 9 rfl).1.1 (by decide)⟩

/-- C7: for every log content and every key, `get_last_slot_action` reports
found exactly when some line the scan parses (an `fgets` line from which
`sscanf` reads five fields) has that room id, day and hour; when found it
returns the actor and action of the last such line in file order; when no
line matches, or the file does not exist, it reports not found.  The fuel
of the loop is enough: more of it gives the same result. -/
theorem get_last_slot_action_last_entry (file : Option (List Char)) (room_id day hour : Int) :
    ((get_last_slot_action file room_id day hour).found = true
        ↔ ∃ e ∈ file_entries file, e.room_id = room_id ∧ e.day = day ∧ e.hour = hour)
    ∧ ((get_last_slot_action file room_id day hour).found = true →
        ∃ pre e post, file_entries file = pre ++ e :: post
          ∧ (e.room_id = room_id ∧ e.day = day ∧ e.hour = hour)
          ∧ (∀ x ∈ post, ¬ (x.room_id = room_id ∧ x.day = day ∧ x.hour = hour))
          ∧ (get_last_slot_action file room_id day hour).username = e.username
          ∧ (get_last_slot_action file room_id day hour).action = e.action)
    ∧ (get_last_slot_action none room_id day hour).found = false
    ∧ (get_last_slot_action file room_id day hour).ret = true
    ∧ (∀ fp fuel, file = some fp → fp.length ≤ fuel →
        scan_loop room_id day hour fuel fp (false, no_match)
          = scan_loop room_id day hour fp.length fp (false, no_match)) := by
  have key := get_last_slot_action_eq file room_id day hour
  refine ⟨?_, ?_, ?_, ?_, ?_⟩
  · cases hl : last_entry_for (file_entries file) room_id day hour with
    | none =>
      rw [hl] at key
      have hn := (last_entry_for_none _ _ _ _).1 hl
      rw [key]
      constructor
      · intro h; simp at h
      · rintro ⟨e, he, hm⟩
        have := hn e he
        simp [for_slot, hm] at this
    | some e =>
      rw [hl] at key
      obtain ⟨pre, post, h1, h2, -⟩ := last_entry_for_split _ _ _ _ e hl
      rw [key]
      constructor
      · intro _
        exact ⟨e, by rw [h1]; simp, by simpa [for_slot] using h2⟩
      · intro _; rfl
  · intro hf
    cases hl : last_entry_for (file_entries file) room_id day hour with
    | none =>
      rw [hl] at key
      rw [key] at hf
      simp at hf
    | some e =>
      rw [hl] at key
      obtain ⟨pre, post, h1, h2, h3⟩ := last_entry_for_split _ _ _ _ e hl
      refine ⟨pre, e, post, h1, by simpa [for_slot] using h2, ?_, by rw [key], by rw [key]⟩
      intro x hx
      have := h3 x hx
      simpa [for_slot] using this
  · rfl
  · rw [key]
    cases last_entry_for (file_entries file) room_id day hour <;> rfl
  · intro fp fuel _ hlen
    exact scan_loop_fuel room_id day hour fuel fp.length fp _ hlen (Nat.le_refl _)

/-- C4: when the slot is occupied, `book_slot` is rejected for every
requesting actor: the whole state (in-memory grid, rooms file, log) is
unchanged, no success is reported, and `get_last_slot_action` returns the
same before and after; for a logged-in actor the answer is one of the two
already-booked lines. -/
theorem book_slot_occupied_rejected (s : State) (room_id : Int) (day : Fin 7) (hour : Fin 24)
    (save_ok append_ok : Bool) (hocc : occupied s room_id day hour = true) :
    (book_slot s room_id day hour save_ok append_ok).1 = s
    ∧ Msg.booking_successful ∉ (book_slot s room_id day hour save_ok append_ok).2
    ∧ get_last_slot_action (book_slot s room_id day hour save_ok append_ok).1.bookings_file
          room_id (day_int day) (hour_int hour)
        = get_last_slot_action s.bookings_file room_id (day_int day) (hour_int hour)
    ∧ (∀ u, current_user s = some u → validate_room_id room_id = true →
        (book_slot s room_id day hour save_ok append_ok).2
            = [Msg.slot_already_booked_by
                (get_last_slot_action s.bookings_file room_id (day_int day)
                  (hour_int hour)).username]
          ∨ (book_slot s room_id day hour save_ok append_ok).2 = [Msg.slot_already_booked]) := by
  unfold occupied at hocc
  cases hf : find_room_by_id s.rooms room_id with
  | none => simp [hf] at hocc
  | some i =>
    simp only [hf] at hocc
    have main : (book_slot s room_id day hour save_ok append_ok).1 = s
        ∧ Msg.booking_successful ∉ (book_slot s room_id day hour save_ok append_ok).2 := by
      unfold book_slot
      cases hu : current_user s with
      | none => simp
      | some u =>
        cases hv : validate_room_id room_id with
        | false => simp
        | true =>
          simp only [hf, hocc, if_true, Bool.not_true, Bool.false_eq_true, if_false]
          split <;> simp
    refine ⟨main.1, main.2, by rw [main.1], ?_⟩
    intro u hu hv
    unfold book_slot
    simp only [hu, hv, hf, hocc, if_true, Bool.not_true, Bool.false_eq_true, if_false]
    split
    · left; rfl
    · right; rfl

/-- C4 at a concrete input: `bob` asks for the slot `alice` holds. -/
theorem book_slot_occupied_rejected_witness :
    occupied st_bob 101 1 9 = true
    ∧ (book_slot st_bob 101 1 9 true true).1 = st_bob
    ∧ (book_slot st_bob 101 1 9 true true).2 = [Msg.slot_already_booked_by "alice".toList] := by
  refine ⟨by decide, (book_slot_occupied_rejected st_bob 101 1 9 true true (by decide)).1, ?_⟩
  decide

/-- C10: when the slot is free, `cancel_booking` is rejected as not booked
for every requesting actor, admin included: the state is unchanged, so no
log entry is appended and the grid is as before. -/
theorem cancel_booking_free_rejected (s : State) (u : User) (room_id : Int) (day : Fin 7)
    (hour : Fin 24) (save_ok append_ok : Bool) (i : Nat)
    (hu : current_user s = some u) (hv : validate_room_id room_id = true)
    (hf : find_room_by_id s.rooms room_id = some i)
    (hfree : slot_at s.rooms i day hour = false) :
    cancel_booking s room_id day hour save_ok append_ok = (s, [Msg.slot_not_booked]) := by
  unfold cancel_booking
  simp [hu, hv, hf, hfree]

/-- C10 at a concrete input: the admin cancels a slot nobody booked. -/
theorem cancel_booking_free_rejected_witness :
    cancel_booking st_admin 101 2 9 true true = (st_admin, [Msg.slot_not_booked]) :=
  cancel_booking_free_rejected st_admin
    { username := "admin".toList, password := "admin123".toList, is_admin := true }
    101 2 9 true true 0 (by decide) (by decide) (by decide) (by decide)

/-- C5: when the slot is occupied and its last log entry is a Book by `x`,
a Regular actor other than `x` is refused with the own-bookings line and
the state (grid and log) is unchanged. -/
theorem cancel_booking_other_rejected (s : State) (u : User) (x : List Char) (room_id : Int)
    (day : Fin 7) (hour : Fin 24) (save_ok append_ok : Bool)
    (hu : current_user s = some u) (hreg : u.is_admin = false)
    (hv : validate_room_id room_id = true) (hocc : occupied s room_id day hour = true)
    (hlast : get_last_slot_action s.bookings_file room_id (day_int day) (hour_int hour)
      = { ret := true, found := true, username := x, action := 'B' })
    (hne : u.username ≠ x) :
    cancel_booking s room_id day hour save_ok append_ok = (s, [Msg.only_own_bookings]) := by
  unfold occupied at hocc
  cases hf : find_room_by_id s.rooms room_id with
  | none => simp [hf] at hocc
  | some i =>
    simp only [hf] at hocc
    unfold cancel_booking
    have hx : x ≠ u.username := fun h => hne h.symm
    simp [hu, hv, hf, hocc, hreg, hlast, hx]

/-- C5 at a concrete input: `bob` tries to cancel the booking of `alice`. -/
theorem cancel_booking_other_rejected_witness :
    cancel_booking st_bob 101 1 9 true true = (st_bob, [Msg.only_own_bookings]) :=
  cancel_booking_other_rejected st_bob
    { username := "bob".toList, password := "pw2".toList, is_admin := false } "alice".toList
    101 1 9 true true (by decide) (by decide) (by decide) (by decide) (by decide) (by decide)

/-- C8: if `save_rooms` fails after the flag was flipped, `book_slot` (on
a free slot) and `cancel_booking` (on an occupied slot the actor may
cancel) abort with the state they started from: the flipped cell is
restored, no other cell differs, and nothing is appended to the log. -/
theorem save_failure_rolls_back (s : State) (u : User) (room_id : Int) (day : Fin 7)
    (hour : Fin 24) (append_ok : Bool) (i : Nat)
    (hu : current_user s = some u) (hv : validate_room_id room_id = true)
    (hf : find_room_by_id s.rooms room_id = some i) :
    (slot_at s.rooms i day hour = false →
      book_slot s room_id day hour false append_ok = (s, [Msg.save_schedule_failed]))
    ∧ (slot_at s.rooms i day hour = true →
        (u.is_admin = true
          ∨ get_last_slot_action s.bookings_file room_id (day_int day) (hour_int hour)
              = { ret := true, found := true, username := u.username, action := 'B' }) →
        cancel_booking s room_id day hour false append_ok = (s, [Msg.save_changes_failed])) := by
  constructor
  · intro hfree
    have hr := set_slot_restore s.rooms i day hour false true hfree
    unfold book_slot
    simp only [hu, hv, hf, hfree, save_rooms, Bool.not_true, Bool.false_eq_true, if_false,
      Prod.mk.injEq, and_true]
    rw [hr]
  · intro hocc hperm
    have hr := set_slot_restore s.rooms i day hour true false hocc
    have hgate : (!u.is_admin &&
        (!(get_last_slot_action s.bookings_file room_id (day_int day) (hour_int hour)).ret
          || !(get_last_slot_action s.bookings_file room_id (day_int day) (hour_int hour)).found
          || (get_last_slot_action s.bookings_file room_id (day_int day) (hour_int hour)).action
              != 'B'
          || (get_last_slot_action s.bookings_file room_id (day_int day) (hour_int hour)).username
              != u.username)) = false := by
      rcases hperm with h | h
      · simp [h]
      · simp [h]
    unfold cancel_booking
    simp only [hu, hv, hf, hocc, hgate, save_rooms, Bool.not_true, Bool.false_eq_true, if_false,
      Prod.mk.injEq, and_true]
    rw [hr]

/-- C8 at concrete inputs: the booking by `alice` of a free slot, and the
admin's cancellation of the booked slot, with the rooms file not writable. -/
theorem save_failure_rolls_back_witness :
    book_slot st_alice 101 1 9 false true = (st_alice, [Msg.save_schedule_failed])
    ∧ cancel_booking st_admin 101 1 9 false true = (st_admin, [Msg.save_changes_failed]) :=
  ⟨(save_failure_rolls_back st_alice
      { username := "alice".toList, password := "pw1".toList, is_admin := false }
      101 1 9 true 0 (by decide) (by decide) (by decide)).1 (by decide),
   (save_failure_rolls_back st_admin
      { username := "admin".toList, password := "admin123".toList, is_admin := true }
      101 1 9 true 0 (by decide) (by decide) (by decide)).2 (by decide) (Or.inl rfl)⟩

/-- C9: on a free slot, when `save_rooms` succeeds and the log append
fails, `book_slot` prints the history-not-saved warning followed by the
success line; the slot is occupied in memory, the rooms file holds the
snapshot of that grid, and the log, accounts and current user are unchanged. -/
theorem book_slot_append_failure (s : State) (u : User) (room_id : Int) (day : Fin 7)
    (hour : Fin 24) (i : Nat)
    (hu : current_user s = some u) (hv : validate_room_id room_id = true)
    (hf : find_room_by_id s.rooms room_id = some i)
    (hfree : slot_at s.rooms i day hour = false) :
    (book_slot s room_id day hour true false).2
        = [Msg.warn_record_not_saved, Msg.booking_successful]
    ∧ (book_slot s room_id day hour true false).1.rooms = set_slot s.rooms i day hour true
    ∧ occupied (book_slot s room_id day hour true false).1 room_id day hour = true
    ∧ (book_slot s room_id day hour true false).1.rooms_file
        = some (save_rooms_text (book_slot s room_id day hour true false).1.rooms)
    ∧ (book_slot s room_id day hour true false).1.bookings_file = s.bookings_file
    ∧ (book_slot s room_id day hour true false).1.users = s.users
    ∧ (book_slot s room_id day hour true false).1.current_user_index = s.current_user_index := by
  obtain ⟨r, hr, -⟩ := find_room_by_id_some s.rooms room_id i hf
  have e : book_slot s room_id day hour true false
      = ({ s with rooms := set_slot s.rooms i day hour true,
                  rooms_file := some (save_rooms_text (set_slot s.rooms i day hour true)) },
         [Msg.warn_record_not_saved, Msg.booking_successful]) := by
    unfold book_slot
    simp [hu, hv, hf, hfree, save_rooms, append_booking_record_with_action]
  rw [e]
  refine ⟨rfl, rfl, ?_, rfl, rfl, rfl, rfl⟩
  simp only [occupied, find_room_by_id_set_slot, hf]
  exact slot_at_set_slot s.rooms i day hour true r hr

/-- C9 at a concrete input: `alice` books the free slot while the bookings
file cannot be opened. -/
theorem book_slot_append_failure_witness :
    (book_slot st_alice 101 1 9 true false).2
        = [Msg.warn_record_not_saved, Msg.booking_successful]
    ∧ occupied (book_slot st_alice 101 1 9 true false).1 101 1 9 = true
    ∧ (book_slot st_alice 101 1 9 true false).1.bookings_file = st_alice.bookings_file :=
  have h := book_slot_append_failure st_alice
    { username := "alice".toList, password := "pw1".toList, is_admin := false }
    101 1 9 0 (by decide) (by decide) (by decide) (by decide)
  ⟨h.1, h.2.2.1, h.2.2.2.2.1⟩

/-- C2, as the claim states it, fails: with the rooms file written and the
log append failing, `book_slot` reports the booking of `alice` as successful
and the slot is occupied, yet `get_last_slot_action` finds no entry. -/
theorem book_slot_success_without_entry :
    Msg.booking_successful ∈ (book_slot st_alice 101 1 9 true false).2
    ∧ occupied (book_slot st_alice 101 1 9 true false).1 101 1 9 = true
    ∧ (get_last_slot_action (book_slot st_alice 101 1 9 true false).1.bookings_file
        101 (day_int 1) (hour_int 9)).found = false := by
  decide

/-- C2, amended: after every booking of `(R,D,H)` by `A` that `book_slot`
reports as successful and whose log append succeeded (on a log whose last
line is complete), the slot is occupied and `get_last_slot_action(R,D,H)`
returns found with actor `A` and action `'B'`. -/
theorem book_slot_success_logged (s : State) (u : User) (room_id : Int) (day : Fin 7)
    (hour : Fin 24) (save_ok : Bool) (hu : current_user s = some u)
    (hvu : valid_token u.username) (hc : closed (s.bookings_file.getD []))
    (hok : Msg.booking_successful ∈ (book_slot s room_id day hour save_ok true).2) :
    occupied (book_slot s room_id day hour save_ok true).1 room_id day hour = true
    ∧ get_last_slot_action (book_slot s room_id day hour save_ok true).1.bookings_file
          room_id (day_int day) (hour_int hour)
        = { ret := true, found := true, username := u.username, action := 'B' } := by
  obtain ⟨hv, hs, i, hf, hfree⟩ := book_slot_success_inv s u room_id day hour save_ok true hu hok
  subst hs
  obtain ⟨r, hr, -⟩ := find_room_by_id_some s.rooms room_id i hf
  rw [book_slot_commit s u room_id day hour i hu hv hf hfree]
  constructor
  · simp only [occupied, find_room_by_id_set_slot, hf]
    exact slot_at_set_slot s.rooms i day hour true r hr
  · simp only
    rw [get_last_slot_action_append s.bookings_file room_id (day_int day) (hour_int hour) 'B'
      u.username _ _ _ hc (validate_room_id_range room_id hv) (day_int_range day)
      (hour_int_range hour) (Or.inl rfl) hvu]
    simp

/-- C2 amended, at a concrete input: `alice` books room 101, Monday at 9. -/
theorem book_slot_success_logged_witness :
    occupied (book_slot st_alice 101 1 9 true true).1 101 1 9 = true
    ∧ get_last_slot_action (book_slot st_alice 101 1 9 true true).1.bookings_file
          101 (day_int 1) (hour_int 9)
        = { ret := true, found := true, username := "alice".toList, action := 'B' } :=
  book_slot_success_logged st_alice
    { username := "alice".toList, password := "pw1".toList, is_admin := false }
    101 1 9 true (by decide) (by decide) (by decide) (by decide)

/-- C3, as the claim states it, fails: on a log whose last line lacks its
newline the admin's cancellation is completed, the grid persisted and the
Cancel text appended, yet the text is glued to the unfinished line and
`get_last_slot_action` returns the actor `alice101` with action `'B'`. -/
theorem cancel_booking_glued_entry :
    occupied st_admin_open_log 101 1 9 = true
    ∧ Msg.cancellation_successful ∈ (cancel_booking st_admin_open_log 101 1 9 true true).2
    ∧ (cancel_booking st_admin_open_log 101 1 9 true true).1.bookings_file
        = some "101 1 9 B alice101 1 9 C admin\n".toList
    ∧ occupied (cancel_booking st_admin_open_log 101 1 9 true true).1 101 1 9 = false
    ∧ get_last_slot_action (cancel_booking st_admin_open_log 101 1 9 true true).1.bookings_file
          101 (day_int 1) (hour_int 9)
        = { ret := true, found := true, username := "alice101".toList, action := 'B' } := by
  decide

/-- C3, amended: after every cancellation of `(R,D,H)` that `cancel_booking`
completes with the grid persisted and the Cancel entry appended to a log
that ends in a complete line, the slot, occupied before, is free and
`get_last_slot_action(R,D,H)` returns found with the actor who cancelled
and action `'C'`, whoever had booked the slot. -/
theorem cancel_booking_success_logged (s : State) (u : User) (room_id : Int) (day : Fin 7)
    (hour : Fin 24) (save_ok : Bool) (hu : current_user s = some u)
    (hvu : valid_token u.username) (hc : closed (s.bookings_file.getD []))
    (hok : Msg.cancellation_successful ∈ (cancel_booking s room_id day hour save_ok true).2) :
    occupied s room_id day hour = true
    ∧ occupied (cancel_booking s room_id day hour save_ok true).1 room_id day hour = false
    ∧ get_last_slot_action (cancel_booking s room_id day hour save_ok true).1.bookings_file
          room_id (day_int day) (hour_int hour)
        = { ret := true, found := true, username := u.username, action := 'C' } := by
  obtain ⟨hv, hs, hg, i, hf, hocc⟩ :=
    cancel_booking_success_inv s u room_id day hour save_ok true hu hok
  subst hs
  obtain ⟨r, hr, -⟩ := find_room_by_id_some s.rooms room_id i hf
  rw [cancel_booking_commit s u room_id day hour i hu hv hf hocc hg]
  refine ⟨by simp only [occupied, hf, hocc], ?_, ?_⟩
  · simp only [occupied, find_room_by_id_set_slot, hf]
    exact slot_at_set_slot s.rooms i day hour false r hr
  · simp only
    rw [get_last_slot_action_append s.bookings_file room_id (day_int day) (hour_int hour) 'C'
      u.username _ _ _ hc (validate_room_id_range room_id hv) (day_int_range day)
      (hour_int_range hour) (Or.inr rfl) hvu]
    simp

/-- C3 amended, at a concrete input: the admin cancels the booking `alice`
made. -/
theorem cancel_booking_success_logged_witness :
    occupied st_admin 101 1 9 = true
    ∧ occupied (cancel_booking st_admin 101 1 9 true true).1 101 1 9 = false
    ∧ get_last_slot_action (cancel_booking st_admin 101 1 9 true true).1.bookings_file
          101 (day_int 1) (hour_int 9)
        = { ret := true, found := true, username := "admin".toList, action := 'C' } :=
  cancel_booking_success_logged st_admin
    { username := "admin".toList, password := "admin123".toList, is_admin := true }
    101 1 9 true (by decide) (by decide) (by decide) (by decide)

/-- C6: for an occupied slot with the rooms file writable, a Regular
actor's cancellation is accepted exactly when the last log entry for the
slot exists, has action `'B'` and has that actor's name (otherwise it is
refused with the own-bookings line and nothing changes); an Admin's
cancellation is accepted whatever the log holds. -/
theorem cancel_booking_accepted_iff (s : State) (u : User) (room_id : Int) (day : Fin 7)
    (hour : Fin 24) (append_ok : Bool) (hu : current_user s = some u)
    (hv : validate_room_id room_id = true) (hocc : occupied s room_id day hour = true) :
    (u.is_admin = false →
      ((Msg.cancellation_successful ∈ (cancel_booking s room_id day hour true append_ok).2
          ↔ ∃ e, last_entry_for (file_entries s.bookings_file) room_id (day_int day)
                  (hour_int hour) = some e
                ∧ e.action = 'B' ∧ e.username = u.username)
        ∧ (Msg.cancellation_successful ∉ (cancel_booking s room_id day hour true append_ok).2 →
            cancel_booking s room_id day hour true append_ok = (s, [Msg.only_own_bookings]))))
    ∧ (u.is_admin = true →
        Msg.cancellation_successful ∈ (cancel_booking s room_id day hour true append_ok).2) := by
  unfold occupied at hocc
  cases hf : find_room_by_id s.rooms room_id with
  | none => simp [hf] at hocc
  | some i =>
    simp only [hf] at hocc
    have hopen : gate_closed s u room_id day hour = false →
        Msg.cancellation_successful ∈ (cancel_booking s room_id day hour true append_ok).2 := by
      intro hg
      unfold gate_closed at hg
      unfold cancel_booking
      simp only [hu, hv, hf, hocc, hg, save_rooms, Bool.not_true, Bool.false_eq_true, if_false,
        if_true]
      cases append_ok <;> simp [append_booking_record_with_action]
    have hgate : u.is_admin = false →
        (gate_closed s u room_id day hour = false
          ↔ ∃ e, last_entry_for (file_entries s.bookings_file) room_id (day_int day)
                  (hour_int hour) = some e
                ∧ e.action = 'B' ∧ e.username = u.username) := by
      intro hreg
      unfold gate_closed
      rw [get_last_slot_action_eq]
      cases last_entry_for (file_entries s.bookings_file) room_id (day_int day) (hour_int hour)
        with
      | none => simp [hreg]
      | some e => simp [hreg]
    constructor
    · intro hreg
      constructor
      · constructor
        · intro hok
          exact (hgate hreg).1
            (cancel_booking_success_inv s u room_id day hour true append_ok hu hok).2.2.1
        · intro h
          exact hopen ((hgate hreg).2 h)
      · intro hno
        cases hg : gate_closed s u room_id day hour with
        | false => exact absurd (hopen hg) hno
        | true => exact cancel_booking_refused s u room_id day hour true append_ok i hu hv hf hocc hg
    · intro hadm
      exact hopen (by simp [gate_closed, hadm])

/-- C6 at a concrete input: `bob`, a Regular actor, on the slot `alice`
booked. -/
theorem cancel_booking_accepted_iff_witness :
    Msg.cancellation_successful ∉ (cancel_booking st_bob 101 1 9 true true).2
    ∧ ¬ ∃ e, last_entry_for (file_entries st_bob.bookings_file) 101 (day_int 1) (hour_int 9)
              = some e
            ∧ e.action = 'B' ∧ e.username = "bob".toList :=
  have h := ((cancel_booking_accepted_iff st_bob
    { username := "bob".toList, password := "pw2".toList, is_admin := false }
    101 1 9 true (by decide) (by decide) (by decide)).1 rfl).1
  have hno : Msg.cancellation_successful ∉ (cancel_booking st_bob 101 1 9 true true).2 := by
    decide
  ⟨hno, fun hex => hno (h.2 hex)⟩

/-! ## Evaluations on concrete inputs -/

theorem fmt_record_example :
    fmt_record 101 1 9 'B' "alice".toList = "101 1 9 B alice\n".toList := by decide

theorem sscanf_record_example :
    sscanf_record "101 1 9 B alice\n".toList
      = some { room_id := 101, day := 1, hour := 9, username := "alice".toList, action := 'B' }
    ∧ sscanf_record "101 1 9 B\n".toList = none := by decide

theorem get_last_slot_action_example :
    get_last_slot_action (some "101 1 9 B alice\n101 1 9 C bob\n".toList) 101 1 9
      = { ret := true, found := true, username := "bob".toList, action := 'C' } := by decide

theorem st_booked_example :
    st_seed.rooms.length = 69
    ∧ st_booked.bookings_file = some "101 1 9 B alice\n".toList
    ∧ (cancel_booking st_admin 101 1 9 true true).1.bookings_file
        = some "101 1 9 B alice\n101 1 9 C admin\n".toList := by decide

/-! ## Room identifiers -/

/-- C20: for every integer id, `validate_room_id(id)` is true if and only
if `id / 100` is in 1..9 and `id % 100` is in 1..99 (the truncating
operators of C), which is equivalent to `101 <= id <= 999` and
`id % 100 != 0`. -/
theorem validate_room_id_iff (id : Int) :
    (validate_room_id id = true
      ↔ (1 ≤ Int.tdiv id 100 ∧ Int.tdiv id 100 ≤ 9)
          ∧ (1 ≤ Int.tmod id 100 ∧ Int.tmod id 100 ≤ 99))
    ∧ (validate_room_id id = true ↔ 101 ≤ id ∧ id ≤ 999 ∧ Int.tmod id 100 ≠ 0) := by
  by_cases h0 : 0 ≤ id
  · have hd : Int.tdiv id 100 = id / 100 := Int.tdiv_eq_ediv h0 (by norm_num)
    have hm : Int.tmod id 100 = id % 100 := Int.tmod_eq_emod h0 (by norm_num)
    rw [hd, hm]
    unfold validate_room_id
    rw [hd, hm]
    constructor
    · split
      · constructor
        · intro h; exact absurd h (by simp)
        · intro h; omega
      · simp only [ge_iff_le, Bool.and_eq_true, decide_eq_true_eq]
    · split
      · constructor
        · intro h; exact absurd h (by simp)
        · intro h; omega
      · simp only [ge_iff_le, Bool.and_eq_true, decide_eq_true_eq]
        omega
  · have hneg : Int.tdiv id 100 ≤ 0 := by
      have h1 : id = -(-id) := by omega
      rw [h1, Int.neg_tdiv]
      have : 0 ≤ Int.tdiv (-id) 100 := Int.tdiv_nonneg (by omega) (by norm_num)
      omega
    have hv : validate_room_id id = false := by
      unfold validate_room_id
      rw [if_pos (Or.inl (by omega))]
    rw [hv]
    constructor
    · constructor
      · intro h; exact absurd h (by simp)
      · intro h; omega
    · constructor
      · intro h; exact absurd h (by simp)
      · intro h; omega

/-! ## The log only grows -/

theorem book_slot_log_cases (s : State) (room_id : Int) (day : Fin 7) (hour : Fin 24)
    (save_ok append_ok : Bool) :
    (book_slot s room_id day hour save_ok append_ok).1.bookings_file = s.bookings_file
      ∨ (save_ok = true ∧ append_ok = true
          ∧ Msg.booking_successful ∈ (book_slot s room_id day hour save_ok append_ok).2) := by
  cases hu : current_user s with
  | none => left; simp [book_slot, hu]
  | some u =>
    cases hv : validate_room_id room_id with
    | false => left; simp [book_slot, hu, hv]
    | true =>
      cases hf : find_room_by_id s.rooms room_id with
      | none => left; simp [book_slot, hu, hv, hf]
      | some i =>
        cases hs : slot_at s.rooms i day hour with
        | true =>
          left
          rw [book_slot_occupied_state s u room_id day hour save_ok append_ok i hu hv hf hs]
        | false =>
          cases save_ok with
          | false => left; simp [book_slot, hu, hv, hf, hs, save_rooms]
          | true =>
            cases append_ok with
            | false =>
              left
              simp [book_slot, hu, hv, hf, hs, save_rooms, append_booking_record_with_action]
            | true =>
              right
              rw [book_slot_commit s u room_id day hour i hu hv hf hs]
              simp

theorem cancel_booking_log_cases (s : State) (room_id : Int) (day : Fin 7) (hour : Fin 24)
    (save_ok append_ok : Bool) :
    (cancel_booking s room_id day hour save_ok append_ok).1.bookings_file = s.bookings_file
      ∨ (save_ok = true ∧ append_ok = true
          ∧ Msg.cancellation_successful
              ∈ (cancel_booking s room_id day hour save_ok append_ok).2) := by
  cases hu : current_user s with
  | none => left; simp [cancel_booking, hu]
  | some u =>
    cases hv : validate_room_id room_id with
    | false => left; simp [cancel_booking, hu, hv]
    | true =>
      cases hf : find_room_by_id s.rooms room_id with
      | none => left; simp [cancel_booking, hu, hv, hf]
      | some i =>
        cases hs : slot_at s.rooms i day hour with
        | false => left; simp [cancel_booking, hu, hv, hf, hs]
        | true =>
          cases hg : gate_closed s u room_id day hour with
          | true =>
            left
            rw [cancel_booking_refused s u room_id day hour save_ok append_ok i hu hv hf hs hg]
          | false =>
            have hg2 := hg
            unfold gate_closed at hg2
            cases save_ok with
            | false =>
              left
              unfold cancel_booking
              simp only [hu, hv, hf, hs, hg2, save_rooms, Bool.not_true, Bool.false_eq_true,
                if_false]
            | true =>
              cases append_ok with
              | false =>
                left
                unfold cancel_booking
                simp only [hu, hv, hf, hs, hg2, save_rooms, append_booking_record_with_action,
                  Bool.not_true, Bool.false_eq_true, if_false, if_true]
              | true =>
                right
                rw [cancel_booking_commit s u room_id day hour i hu hv hf hs hg]
                simp

/-- The log text after a booking whose append is reached and succeeds. -/
theorem book_slot_log_text (s : State) (u : User) (room_id : Int) (day : Fin 7) (hour : Fin 24)
    (hu : current_user s = some u)
    (hok : Msg.booking_successful ∈ (book_slot s room_id day hour true true).2) :
    validate_room_id room_id = true
      ∧ (book_slot s room_id day hour true true).1.bookings_file
          = some (s.bookings_file.getD []
              ++ fmt_record room_id (day_int day) (hour_int hour) 'B' u.username) := by
  obtain ⟨hv, -, i, hf, hfree⟩ := book_slot_success_inv s u room_id day hour true true hu hok
  rw [book_slot_commit s u room_id day hour i hu hv hf hfree]
  exact ⟨hv, rfl⟩

/-- The log text after a cancellation whose append is reached and succeeds. -/
theorem cancel_booking_log_text (s : State) (u : User) (room_id : Int) (day : Fin 7)
    (hour : Fin 24) (hu : current_user s = some u)
    (hok : Msg.cancellation_successful ∈ (cancel_booking s room_id day hour true true).2) :
    validate_room_id room_id = true
      ∧ (cancel_booking s room_id day hour true true).1.bookings_file
          = some (s.bookings_file.getD []
              ++ fmt_record room_id (day_int day) (hour_int hour) 'C' u.username) := by
  obtain ⟨hv, -, hg, i, hf, hocc⟩ :=
    cancel_booking_success_inv s u room_id day hour true true hu hok
  rw [cancel_booking_commit s u room_id day hour i hu hv hf hocc hg]
  exact ⟨hv, rfl⟩

/-- C11, as the claim states it, fails: the booking `alice` makes while the
bookings file cannot be opened is reported as successful and appends no
entry. -/
theorem successful_booking_without_append :
    Msg.booking_successful ∈ (book_slot st_alice 101 1 9 true false).2
    ∧ file_entries (book_slot st_alice 101 1 9 true false).1.bookings_file
        = file_entries st_alice.bookings_file := by
  decide

/-- C11, amended: for every `book_slot` or `cancel_booking` request starting
from log `L` (ending in a complete line), the entries of the resulting log
are those of `L` or those of `L` followed by exactly one new entry, and the
text of `L` is a prefix of the new text; a successful booking whose log
append succeeds appends `(room, day, hour, 'B', requesting actor)` and a
successful cancellation whose log append succeeds appends
`(room, day, hour, 'C', requesting actor)`, whoever had booked the slot. -/
theorem log_append_only (s : State) (u : User) (room_id : Int) (day : Fin 7) (hour : Fin 24)
    (save_ok append_ok : Bool) (hu : current_user s = some u) (hvu : valid_token u.username)
    (hc : closed (s.bookings_file.getD [])) :
    (file_entries (book_slot s room_id day hour save_ok append_ok).1.bookings_file
          = file_entries s.bookings_file
        ∨ file_entries (book_slot s room_id day hour save_ok append_ok).1.bookings_file
          = file_entries s.bookings_file
              ++ [{ room_id := room_id, day := day_int day, hour := hour_int hour,
                    username := u.username, action := 'B' }])
    ∧ (file_entries (cancel_booking s room_id day hour save_ok append_ok).1.bookings_file
          = file_entries s.bookings_file
        ∨ file_entries (cancel_booking s room_id day hour save_ok append_ok).1.bookings_file
          = file_entries s.bookings_file
              ++ [{ room_id := room_id, day := day_int day, hour := hour_int hour,
                    username := u.username, action := 'C' }])
    ∧ (∃ suffix, (book_slot s room_id day hour save_ok append_ok).1.bookings_file.getD []
          = s.bookings_file.getD [] ++ suffix)
    ∧ (∃ suffix, (cancel_booking s room_id day hour save_ok append_ok).1.bookings_file.getD []
          = s.bookings_file.getD [] ++ suffix)
    ∧ (append_ok = true →
        Msg.booking_successful ∈ (book_slot s room_id day hour save_ok append_ok).2 →
        file_entries (book_slot s room_id day hour save_ok append_ok).1.bookings_file
          = file_entries s.bookings_file
              ++ [{ room_id := room_id, day := day_int day, hour := hour_int hour,
                    username := u.username, action := 'B' }])
    ∧ (append_ok = true →
        Msg.cancellation_successful ∈ (cancel_booking s room_id day hour save_ok append_ok).2 →
        file_entries (cancel_booking s room_id day hour save_ok append_ok).1.bookings_file
          = file_entries s.bookings_file
              ++ [{ room_id := room_id, day := day_int day, hour := hour_int hour,
                    username := u.username, action := 'C' }]) := by
  have hB : Msg.booking_successful ∈ (book_slot s room_id day hour true true).2 →
      (book_slot s room_id day hour true true).1.bookings_file
          = some (s.bookings_file.getD []
              ++ fmt_record room_id (day_int day) (hour_int hour) 'B' u.username)
        ∧ file_entries (book_slot s room_id day hour true true).1.bookings_file
          = file_entries s.bookings_file
              ++ [{ room_id := room_id, day := day_int day, hour := hour_int hour,
                    username := u.username, action := 'B' }] := by
    intro hok
    obtain ⟨hv, ht⟩ := book_slot_log_text s u room_id day hour hu hok
    refine ⟨ht, ?_⟩
    rw [ht]
    exact file_entries_append s.bookings_file room_id (day_int day) (hour_int hour) 'B'
      u.username hc (validate_room_id_range room_id hv) (day_int_range day)
      (hour_int_range hour) (Or.inl rfl) hvu
  have hC : Msg.cancellation_successful ∈ (cancel_booking s room_id day hour true true).2 →
      (cancel_booking s room_id day hour true true).1.bookings_file
          = some (s.bookings_file.getD []
              ++ fmt_record room_id (day_int day) (hour_int hour) 'C' u.username)
        ∧ file_entries (cancel_booking s room_id day hour true true).1.bookings_file
          = file_entries s.bookings_file
              ++ [{ room_id := room_id, day := day_int day, hour := hour_int hour,
                    username := u.username, action := 'C' }] := by
    intro hok
    obtain ⟨hv, ht⟩ := cancel_booking_log_text s u room_id day hour hu hok
    refine ⟨ht, ?_⟩
    rw [ht]
    exact file_entries_append s.bookings_file room_id (day_int day) (hour_int hour) 'C'
      u.username hc (validate_room_id_range room_id hv) (day_int_range day)
      (hour_int_range hour) (Or.inr rfl) hvu
  refine ⟨?_, ?_, ?_, ?_, ?_, ?_⟩
  · rcases book_slot_log_cases s room_id day hour save_ok append_ok with h | ⟨h1, h2, h3⟩
    · left; rw [h]
    · subst h1; subst h2; right; exact (hB h3).2
  · rcases cancel_booking_log_cases s room_id day hour save_ok append_ok with h | ⟨h1, h2, h3⟩
    · left; rw [h]
    · subst h1; subst h2; right; exact (hC h3).2
  · rcases book_slot_log_cases s room_id day hour save_ok append_ok with h | ⟨h1, h2, h3⟩
    · exact ⟨[], by rw [h]; simp⟩
    · subst h1; subst h2
      exact ⟨_, by rw [(hB h3).1]; rfl⟩
  · rcases cancel_booking_log_cases s room_id day hour save_ok append_ok with h | ⟨h1, h2, h3⟩
    · exact ⟨[], by rw [h]; simp⟩
    · subst h1; subst h2
      exact ⟨_, by rw [(hC h3).1]; rfl⟩
  · intro ha hok
    subst ha
    obtain ⟨-, hs, -⟩ := book_slot_success_inv s u room_id day hour save_ok true hu hok
    subst hs
    exact (hB hok).2
  · intro ha hok
    subst ha
    obtain ⟨-, hs, -⟩ := cancel_booking_success_inv s u room_id day hour save_ok true hu hok
    subst hs
    exact (hC hok).2

/-- C11 amended, at a concrete input: the admin cancels the booking of
`alice`; the log keeps her entry and gains the admin's Cancel entry. -/
theorem log_append_only_witness :
    file_entries (cancel_booking st_admin 101 1 9 true true).1.bookings_file
      = file_entries st_admin.bookings_file
          ++ [{ room_id := 101, day := day_int 1, hour := hour_int 9,
                username := "admin".toList, action := 'C' }] :=
  (log_append_only st_admin
    { username := "admin".toList, password := "admin123".toList, is_admin := true }
    101 1 9 true true (by decide) (by decide) (by decide)).2.2.2.2.2 rfl (by decide)

/-! ## The order of the checks in `cancel_booking` -/

/-- C15, as the claim states it, fails: `bob`, a Regular actor, asks to
cancel a free slot he has no booking on; the answer is the not-booked line,
not the own-bookings line. -/
theorem cancel_booking_free_not_owned :
    current_user st_bob
        = some { username := "bob".toList, password := "pw2".toList, is_admin := false }
    ∧ occupied st_bob 101 2 9 = false
    ∧ (get_last_slot_action st_bob.bookings_file 101 (day_int 2) (hour_int 9)).found = false
    ∧ (cancel_booking st_bob 101 2 9 true true).2 = [Msg.slot_not_booked]
    ∧ Msg.only_own_bookings ∉ (cancel_booking st_bob 101 2 9 true true).2 := by
  decide

/-- C15, amended: in `cancel_booking` the availability check is applied
before the permission gate: a Regular actor `U` requesting cancellation of
a slot whose last log action is not a Book by `U` is rejected as not booked
when the grid marks the slot free, and as not his booking when the grid
marks it occupied; the state is unchanged in both cases. -/
theorem cancel_booking_check_order (s : State) (u : User) (room_id : Int) (day : Fin 7)
    (hour : Fin 24) (save_ok append_ok : Bool) (i : Nat)
    (hu : current_user s = some u) (hreg : u.is_admin = false)
    (hv : validate_room_id room_id = true) (hf : find_room_by_id s.rooms room_id = some i)
    (hnot : ¬ ((get_last_slot_action s.bookings_file room_id (day_int day)
                  (hour_int hour)).found = true
              ∧ (get_last_slot_action s.bookings_file room_id (day_int day)
                  (hour_int hour)).action = 'B'
              ∧ (get_last_slot_action s.bookings_file room_id (day_int day)
                  (hour_int hour)).username = u.username)) :
    (slot_at s.rooms i day hour = false →
      cancel_booking s room_id day hour save_ok append_ok = (s, [Msg.slot_not_booked]))
    ∧ (slot_at s.rooms i day hour = true →
        cancel_booking s room_id day hour save_ok append_ok = (s, [Msg.only_own_bookings])) := by
  constructor
  · intro hfree
    unfold cancel_booking
    simp [hu, hv, hf, hfree]
  · intro hocc
    have hg : gate_closed s u room_id day hour = true := by
      unfold gate_closed
      simp only [hreg, Bool.not_false, Bool.true_and, Bool.or_eq_true, Bool.not_eq_true',
        bne_iff_ne, ne_eq]
      by_contra hcon
      simp only [not_or, Bool.not_eq_false, Decidable.not_not] at hcon
      exact hnot ⟨hcon.1.1.2, hcon.1.2, hcon.2⟩
    exact cancel_booking_refused s u room_id day hour save_ok append_ok i hu hv hf hocc hg

/-- C15 amended, at concrete inputs: `bob` on a free slot and on the slot
`alice` booked. -/
theorem cancel_booking_check_order_witness :
    cancel_booking st_bob 101 2 9 true true = (st_bob, [Msg.slot_not_booked])
    ∧ cancel_booking st_bob 101 1 9 true true = (st_bob, [Msg.only_own_bookings]) :=
  ⟨(cancel_booking_check_order st_bob
      { username := "bob".toList, password := "pw2".toList, is_admin := false }
      101 2 9 true true 0 (by decide) (by decide) (by decide) (by decide) (by decide)).1
      (by decide),
   (cancel_booking_check_order st_bob
      { username := "bob".toList, password := "pw2".toList, is_admin := false }
      101 1 9 true true 0 (by decide) (by decide) (by decide) (by decide) (by decide)).2
      (by decide)⟩

/-- C16: for a Regular actor `u` and two states with the same grid and the
same current user whose logs differ in who (other than `u`) made the last
Book entry on the slot, `cancel_booking` by `u` prints the same lines in
both runs and leaves each state unchanged; the line printed carries no
actor name. -/
theorem cancel_booking_owner_hidden (s1 s2 : State) (u : User) (x1 x2 : List Char)
    (room_id : Int) (day : Fin 7) (hour : Fin 24) (save_ok append_ok : Bool)
    (hrooms : s1.rooms = s2.rooms)
    (hu1 : current_user s1 = some u) (hu2 : current_user s2 = some u)
    (hreg : u.is_admin = false)
    (h1 : get_last_slot_action s1.bookings_file room_id (day_int day) (hour_int hour)
      = { ret := true, found := true, username := x1, action := 'B' })
    (h2 : get_last_slot_action s2.bookings_file room_id (day_int day) (hour_int hour)
      = { ret := true, found := true, username := x2, action := 'B' })
    (hx1 : x1 ≠ u.username) (hx2 : x2 ≠ u.username) :
    (cancel_booking s1 room_id day hour save_ok append_ok).2
        = (cancel_booking s2 room_id day hour save_ok append_ok).2
    ∧ (cancel_booking s1 room_id day hour save_ok append_ok).1 = s1
    ∧ (cancel_booking s2 room_id day hour save_ok append_ok).1 = s2
    ∧ (occupied s1 room_id day hour = true → validate_room_id room_id = true →
        (cancel_booking s1 room_id day hour save_ok append_ok).2 = [Msg.only_own_bookings]) := by
  have key : ∀ (s : State) (x : List Char), current_user s = some u →
      get_last_slot_action s.bookings_file room_id (day_int day) (hour_int hour)
        = { ret := true, found := true, username := x, action := 'B' } →
      x ≠ u.username →
      cancel_booking s room_id day hour save_ok append_ok
        = (s, if validate_room_id room_id = true then
                match find_room_by_id s.rooms room_id with
                | none => [Msg.room_not_found]
                | some i =>
                  if slot_at s.rooms i day hour = true then [Msg.only_own_bookings]
                  else [Msg.slot_not_booked]
              else [Msg.invalid_room_id]) := by
    intro s x hu hl hx
    cases hv : validate_room_id room_id with
    | false => simp [cancel_booking, hu, hv]
    | true =>
      cases hf : find_room_by_id s.rooms room_id with
      | none => simp [cancel_booking, hu, hv, hf]
      | some i =>
        cases hs : slot_at s.rooms i day hour with
        | false => simp [cancel_booking, hu, hv, hf, hs]
        | true =>
          have hg : gate_closed s u room_id day hour = true := by
            simp [gate_closed, hreg, hl, hx]
          rw [cancel_booking_refused s u room_id day hour save_ok append_ok i hu hv hf hs hg]
          simp [hs]
  have e1 := key s1 x1 hu1 h1 hx1
  have e2 := key s2 x2 hu2 h2 hx2
  refine ⟨?_, by rw [e1], by rw [e2], ?_⟩
  · rw [e1, e2, hrooms]
  · intro hocc hv
    rw [e1]
    unfold occupied at hocc
    cases hf : find_room_by_id s1.rooms room_id with
    | none => simp [hf] at hocc
    | some i =>
      simp only [hf] at hocc
      simp [hv, hocc]

/-- C16 at a concrete input: `bob` on the slot once booked by `alice`, once
by `faculty`. -/
theorem cancel_booking_owner_hidden_witness :
    (cancel_booking st_bob 101 1 9 true true).2
        = (cancel_booking
            { st_bob with bookings_file := some "101 1 9 B faculty\n".toList }
            101 1 9 true true).2
    ∧ (cancel_booking st_bob 101 1 9 true true).2 = [Msg.only_own_bookings] :=
  have h := cancel_booking_owner_hidden st_bob
    { st_bob with bookings_file := some "101 1 9 B faculty\n".toList }
    { username := "bob".toList, password := "pw2".toList, is_admin := false }
    "alice".toList "faculty".toList 101 1 9 true true rfl (by decide) (by decide) rfl
    (by decide) (by decide) (by decide) (by decide)
  ⟨h.1, h.2.2.2 (by decide) (by decide)⟩

/-! ## The frame of a request -/

theorem only_cell_differs_refl (s : State) (room_id : Int) (day : Fin 7) (hour : Fin 24) :
    only_cell_differs s s room_id day hour := by
  refine ⟨rfl, rfl, rfl, ?_⟩
  intro j r r1 h1 h2
  rw [h1] at h2
  simp only [Option.some.injEq] at h2
  subst h2
  exact ⟨rfl, rfl, rfl, fun d h hne => absurd rfl hne⟩

theorem length_set_slot (rooms : List Classroom) (i : Nat) (d : Fin 7) (h : Fin 24) (v : Bool) :
    (set_slot rooms i d h v).length = rooms.length := by
  have := congrArg List.length (map_id_set_slot rooms i d h v)
  simpa using this

theorem only_cell_differs_set (s t : State) (room_id : Int) (day : Fin 7) (hour : Fin 24)
    (i : Nat) (v : Bool) (hf : find_room_by_id s.rooms room_id = some i)
    (hu : t.users = s.users) (hc : t.current_user_index = s.current_user_index)
    (hr : t.rooms = set_slot s.rooms i day hour v) :
    only_cell_differs s t room_id day hour := by
  refine ⟨hu, hc, by rw [hr, length_set_slot], ?_⟩
  intro j r r1 h1 h2
  rw [hr, getElem?_set_slot, h1] at h2
  simp only [Option.map_some', Option.some.injEq] at h2
  by_cases hji : j = i
  · subst hji
    simp only [if_true] at h2
    subst h2
    refine ⟨rfl, rfl, rfl, ?_⟩
    intro d h hne
    refine ⟨hf, ?_⟩
    by_contra hcon
    apply hne
    simp only [Classroom.set]
    rw [if_neg hcon]
  · simp only [hji, if_false] at h2
    subst h2
    exact ⟨rfl, rfl, rfl, fun d h hne => absurd rfl hne⟩

/-- C18: after every `book_slot` or `cancel_booking` request on
`(R,D,H)`, whatever the outcome of the file operations, the only room data
that can differ is the cell `schedule[D][H]` of the room found for id `R`:
ids, departments, types, every other cell, every other room, the room count,
the accounts and the current user are unchanged. -/
theorem request_frame (s : State) (room_id : Int) (day : Fin 7) (hour : Fin 24)
    (save_ok append_ok : Bool) :
    only_cell_differs s (book_slot s room_id day hour save_ok append_ok).1 room_id day hour
    ∧ only_cell_differs s (cancel_booking s room_id day hour save_ok append_ok).1
        room_id day hour := by
  constructor
  · cases hu : current_user s with
    | none => simpa [book_slot, hu] using only_cell_differs_refl s room_id day hour
    | some u =>
      cases hv : validate_room_id room_id with
      | false => simpa [book_slot, hu, hv] using only_cell_differs_refl s room_id day hour
      | true =>
        cases hf : find_room_by_id s.rooms room_id with
        | none => simpa [book_slot, hu, hv, hf] using only_cell_differs_refl s room_id day hour
        | some i =>
          cases hs : slot_at s.rooms i day hour with
          | true =>
            rw [book_slot_occupied_state s u room_id day hour save_ok append_ok i hu hv hf hs]
            exact only_cell_differs_refl s room_id day hour
          | false =>
            cases save_ok with
            | false =>
              have hr := set_slot_restore s.rooms i day hour false true hs
              apply only_cell_differs_set s _ room_id day hour i false hf
              · simp [book_slot, hu, hv, hf, hs, save_rooms]
              · simp [book_slot, hu, hv, hf, hs, save_rooms]
              · simp [book_slot, hu, hv, hf, hs, save_rooms, set_slot_set_slot]
            | true =>
              apply only_cell_differs_set s _ room_id day hour i true hf
              · cases append_ok <;>
                  simp [book_slot, hu, hv, hf, hs, save_rooms, append_booking_record_with_action]
              · cases append_ok <;>
                  simp [book_slot, hu, hv, hf, hs, save_rooms, append_booking_record_with_action]
              · cases append_ok <;>
                  simp [book_slot, hu, hv, hf, hs, save_rooms, append_booking_record_with_action]
  · cases hu : current_user s with
    | none => simpa [cancel_booking, hu] using only_cell_differs_refl s room_id day hour
    | some u =>
      cases hv : validate_room_id room_id with
      | false => simpa [cancel_booking, hu, hv] using only_cell_differs_refl s room_id day hour
      | true =>
        cases hf : find_room_by_id s.rooms room_id with
        | none =>
          simpa [cancel_booking, hu, hv, hf] using only_cell_differs_refl s room_id day hour
        | some i =>
          cases hs : slot_at s.rooms i day hour with
          | false =>
            simpa [cancel_booking, hu, hv, hf, hs]
              using only_cell_differs_refl s room_id day hour
          | true =>
            cases hg : gate_closed s u room_id day hour with
            | true =>
              rw [cancel_booking_refused s u room_id day hour save_ok append_ok i hu hv hf hs hg]
              exact only_cell_differs_refl s room_id day hour
            | false =>
              have hg2 := hg
              unfold gate_closed at hg2
              cases save_ok with
              | false =>
                apply only_cell_differs_set s _ room_id day hour i true hf
                · unfold cancel_booking
                  simp only [hu, hv, hf, hs, hg2, save_rooms, Bool.not_true, Bool.false_eq_true,
                    if_false]
                · unfold cancel_booking
                  simp only [hu, hv, hf, hs, hg2, save_rooms, Bool.not_true, Bool.false_eq_true,
                    if_false]
                · unfold cancel_booking
                  simp only [hu, hv, hf, hs, hg2, save_rooms, Bool.not_true, Bool.false_eq_true,
                    if_false, set_slot_set_slot]
              | true =>
                apply only_cell_differs_set s _ room_id day hour i false hf
                · unfold cancel_booking
                  cases append_ok <;>
                    simp only [hu, hv, hf, hs, hg2, save_rooms,
                      append_booking_record_with_action, Bool.not_true, Bool.false_eq_true,
                      if_false, if_true]
                · unfold cancel_booking
                  cases append_ok <;>
                    simp only [hu, hv, hf, hs, hg2, save_rooms,
                      append_booking_record_with_action, Bool.not_true, Bool.false_eq_true,
                      if_false, if_true]
                · unfold cancel_booking
                  cases append_ok <;>
                    simp only [hu, hv, hf, hs, hg2, save_rooms,
                      append_booking_record_with_action, Bool.not_true, Bool.false_eq_true,
                      if_false, if_true]

/-! ## The history listing -/

theorem history_pass1_lines (username : List Char) (fuel : Nat) (fp : List Char) :
    history_pass1 username fuel fp
      = (((log_lines fuel fp).filterMap sscanf_record).filter
          (fun r => decide (r.username = username))).map own_line := by
  induction fuel generalizing fp with
  | zero => simp [history_pass1, log_lines]
  | succ k ih =>
    simp only [history_pass1, log_lines]
    cases hf : fgets 256 fp with
    | none => simp
    | some p =>
      obtain ⟨line, rest⟩ := p
      simp only [List.filterMap_cons]
      cases hl : sscanf_record line with
      | none => simp only [ih rest]
      | some r =>
        by_cases hr : r.username = username
        · simp [hr, ih rest]
        · simp [hr, ih rest]

theorem history_pass2_lines (file : Option (List Char)) (username : List Char) (fuel : Nat)
    (fp : List Char) :
    history_pass2 file username fuel fp
      = (((log_lines fuel fp).filterMap sscanf_record).filter
          (cross_referenced file username)).map HistoryLine.cancelled_by_admin := by
  induction fuel generalizing fp with
  | zero => simp [history_pass2, log_lines]
  | succ k ih =>
    simp only [history_pass2, log_lines]
    cases hf : fgets 256 fp with
    | none => simp
    | some p =>
      obtain ⟨line, rest⟩ := p
      simp only [List.filterMap_cons]
      cases hl : sscanf_record line with
      | none => simp only [ih rest]
      | some r =>
        by_cases hr : cross_referenced file username r = true
        · simp [hr, ih rest]
        · simp [hr, ih rest]

theorem record_own_line (r : BookingRecord) : (own_line r).record = r := by
  unfold own_line
  split
  · rfl
  · split <;> rfl

/-- The listing of a logged-in user over an existing bookings file: the own
records in file order, then the cross-referenced cancellations in file order. -/
theorem history_lines_eq (s : State) (u : User) (fp : List Char)
    (hu : current_user s = some u) (hfile : s.bookings_file = some fp) :
    history_lines s
      = ((log_entries fp).filter (fun r => decide (r.username = u.username))).map own_line
        ++ ((log_entries fp).filter (cross_referenced (some fp) u.username)).map
            HistoryLine.cancelled_by_admin := by
  simp only [history_lines, my_bookings, hu, hfile, history_pass1_lines, history_pass2_lines,
    log_entries]

/-- C13 at the failing input: the log holds the booking of `alice` and then
the admin's cancellation of it, yet the history `my_bookings` prints for
`alice` is her booking alone: the second pass asks `get_last_slot_action`
for the last action on the slot, which is the Cancel itself. -/
theorem admin_cancellation_not_listed :
    st_cancelled.bookings_file = some "101 1 9 B alice\n101 1 9 C admin\n".toList
    ∧ current_user st_cancelled
        = some { username := "alice".toList, password := "pw1".toList, is_admin := false }
    ∧ last_entry_for (log_entries "101 1 9 B alice\n".toList) 101 1 9
        = some { room_id := 101, day := 1, hour := 9, username := "alice".toList, action := 'B' }
    ∧ my_bookings st_cancelled
        = HistoryOutput.history
            [HistoryLine.booked
              { room_id := 101, day := 1, hour := 9, username := "alice".toList,
                action := 'B' }] true
    ∧ HistoryLine.cancelled_by_admin
          { room_id := 101, day := 1, hour := 9, username := "admin".toList, action := 'C' }
        ∉ history_lines st_cancelled := by
  decide

/-- C14, as the claim states it, fails: after `alice` booked, the admin
cancelled and `alice` booked again, the history of `alice` lists her two
bookings before the admin's cancellation, which the log holds between them. -/
theorem history_not_in_append_order :
    file_entries st_rebooked.bookings_file
        = [ { room_id := 101, day := 1, hour := 9, username := "alice".toList, action := 'B' },
            { room_id := 101, day := 1, hour := 9, username := "admin".toList, action := 'C' },
            { room_id := 101, day := 1, hour := 9, username := "alice".toList, action := 'B' } ]
    ∧ (history_lines st_rebooked).map HistoryLine.record
        = [ { room_id := 101, day := 1, hour := 9, username := "alice".toList, action := 'B' },
            { room_id := 101, day := 1, hour := 9, username := "alice".toList, action := 'B' },
            { room_id := 101, day := 1, hour := 9, username := "admin".toList, action := 'C' } ]
    ∧ ¬ List.Sublist ((history_lines st_rebooked).map HistoryLine.record)
          (file_entries st_rebooked.bookings_file) := by
  decide

/-- C14, amended: for every log and every actor `U`, the history
`my_bookings` produces is two runs, each in the original append order of
the log: first all of `U`'s own entries, then the cross-referenced
cancellations by others. -/
theorem history_two_ordered_passes (s : State) (u : User) (fp : List Char)
    (hu : current_user s = some u) (hfile : s.bookings_file = some fp) :
    ∃ own cross, history_lines s = own ++ cross
      ∧ own.map HistoryLine.record
          = (file_entries s.bookings_file).filter (fun r => decide (r.username = u.username))
      ∧ List.Sublist (own.map HistoryLine.record) (file_entries s.bookings_file)
      ∧ List.Sublist (cross.map HistoryLine.record) (file_entries s.bookings_file)
      ∧ (∀ l ∈ own, l = own_line l.record ∧ l.record.username = u.username)
      ∧ (∀ l ∈ cross, l = HistoryLine.cancelled_by_admin l.record
          ∧ l.record.action = 'C' ∧ l.record.username ≠ u.username) := by
  refine ⟨((log_entries fp).filter (fun r => decide (r.username = u.username))).map own_line,
    ((log_entries fp).filter (cross_referenced (some fp) u.username)).map
      HistoryLine.cancelled_by_admin, history_lines_eq s u fp hu hfile, ?_, ?_, ?_, ?_, ?_⟩
  · rw [hfile, List.map_map]
    have : HistoryLine.record ∘ own_line = id := by
      funext r
      exact record_own_line r
    rw [this, List.map_id]
    rfl
  · rw [hfile, List.map_map]
    have : HistoryLine.record ∘ own_line = id := by
      funext r
      exact record_own_line r
    rw [this, List.map_id]
    exact List.filter_sublist _
  · rw [hfile, List.map_map]
    have : HistoryLine.record ∘ HistoryLine.cancelled_by_admin = id := by
      funext r
      rfl
    rw [this, List.map_id]
    exact List.filter_sublist _
  · intro l hl
    obtain ⟨r, hr, rfl⟩ := List.mem_map.1 hl
    have := (List.mem_filter.1 hr).2
    rw [record_own_line]
    exact ⟨rfl, by simpa using this⟩
  · intro l hl
    obtain ⟨r, hr, rfl⟩ := List.mem_map.1 hl
    have := (List.mem_filter.1 hr).2
    simp only [cross_referenced, Bool.and_eq_true, decide_eq_true_eq] at this
    exact ⟨rfl, this.1.1, this.1.2⟩

/-- C14 amended, at a concrete input: the history of `alice` after her
second booking. -/
theorem history_two_ordered_passes_witness :
    ∃ own cross, history_lines st_rebooked = own ++ cross
      ∧ List.Sublist (own.map HistoryLine.record) (file_entries st_rebooked.bookings_file)
      ∧ List.Sublist (cross.map HistoryLine.record) (file_entries st_rebooked.bookings_file) :=
  have h := history_two_ordered_passes st_rebooked
    { username := "alice".toList, password := "pw1".toList, is_admin := false }
    "101 1 9 B alice\n101 1 9 C admin\n101 1 9 B alice\n".toList (by decide) (by decide)
  match h with
  | ⟨own, cross, h1, _, h3, h4, _⟩ => ⟨own, cross, h1, h3, h4⟩

set_option maxRecDepth 100000 in
theorem load_rooms_example :
    (load_rooms_text (save_rooms_text [free_room 5 "X".toList "lab".toList])).rooms.map
        (fun rooms => rooms.map fun r => (r.id, r.department, r.type, r.schedule 6 23))
      = some [(5, "X".toList, "lab".toList, false)]
    ∧ ((add_classroom st_seed_admin (some 401) "ME".toList ["Hall".toList, "Lab".toList]
          true).1.rooms.map fun r => r.id).getLast? = some 401
    ∧ (add_classroom st_seed_admin (some 401) "ME".toList ["Hall".toList, "Lab".toList] true).2
        = [AddMsg.invalid_type, AddMsg.added_and_saved]
    ∧ (add_classroom st_seed_admin (some 101) "ME".toList ["Lab".toList] true).2
        = [AddMsg.room_exists] := by
  decide

/-! ## Reading back the rooms file -/

theorem skipWs_append (pre s : List Char) (h : ∀ c ∈ pre, isspace c = true) :
    skipWs (pre ++ s) = skipWs s := by
  induction pre with
  | nil => rfl
  | cons c cs ih =>
    have hc : isspace c = true := h c (List.mem_cons_self _ _)
    simp only [List.cons_append, skipWs, hc, if_true]
    exact ih (fun x hx => h x (List.mem_cons_of_mem _ hx))

theorem scanInt_skip (pre s : List Char) (h : ∀ c ∈ pre, isspace c = true) :
    scanInt (pre ++ s) = scanInt s := by
  unfold scanInt
  rw [skipWs_append pre s h]

theorem scanStr_token (n : Nat) (pre tok rest : List Char) (h : ∀ c ∈ pre, isspace c = true)
    (ht : room_token n tok) (hr : ∀ c t, rest = c :: t → isspace c = true) :
    scanStr n (pre ++ (tok ++ rest)) = some (tok, rest) := by
  obtain ⟨hne, hlen, hch⟩ := ht
  unfold scanStr
  rw [skipWs_append pre _ h]
  cases tok with
  | nil => exact absurd rfl hne
  | cons c cs =>
    have hc : isspace c = false := hch c (List.mem_cons_self _ _)
    have htok := takeToken_token (c :: cs) rest n hlen hch hr
    simp only [List.cons_append, skipWs, hc, Bool.false_eq_true, if_false]
    simp only [List.cons_append] at htok
    exact congrArg some htok

/-- The text of one cell of the matrix. -/
theorem read_flags_cells (bs : List Bool) (hne : bs ≠ []) (pre X : List Char) (m : Nat)
    (h : ∀ c ∈ pre, isspace c = true) :
    read_flags (bs.length + m)
        (pre ++ ((bs.flatMap fun b => fmtInt (if b then 1 else 0) ++ [' ']) ++ X))
      = (read_flags m (' ' :: X)).map fun p => (bs ++ p.1, p.2) := by
  induction bs generalizing pre with
  | nil => exact absurd rfl hne
  | cons b bs ih =>
    have hsp : ∀ (l : List Char) (c : Char) (t : List Char), (' ' :: l) = c :: t →
        isdigit c = false := by
      intro l c t hct
      simp only [List.cons.injEq] at hct
      rw [← hct.1]; decide
    have hval : ∀ b : Bool, decide ((if b then (1 : Int) else 0) = 1) = b := by
      intro b; cases b <;> decide
    have hlen : (b :: bs).length + m = (bs.length + m) + 1 := by
      simp only [List.length_cons]; omega
    rw [hlen, read_flags]
    simp only [List.flatMap_cons, List.append_assoc, List.singleton_append, List.cons_append]
    rw [scanInt_skip pre _ h, scanInt_fmtInt _ _ (by cases b <;> decide) (hsp _)]
    simp only
    cases bs with
    | nil =>
      simp only [List.flatMap_nil, List.nil_append, List.length_nil, Nat.zero_add]
      cases read_flags m (' ' :: X) with
      | none => rfl
      | some p => simp [hval]
    | cons b2 bs2 =>
      have := ih (by simp) [' '] (by intro c hc; simp only [List.mem_singleton] at hc;
                                     rw [hc]; decide)
      simp only [List.singleton_append] at this
      simp only [List.nil_append]
      rw [this]
      cases read_flags m (' ' :: X) with
      | none => rfl
      | some p => simp [hval]

theorem read_flags_rows (rows : List (List Bool)) (hne : ∀ bs ∈ rows, bs ≠ [])
    (pre X : List Char) (h : ∀ c ∈ pre, isspace c = true) :
    read_flags rows.flatten.length
        (pre ++ ((rows.flatMap fun bs =>
          (bs.flatMap fun b => fmtInt (if b then 1 else 0) ++ [' ']) ++ ['\n']) ++ X))
      = some (rows.flatten, (if rows = [] then pre else [' ', '\n']) ++ X) := by
  induction rows generalizing pre with
  | nil => simp [read_flags]
  | cons bs rs ih =>
    have hlen : (bs :: rs).flatten.length = bs.length + rs.flatten.length := by simp
    rw [hlen]
    simp only [List.flatMap_cons, List.append_assoc]
    rw [read_flags_cells bs (hne bs (List.mem_cons_self _ _)) pre _ _ h]
    have hpre : ∀ c ∈ [' ', '\n'], isspace c = true := by decide
    have := ih (fun b hb => hne b (List.mem_cons_of_mem _ hb)) [' ', '\n'] hpre
    simp only [List.cons_append, List.nil_append, List.singleton_append] at this ⊢
    rw [this]
    cases rs with
    | nil => simp
    | cons r rs2 => simp

theorem matrix_rows_length (schedule : Fin 7 → Fin 24 → Bool) :
    (matrix_rows schedule).flatten.length = 168 := by
  rfl

theorem matrix_rows_ne_nil (schedule : Fin 7 → Fin 24 → Bool) :
    ∀ bs ∈ matrix_rows schedule, bs ≠ [] := by
  intro bs hbs
  simp only [matrix_rows, List.mem_map] at hbs
  obtain ⟨d, -, rfl⟩ := hbs
  intro h
  have := congrArg List.length h
  simp at this

theorem schedule_of_matrix_rows (schedule : Fin 7 → Fin 24 → Bool) :
    schedule_of (matrix_rows schedule).flatten = schedule := by
  funext d h
  fin_cases d <;> fin_cases h <;> rfl

theorem fmt_rows_eq (schedule : Fin 7 → Fin 24 → Bool) :
    ((List.finRange 7).flatMap fun d => fmt_row (schedule d))
      = (matrix_rows schedule).flatMap fun bs =>
          (bs.flatMap fun b => fmtInt (if b then 1 else 0) ++ [' ']) ++ ['\n'] := by
  simp only [matrix_rows, fmt_row, List.flatMap_map]

theorem read_rooms_fmt (rooms : List Classroom) (pre : List Char)
    (hpre : ∀ c ∈ pre, isspace c = true)
    (h : ∀ r ∈ rooms, room_token 19 r.department ∧ room_token 9 r.type)
    (hid : ∀ r ∈ rooms, int_range r.id) :
    read_rooms rooms.length (pre ++ rooms.flatMap fmt_room) = some rooms := by
  induction rooms generalizing pre with
  | nil => simp [read_rooms]
  | cons r rs ih =>
    obtain ⟨hd, ht⟩ := h r (List.mem_cons_self _ _)
    have hsp : ∀ c ∈ [' '], isspace c = true := by decide
    have hnl : ∀ c ∈ ['\n'], isspace c = true := by decide
    have hspnl : ∀ c ∈ [' ', '\n'], isspace c = true := by decide
    have e : pre ++ (r :: rs).flatMap fmt_room
        = pre ++ (fmtInt r.id ++ ' ' :: (r.department ++ ' ' :: (r.type ++ '\n' ::
            (((matrix_rows r.schedule).flatMap fun bs =>
                (bs.flatMap fun b => fmtInt (if b then 1 else 0) ++ [' ']) ++ ['\n'])
              ++ rs.flatMap fmt_room)))) := by
      simp only [List.flatMap_cons, fmt_room, fmt_rows_eq, List.append_assoc,
        List.singleton_append, List.cons_append, List.nil_append]
    have e1 : scanInt (pre ++ (fmtInt r.id ++ ' ' :: (r.department ++ ' ' :: (r.type ++ '\n' ::
            (((matrix_rows r.schedule).flatMap fun bs =>
                (bs.flatMap fun b => fmtInt (if b then 1 else 0) ++ [' ']) ++ ['\n'])
              ++ rs.flatMap fmt_room)))))
        = some (r.id, ' ' :: (r.department ++ ' ' :: (r.type ++ '\n' ::
            (((matrix_rows r.schedule).flatMap fun bs =>
                (bs.flatMap fun b => fmtInt (if b then 1 else 0) ++ [' ']) ++ ['\n'])
              ++ rs.flatMap fmt_room)))) := by
      rw [scanInt_skip pre _ hpre]
      apply scanInt_fmtInt _ _ (hid r (List.mem_cons_self _ _))
      intro c t hct
      simp only [List.cons.injEq] at hct
      rw [← hct.1]; decide
    have e2 : ∀ X, scanStr 19 (' ' :: (r.department ++ ' ' :: X)) = some (r.department, ' ' :: X) := by
      intro X
      have := scanStr_token 19 [' '] r.department (' ' :: X) hsp hd
        (by intro c t hct; simp only [List.cons.injEq] at hct; rw [← hct.1]; decide)
      simpa using this
    have e3 : ∀ X, scanStr 9 (' ' :: (r.type ++ '\n' :: X)) = some (r.type, '\n' :: X) := by
      intro X
      have := scanStr_token 9 [' '] r.type ('\n' :: X) hsp ht
        (by intro c t hct; simp only [List.cons.injEq] at hct; rw [← hct.1]; decide)
      simpa using this
    have e4 : ∀ X, read_flags 168 ('\n' ::
          (((matrix_rows r.schedule).flatMap fun bs =>
              (bs.flatMap fun b => fmtInt (if b then 1 else 0) ++ [' ']) ++ ['\n']) ++ X))
        = some ((matrix_rows r.schedule).flatten, ' ' :: '\n' :: X) := by
      intro X
      have := read_flags_rows (matrix_rows r.schedule) (matrix_rows_ne_nil r.schedule) ['\n'] X hnl
      rw [matrix_rows_length] at this
      have hne : matrix_rows r.schedule ≠ [] := by
        intro h0
        have := matrix_rows_length r.schedule
        rw [h0] at this
        simp at this
      simpa [hne] using this
    have e5 := ih [' ', '\n'] hspnl (fun x hx => h x (List.mem_cons_of_mem _ hx))
      (fun x hx => hid x (List.mem_cons_of_mem _ hx))
    simp only [List.cons_append, List.nil_append] at e5
    rw [e]
    simp only [List.length_cons, read_rooms, e1, e2, e3, e4, e5, schedule_of_matrix_rows]

/-- Writing the rooms with `save_rooms` and reading the text with
`load_rooms` gives the rooms back. -/
theorem load_rooms_save_rooms_text (rooms : List Classroom)
    (h : ∀ r ∈ rooms, room_token 19 r.department ∧ room_token 9 r.type)
    (hid : ∀ r ∈ rooms, int_range r.id) (hlen : rooms.length ≤ MAX_ROOMS) :
    load_rooms_text (save_rooms_text rooms) = LoadResult.loaded rooms := by
  unfold load_rooms_text save_rooms_text
  have hlen2 : rooms.length ≤ 100 := hlen
  have e1 : scanInt (fmtInt (rooms.length : Int) ++ ['\n'] ++ rooms.flatMap fmt_room)
      = some ((rooms.length : Int), '\n' :: rooms.flatMap fmt_room) := by
    rw [List.append_assoc]
    apply scanInt_fmtInt _ _ (by unfold int_range; omega)
    intro c t hct
    simp only [List.singleton_append, List.cons.injEq] at hct
    rw [← hct.1]; decide
  rw [e1]
  have h0 : ¬ ((rooms.length : Int) < 0) := by omega
  have h1 : ¬ ((rooms.length : Int) > (MAX_ROOMS : Int)) := by
    have : (MAX_ROOMS : Int) = 100 := rfl
    omega
  simp only [h0, h1, if_false, Int.toNat_ofNat]
  have hr := read_rooms_fmt rooms ['\n'] (by decide) h hid
  simp only [List.singleton_append] at hr
  rw [hr]

/-! ## Room identifiers stay unique and valid -/

theorem find_room_by_id_none (rooms : List Classroom) (room_id : Int)
    (h : find_room_by_id rooms room_id = none) : ∀ r ∈ rooms, r.id ≠ room_id := by
  induction rooms with
  | nil => intro r hr; simp at hr
  | cons x xs ih =>
    simp only [find_room_by_id] at h
    split at h
    · simp at h
    · rename_i hx
      cases hf : find_room_by_id xs room_id with
      | some j => simp [hf] at h
      | none =>
        intro r hr
        rcases List.mem_cons.1 hr with hr | hr
        · rw [hr]; exact hx
        · exact ih hf r hr

theorem mem_set_slot (rooms : List Classroom) (i : Nat) (d : Fin 7) (h : Fin 24) (v : Bool)
    (r1 : Classroom) (hr : r1 ∈ set_slot rooms i d h v) :
    ∃ r ∈ rooms, r1.id = r.id ∧ r1.department = r.department ∧ r1.type = r.type := by
  induction rooms generalizing i with
  | nil => simp [set_slot] at hr
  | cons x xs ih =>
    cases i with
    | zero =>
      simp only [set_slot, List.mem_cons] at hr
      rcases hr with hr | hr
      · exact ⟨x, List.mem_cons_self _ _, by rw [hr]; simp [Classroom.set]⟩
      · exact ⟨r1, List.mem_cons_of_mem _ hr, rfl, rfl, rfl⟩
    | succ j =>
      simp only [set_slot, List.mem_cons] at hr
      rcases hr with hr | hr
      · exact ⟨x, List.mem_cons_self _ _, by rw [hr]; exact ⟨rfl, rfl, rfl⟩⟩
      · obtain ⟨r, hr1, hr2⟩ := ih j hr
        exact ⟨r, List.mem_cons_of_mem _ hr1, hr2⟩

theorem rooms_invariant_set_slot (rooms : List Classroom) (i : Nat) (d : Fin 7) (h : Fin 24)
    (v : Bool) (hinv : rooms_invariant rooms) : rooms_invariant (set_slot rooms i d h v) := by
  obtain ⟨h1, h2, h3, h4⟩ := hinv
  refine ⟨by rw [map_id_set_slot]; exact h1, ?_, by rw [length_set_slot]; exact h3, ?_⟩
  · intro r1 hr1
    obtain ⟨r, hr, e1, -, -⟩ := mem_set_slot rooms i d h v r1 hr1
    rw [e1]; exact h2 r hr
  · intro r1 hr1
    obtain ⟨r, hr, -, e2, e3⟩ := mem_set_slot rooms i d h v r1 hr1
    rw [e2, e3]; exact h4 r hr

theorem book_slot_rooms_cases (s : State) (room_id : Int) (day : Fin 7) (hour : Fin 24)
    (save_ok append_ok : Bool) :
    (book_slot s room_id day hour save_ok append_ok).1.rooms = s.rooms
      ∨ ∃ i, (book_slot s room_id day hour save_ok append_ok).1.rooms
          = set_slot s.rooms i day hour true := by
  cases hu : current_user s with
  | none => left; simp [book_slot, hu]
  | some u =>
    cases hv : validate_room_id room_id with
    | false => left; simp [book_slot, hu, hv]
    | true =>
      cases hf : find_room_by_id s.rooms room_id with
      | none => left; simp [book_slot, hu, hv, hf]
      | some i =>
        cases hs : slot_at s.rooms i day hour with
        | true =>
          left
          rw [book_slot_occupied_state s u room_id day hour save_ok append_ok i hu hv hf hs]
        | false =>
          cases save_ok with
          | false =>
            left
            have hr := set_slot_restore s.rooms i day hour false true hs
            simp [book_slot, hu, hv, hf, hs, save_rooms, hr]
          | true =>
            right
            refine ⟨i, ?_⟩
            cases append_ok <;>
              simp [book_slot, hu, hv, hf, hs, save_rooms, append_booking_record_with_action]

theorem cancel_booking_rooms_cases (s : State) (room_id : Int) (day : Fin 7) (hour : Fin 24)
    (save_ok append_ok : Bool) :
    (cancel_booking s room_id day hour save_ok append_ok).1.rooms = s.rooms
      ∨ ∃ i, (cancel_booking s room_id day hour save_ok append_ok).1.rooms
          = set_slot s.rooms i day hour false := by
  cases hu : current_user s with
  | none => left; simp [cancel_booking, hu]
  | some u =>
    cases hv : validate_room_id room_id with
    | false => left; simp [cancel_booking, hu, hv]
    | true =>
      cases hf : find_room_by_id s.rooms room_id with
      | none => left; simp [cancel_booking, hu, hv, hf]
      | some i =>
        cases hs : slot_at s.rooms i day hour with
        | false => left; simp [cancel_booking, hu, hv, hf, hs]
        | true =>
          cases hg : gate_closed s u room_id day hour with
          | true =>
            left
            rw [cancel_booking_refused s u room_id day hour save_ok append_ok i hu hv hf hs hg]
          | false =>
            have hg2 := hg
            unfold gate_closed at hg2
            cases save_ok with
            | false =>
              left
              have hr := set_slot_restore s.rooms i day hour true false hs
              unfold cancel_booking
              simp only [hu, hv, hf, hs, hg2, save_rooms, Bool.not_true, Bool.false_eq_true,
                if_false, hr]
            | true =>
              right
              refine ⟨i, ?_⟩
              unfold cancel_booking
              cases append_ok <;>
                simp only [hu, hv, hf, hs, hg2, save_rooms, append_booking_record_with_action,
                  Bool.not_true, Bool.false_eq_true, if_false, if_true]

theorem tolower_space (c : Char) (h : isspace c = true) : tolower c = c := by
  simp only [isspace, Bool.or_eq_true, beq_iff_eq] at h
  rcases h with ((((h | h) | h) | h) | h) | h <;> (subst h; decide)

theorem validate_room_type_token (type : List Char) (h : validate_room_type type = true) :
    room_token 9 (type.take 9) := by
  have key : ∀ (l w : List Char), to_lower_case l = w → w ≠ [] →
      (∀ c ∈ w, isspace c = false) → l ≠ [] ∧ ∀ c ∈ l, isspace c = false := by
    intro l w hl hw hws
    constructor
    · intro h0
      subst h0
      exact hw (by simpa [to_lower_case] using hl.symm)
    · intro c hc
      cases hsp : isspace c with
      | false => rfl
      | true =>
        have hmem : tolower c ∈ w := by
          rw [← hl]
          exact List.mem_map_of_mem tolower hc
        rw [tolower_space c hsp] at hmem
        have := hws c hmem
        rw [hsp] at this
        exact absurd this (by simp)
  simp only [validate_room_type, Bool.or_eq_true, beq_iff_eq] at h
  have hlen : (type.take 9).length ≤ 9 := by simp
  rcases h with h | h
  · obtain ⟨h1, h2⟩ := key _ _ h (by decide) (by decide)
    exact ⟨h1, hlen, h2⟩
  · obtain ⟨h1, h2⟩ := key _ _ h (by decide) (by decide)
    exact ⟨h1, hlen, h2⟩

theorem ask_room_type_valid (types : List (List Char)) (type : List Char)
    (h : (ask_room_type types).1 = some type) : validate_room_type type = true := by
  induction types with
  | nil => simp [ask_room_type] at h
  | cons t ts ih =>
    simp only [ask_room_type] at h
    split at h
    · rename_i hv
      simp only [Option.some.injEq] at h
      rw [← h]; exact hv
    · exact ih h

/-- The two outcomes of `add_classroom` for the rooms: nothing changes, or a
free room is added at the end for an admin, below the capacity, with a valid
id no room holds. -/
theorem add_classroom_rooms_cases (s : State) (id : Option Int) (department : List Char)
    (types : List (List Char)) (save_ok : Bool) :
    (add_classroom s id department types save_ok).1.rooms = s.rooms
      ∨ ∃ u i type, current_user s = some u ∧ u.is_admin = true
          ∧ s.rooms.length < MAX_ROOMS ∧ id = some i ∧ validate_room_id i = true
          ∧ (∀ r ∈ s.rooms, r.id ≠ i) ∧ validate_room_type type = true
          ∧ (add_classroom s id department types save_ok).1.rooms
              = s.rooms ++ [free_room i (department.take 19) (type.take 9)] := by
  cases hu : current_user s with
  | none => left; simp [add_classroom, hu]
  | some u =>
    cases ha : u.is_admin with
    | false => left; simp [add_classroom, hu, ha]
    | true =>
      by_cases hcap : s.rooms.length ≥ MAX_ROOMS
      · left; simp [add_classroom, hu, ha, hcap]
      · cases id with
        | none => left; simp [add_classroom, hu, ha, hcap]
        | some i =>
          cases hv : validate_room_id i with
          | false => left; simp [add_classroom, hu, ha, hcap, hv]
          | true =>
            cases hf : find_room_by_id s.rooms i with
            | some j => left; simp [add_classroom, hu, ha, hcap, hv, hf]
            | none =>
              cases hq : ask_room_type types with
              | mk ty msgs =>
                cases ty with
                | none => left; simp [add_classroom, hu, ha, hcap, hv, hf, hq]
                | some type =>
                  right
                  have hty : validate_room_type type = true :=
                    ask_room_type_valid types type (by rw [hq])
                  refine ⟨u, i, type, rfl, ha, by omega, rfl, hv,
                    find_room_by_id_none s.rooms i hf, hty, ?_⟩
                  cases save_ok <;>
                    simp [add_classroom, hu, ha, hcap, hv, hf, hq, save_rooms]

theorem rooms_invariant_seeded (s : State) (fopen_ok : Bool) :
    rooms_invariant (initialize_sample_data s fopen_ok).rooms := by
  simp only [initialize_sample_data]
  refine ⟨by decide, by decide, by decide, by decide⟩

theorem rooms_invariant_add (rooms : List Classroom) (i : Int) (department type : List Char)
    (hinv : rooms_invariant rooms) (hlen : rooms.length < MAX_ROOMS)
    (hv : validate_room_id i = true) (hnew : ∀ r ∈ rooms, r.id ≠ i)
    (hd : room_token 19 department) (ht : validate_room_type type = true) :
    rooms_invariant (rooms ++ [free_room i (department.take 19) (type.take 9)]) := by
  obtain ⟨h1, h2, h3, h4⟩ := hinv
  refine ⟨?_, ?_, ?_, ?_⟩
  · rw [List.map_append, List.nodup_append]
    refine ⟨h1, by simp, ?_⟩
    intro a ha hb
    simp only [List.map_cons, List.map_nil, List.mem_singleton, free_room] at hb
    obtain ⟨r, hr, hra⟩ := List.mem_map.1 ha
    exact hnew r hr (by rw [hra, hb])
  · intro r hr
    rcases List.mem_append.1 hr with hr | hr
    · exact h2 r hr
    · simp only [List.mem_singleton] at hr
      rw [hr]; exact hv
  · simp only [List.length_append, List.length_singleton]
    omega
  · intro r hr
    rcases List.mem_append.1 hr with hr | hr
    · exact h4 r hr
    · simp only [List.mem_singleton] at hr
      rw [hr]
      have : department.take 19 = department := List.take_of_length_le hd.2.1
      simp only [free_room, this]
      exact ⟨hd, validate_room_type_token type ht⟩

theorem rooms_invariant_reachable (s : State) (h : RoomsReachable s) :
    rooms_invariant s.rooms := by
  induction h with
  | seeded s fopen_ok => exact rooms_invariant_seeded s fopen_ok
  | accounts s users current _ ih => exact ih
  | add s id department types save_ok _ hd ih =>
    rcases add_classroom_rooms_cases s id department types save_ok with
      h | ⟨u, i, type, -, -, hlen, -, hv, hnew, hty, hrooms⟩
    · rw [h]; exact ih
    · rw [hrooms]
      exact rooms_invariant_add s.rooms i department type ih hlen hv hnew hd hty
  | book s room_id day hour save_ok append_ok _ ih =>
    rcases book_slot_rooms_cases s room_id day hour save_ok append_ok with h | ⟨i, h⟩
    · rw [h]; exact ih
    · rw [h]; exact rooms_invariant_set_slot _ _ _ _ _ ih
  | cancel s room_id day hour save_ok append_ok _ ih =>
    rcases cancel_booking_rooms_cases s room_id day hour save_ok append_ok with h | ⟨i, h⟩
    · rw [h]; exact ih
    · rw [h]; exact rooms_invariant_set_slot _ _ _ _ _ ih

/-! ## Reloading persisted state -/

set_option maxRecDepth 100000 in
/-- C17 at the failing input: a rooms file holding the id 5 and a log
holding the line `101 9 99 X alice`.  `load_rooms` yields the room with id
5, an id `validate_room_id` refuses and `book_slot` does not let through;
`get_last_slot_action` takes the line with day 9, hour 99 and action `'X'`
as the last action of its slot; `my_bookings` selects it for `alice`, and
printing it reads `days[9]`, outside the seven entries of the array. -/
theorem reload_accepts_invalid_records :
    (load_rooms_text (save_rooms_text [free_room 5 "X".toList "lab".toList])).rooms.map
        (fun rooms => rooms.map fun r => r.id) = some [5]
    ∧ validate_room_id 5 = false
    ∧ (book_slot st_alice 5 1 9 true true).2 = [Msg.invalid_room_id]
    ∧ get_last_slot_action (some "101 9 99 X alice\n".toList) 101 9 99
        = { ret := true, found := true, username := "alice".toList, action := 'X' }
    ∧ history_lines { st_alice with bookings_file := some "101 9 99 X alice\n".toList }
        = [HistoryLine.cancelled
            { room_id := 101, day := 9, hour := 99, username := "alice".toList,
              action := 'X' }]
    ∧ day_name 9 = none
    ∧ (HistoryLine.cancelled
        { room_id := 101, day := 9, hour := 99, username := "alice".toList,
          action := 'X' }).text = none := by
  decide

/-! ## The rooms file gives the rooms back -/

/-- C12: for every rooms state reachable through seeding, `add_classroom`,
`book_slot` and `cancel_booking`, the room count is at most 100 and
`save_rooms` writes a text from which `load_rooms`, run in any state that
holds that rooms file (whatever its rooms in memory), succeeds and yields
the same rooms: the same count and, room by room, the same id and the same
7 x 24 matrix. -/
theorem save_load_roundtrip (s : State) (h : RoomsReachable s) (t : State)
    (hfile : t.rooms_file = (save_rooms s true).2.rooms_file) :
    s.rooms.length ≤ 100
    ∧ (save_rooms s true).1 = true
    ∧ (save_rooms s true).2.rooms_file = some (save_rooms_text s.rooms)
    ∧ load_rooms t = LoadResult.loaded s.rooms
    ∧ ∃ rooms, (load_rooms t).rooms = some rooms
        ∧ rooms.length = s.rooms.length
        ∧ ∀ (i : Nat) (r : Classroom), s.rooms[i]? = some r →
            ∃ r1, rooms[i]? = some r1 ∧ r1.id = r.id ∧ r1.schedule = r.schedule := by
  obtain ⟨-, hval, hlen, htok⟩ := rooms_invariant_reachable s h
  have hid : ∀ r ∈ s.rooms, int_range r.id := fun r hr =>
    int_range_small r.id (validate_room_id_range r.id (hval r hr))
  have hload := load_rooms_save_rooms_text s.rooms htok hid hlen
  have hsave : (save_rooms s true).2.rooms_file = some (save_rooms_text s.rooms) := rfl
  have hl : load_rooms t = LoadResult.loaded s.rooms := by
    unfold load_rooms
    rw [hfile, hsave]
    exact hload
  refine ⟨hlen, rfl, hsave, hl, s.rooms, by rw [hl]; rfl, rfl, ?_⟩
  intro i r hi
  exact ⟨r, hi, rfl, rfl⟩

/-- C12 at a concrete state: the rooms after `alice` booked room 101,
Monday at 9, are written, and read back in a state with no room in memory. -/
theorem save_load_roundtrip_witness :
    RoomsReachable st_booked
    ∧ st_reload.rooms = []
    ∧ load_rooms st_reload = LoadResult.loaded st_booked.rooms :=
  have hreach : RoomsReachable st_booked :=
    RoomsReachable.book st_alice 101 1 9 true true
      (RoomsReachable.accounts st_seed _ (some 2) (RoomsReachable.seeded _ true))
  ⟨hreach, rfl, (save_load_roundtrip st_booked hreach st_reload rfl).2.2.2.1⟩

/-- C19: room identifiers are unique and valid in every state reachable
from `initialize_sample_data`: the seeded rooms have pairwise distinct ids
that all pass `validate_room_id`, and `add_classroom` either leaves the
rooms unchanged or, for an admin, with the room count below `MAX_ROOMS`,
an id that passes `validate_room_id` and that no existing room has, adds
one room with that id and an all-free grid at the end. -/
theorem room_ids_unique_valid (s : State) (h : RoomsReachable s) :
    ((s.rooms.map fun r => r.id).Nodup ∧ ∀ r ∈ s.rooms, validate_room_id r.id = true)
    ∧ (∀ (s0 : State) (fopen_ok : Bool),
        ((initialize_sample_data s0 fopen_ok).rooms.map fun r => r.id).Nodup
          ∧ ∀ r ∈ (initialize_sample_data s0 fopen_ok).rooms, validate_room_id r.id = true)
    ∧ (∀ (id : Option Int) (department : List Char) (types : List (List Char))
        (save_ok : Bool),
        (add_classroom s id department types save_ok).1.rooms = s.rooms
          ∨ ∃ u i type, current_user s = some u ∧ u.is_admin = true
              ∧ s.rooms.length < MAX_ROOMS ∧ id = some i ∧ validate_room_id i = true
              ∧ (∀ r ∈ s.rooms, r.id ≠ i)
              ∧ (add_classroom s id department types save_ok).1.rooms
                  = s.rooms ++ [free_room i (department.take 19) type]
              ∧ ∀ d hr, (free_room i (department.take 19) type).schedule d hr = false) := by
  obtain ⟨h1, h2, -, -⟩ := rooms_invariant_reachable s h
  refine ⟨⟨h1, h2⟩, ?_, ?_⟩
  · intro s0 fopen_ok
    obtain ⟨h3, h4, -, -⟩ := rooms_invariant_seeded s0 fopen_ok
    exact ⟨h3, h4⟩
  · intro id department types save_ok
    rcases add_classroom_rooms_cases s id department types save_ok with
      hsame | ⟨u, i, type, hu, ha, hlen, hid, hv, hnew, -, hrooms⟩
    · left; exact hsame
    · right
      exact ⟨u, i, type.take 9, hu, ha, hlen, hid, hv, hnew, hrooms, fun _ _ => rfl⟩

/-- C19 at a concrete state: the seeded state with the admin logged in, to
which room 401 is added and room 101 is not. -/
theorem room_ids_unique_valid_witness :
    RoomsReachable st_seed_admin
    ∧ (st_seed_admin.rooms.map fun r => r.id).Nodup
    ∧ ((add_classroom st_seed_admin (some 401) "ME".toList ["Lab".toList] true).1.rooms.map
        fun r => r.id) = (st_seed_admin.rooms.map fun r => r.id) ++ [401]
    ∧ (add_classroom st_seed_admin (some 101) "ME".toList ["Lab".toList] true).1.rooms.length
        = st_seed_admin.rooms.length :=
  have hreach : RoomsReachable st_seed_admin :=
    RoomsReachable.accounts st_seed _ (some 0) (RoomsReachable.seeded _ true)
  ⟨hreach, (room_ids_unique_valid st_seed_admin hreach).1.1, by decide, by decide⟩

/-! ## The 12-hour clock -/

theorem parse_ampm_input_example :
    parse_ampm_input "9AM".toList = some 9
    ∧ parse_ampm_input "9 am".toList = some 9
    ∧ parse_ampm_input "12 AM".toList = some 0
    ∧ parse_ampm_input "12pm".toList = some 12
    ∧ parse_ampm_input " 2  Pm".toList = some 14
    ∧ parse_ampm_input "13PM".toList = none
    ∧ parse_ampm_input "0AM".toList = none
    ∧ parse_ampm_input "9 AM ".toList = none
    ∧ parse_ampm_input "9AMX".toList = none
    ∧ parse_ampm_input "9A".toList = none
    ∧ parse_ampm_input "AM".toList = none
    ∧ hour_to_ampm 0 = "12AM".toList
    ∧ hour_to_ampm 23 = "11PM".toList := by
  decide

theorem skipWs_idem (s : List Char) : skipWs (skipWs s) = skipWs s := by
  induction s with
  | nil => rfl
  | cons c cs ih =>
    cases hc : isspace c with
    | true => simp only [skipWs, hc, if_true]; exact ih
    | false => simp [skipWs, hc]

/-- The second format of `parse_ampm_input` reads what the first reads. -/
theorem sscanf_hour_blank_period_eq (input : List Char) :
    sscanf_hour_blank_period input = sscanf_hour_period input := by
  unfold sscanf_hour_blank_period sscanf_hour_period
  cases scanInt (cstr input) with
  | none => rfl
  | some p =>
    obtain ⟨hour, s1⟩ := p
    have : scanStr 2 (skipWs s1) = scanStr 2 s1 := by
      unfold scanStr
      rw [skipWs_idem]
    simp only [this]

theorem read_hour_period_some (input : List Char) (hour : Int) (period : List Char) :
    read_hour_period input = some (hour, period)
      ↔ sscanf_hour_period input = some (hour, period, []) := by
  unfold read_hour_period
  rw [sscanf_hour_blank_period_eq]
  cases h : sscanf_hour_period input with
  | none => simp
  | some p =>
    obtain ⟨h1, p1, u⟩ := p
    cases u with
    | nil => simp
    | cons c cs => simp

/-- The value `parse_ampm_input` computes from the hour and period read. -/
theorem parse_ampm_input_of_read (input : List Char) (hour : Int) (period : List Char)
    (h : sscanf_hour_period input = some (hour, period, [])) :
    parse_ampm_input input
      = if period.map toupper ≠ "AM".toList ∧ period.map toupper ≠ "PM".toList then none
        else if hour < 1 ∨ hour > 12 then none
        else if period.map toupper = "AM".toList then some (if hour = 12 then 0 else hour)
        else some (if hour = 12 then 12 else hour + 12) := by
  have hr := (read_hour_period_some input hour period).2 h
  unfold parse_ampm_input
  rw [hr]

/-- What `sscanf` reads from a number written in decimal, an optional
blank and a suffix of one or two characters. -/
theorem sscanf_hour_period_text (n : Int) (sep suffix : List Char)
    (hsep : sep = [] ∨ sep = [' ']) (ht : room_token 2 suffix)
    (hch : ∀ c ∈ suffix, isdigit c = false ∧ c ≠ '\x00') :
    sscanf_hour_period (fmtInt n ++ sep ++ suffix)
      = some (to_int (to_long n), suffix, []) := by
  have hnul : ∀ c ∈ fmtInt n ++ sep ++ suffix, c ≠ '\x00' := by
    intro c hc
    rcases List.mem_append.1 hc with hc | hc
    · rcases List.mem_append.1 hc with hc | hc
      · exact (fmtInt_chars n c hc).2.1
      · rcases hsep with hs | hs
        · rw [hs] at hc; simp at hc
        · rw [hs] at hc
          simp only [List.mem_singleton] at hc
          rw [hc]; decide
    · exact (hch c hc).2
  have hsepws : ∀ c ∈ sep, isspace c = true := by
    rcases hsep with hs | hs <;> (rw [hs]; decide)
  obtain ⟨c0, t0, hs0⟩ : ∃ c0 t0, suffix = c0 :: t0 := by
    cases suffix with
    | nil => exact absurd rfl ht.1
    | cons c0 t0 => exact ⟨c0, t0, rfl⟩
  have hrest : ∀ c t, sep ++ suffix = c :: t → isdigit c = false := by
    intro c t hct
    rcases hsep with hs | hs
    · rw [hs, hs0] at hct
      simp only [List.nil_append, List.cons.injEq] at hct
      rw [← hct.1]
      exact (hch c0 (by rw [hs0]; exact List.mem_cons_self _ _)).1
    · rw [hs] at hct
      simp only [List.singleton_append, List.cons.injEq] at hct
      rw [← hct.1]; decide
  unfold sscanf_hour_period
  rw [cstr_id _ hnul, List.append_assoc, scanInt_fmtInt_wrap n _ hrest]
  have h2 := scanStr_token 2 sep suffix [] hsepws ht (by intro c t h; simp at h)
  rw [List.append_nil] at h2
  simp only [h2]

theorem parse_ampm_input_am (n : Int) (sep suffix : List Char)
    (hsep : sep = [] ∨ sep = [' ']) (hs : suffix ∈ am_forms) :
    parse_ampm_input (fmtInt n ++ sep ++ suffix)
      = if 1 ≤ to_int (to_long n) ∧ to_int (to_long n) ≤ 12 then
          some (if to_int (to_long n) = 12 then 0 else to_int (to_long n))
        else none := by
  have hfacts : room_token 2 suffix ∧ (∀ c ∈ suffix, isdigit c = false ∧ c ≠ '\x00')
      ∧ suffix.map toupper = "AM".toList := by
    simp only [am_forms, List.mem_cons, List.mem_singleton, List.not_mem_nil, or_false] at hs
    rcases hs with h | h | h | h <;> (subst h; decide)
  obtain ⟨h1, h2, h3⟩ := hfacts
  rw [parse_ampm_input_of_read _ _ suffix (sscanf_hour_period_text n sep suffix hsep h1 h2), h3]
  by_cases hn : 1 ≤ to_int (to_long n) ∧ to_int (to_long n) ≤ 12
  · have : ¬ (to_int (to_long n) < 1 ∨ to_int (to_long n) > 12) := by omega
    simp [hn, this]
  · have : to_int (to_long n) < 1 ∨ to_int (to_long n) > 12 := by omega
    simp [hn, this]

theorem parse_ampm_input_pm (n : Int) (sep suffix : List Char)
    (hsep : sep = [] ∨ sep = [' ']) (hs : suffix ∈ pm_forms) :
    parse_ampm_input (fmtInt n ++ sep ++ suffix)
      = if 1 ≤ to_int (to_long n) ∧ to_int (to_long n) ≤ 12 then
          some (if to_int (to_long n) = 12 then 12 else to_int (to_long n) + 12)
        else none := by
  have hfacts : room_token 2 suffix ∧ (∀ c ∈ suffix, isdigit c = false ∧ c ≠ '\x00')
      ∧ suffix.map toupper = "PM".toList := by
    simp only [pm_forms, List.mem_cons, List.mem_singleton, List.not_mem_nil, or_false] at hs
    rcases hs with h | h | h | h <;> (subst h; decide)
  obtain ⟨h1, h2, h3⟩ := hfacts
  rw [parse_ampm_input_of_read _ _ suffix (sscanf_hour_period_text n sep suffix hsep h1 h2), h3]
  by_cases hn : 1 ≤ to_int (to_long n) ∧ to_int (to_long n) ≤ 12
  · have : ¬ (to_int (to_long n) < 1 ∨ to_int (to_long n) > 12) := by omega
    have hne : "PM".toList ≠ "AM".toList := by decide
    simp [hn, this, hne]
  · have : to_int (to_long n) < 1 ∨ to_int (to_long n) > 12 := by omega
    simp [hn, this]

/-- What `parse_ampm_input` computes, in terms of the hour `n` stored into
the `int` and the suffix `sscanf` read from the whole input: success gives a
value in 0..23 that normalises `n` in 1..12 with the suffix AM or PM in any
letter case; a stored hour outside 1..12 or another suffix gives failure.
On the texts of a numeral, an optional blank and AM or PM the stored hour
is the numeral converted to `int`. -/
theorem parse_ampm_input_normalises (input : List Char) :
    (∀ h, parse_ampm_input input = some h →
      0 ≤ h ∧ h ≤ 23
        ∧ ∃ n suffix, sscanf_hour_period input = some (n, suffix, []) ∧ 1 ≤ n ∧ n ≤ 12
            ∧ ((suffix.map toupper = "AM".toList ∧ h = if n = 12 then 0 else n)
              ∨ (suffix.map toupper = "PM".toList ∧ h = if n = 12 then 12 else n + 12)))
    ∧ (∀ n suffix, sscanf_hour_period input = some (n, suffix, []) →
        (n < 1 ∨ 12 < n
          ∨ (suffix.map toupper ≠ "AM".toList ∧ suffix.map toupper ≠ "PM".toList)) →
        parse_ampm_input input = none)
    ∧ (∀ n suffix, sscanf_hour_period input = some (n, suffix, []) → 1 ≤ n → n ≤ 12 →
        (suffix.map toupper = "AM".toList →
          parse_ampm_input input = some (if n = 12 then 0 else n))
        ∧ (suffix.map toupper = "PM".toList →
          parse_ampm_input input = some (if n = 12 then 12 else n + 12)))
    ∧ (∀ (n : Int) (sep suffix : List Char), (sep = [] ∨ sep = [' ']) →
        (suffix ∈ am_forms →
          parse_ampm_input (fmtInt n ++ sep ++ suffix)
            = if 1 ≤ to_int (to_long n) ∧ to_int (to_long n) ≤ 12 then
                some (if to_int (to_long n) = 12 then 0 else to_int (to_long n))
              else none)
        ∧ (suffix ∈ pm_forms →
          parse_ampm_input (fmtInt n ++ sep ++ suffix)
            = if 1 ≤ to_int (to_long n) ∧ to_int (to_long n) ≤ 12 then
                some (if to_int (to_long n) = 12 then 12 else to_int (to_long n) + 12)
              else none)) := by
  have hne : "PM".toList ≠ "AM".toList := by decide
  refine ⟨?_, ?_, ?_, ?_⟩
  · intro h hp
    cases hr : read_hour_period input with
    | none => simp [parse_ampm_input, hr] at hp
    | some p =>
      obtain ⟨n, suffix⟩ := p
      have hs := (read_hour_period_some input n suffix).1 hr
      rw [parse_ampm_input_of_read input n suffix hs] at hp
      by_cases hsuf : suffix.map toupper ≠ "AM".toList ∧ suffix.map toupper ≠ "PM".toList
      · rw [if_pos hsuf] at hp
        simp at hp
      · rw [if_neg hsuf] at hp
        by_cases hn : n < 1 ∨ n > 12
        · rw [if_pos hn] at hp
          simp at hp
        · rw [if_neg hn] at hp
          by_cases ham : suffix.map toupper = "AM".toList
          · rw [if_pos ham] at hp
            simp only [Option.some.injEq] at hp
            refine ⟨?_, ?_, n, suffix, hs, by omega, by omega, Or.inl ⟨ham, hp.symm⟩⟩
            · rw [← hp]; split <;> omega
            · rw [← hp]; split <;> omega
          · rw [if_neg ham] at hp
            simp only [Option.some.injEq] at hp
            have hpm : suffix.map toupper = "PM".toList := by
              by_contra hcon
              exact hsuf ⟨ham, hcon⟩
            refine ⟨?_, ?_, n, suffix, hs, by omega, by omega, Or.inr ⟨hpm, hp.symm⟩⟩
            · rw [← hp]; split <;> omega
            · rw [← hp]; split <;> omega
  · intro n suffix hs hbad
    rw [parse_ampm_input_of_read input n suffix hs]
    by_cases hsuf : suffix.map toupper ≠ "AM".toList ∧ suffix.map toupper ≠ "PM".toList
    · rw [if_pos hsuf]
    · rw [if_neg hsuf]
      have hn : n < 1 ∨ n > 12 := by
        rcases hbad with h | h | h
        · exact Or.inl h
        · exact Or.inr h
        · exact absurd h hsuf
      rw [if_pos hn]
  · intro n suffix hs h1 h12
    have hn : ¬ (n < 1 ∨ n > 12) := by omega
    constructor
    · intro ham
      rw [parse_ampm_input_of_read input n suffix hs, ham]
      simp [hn]
    · intro hpm
      rw [parse_ampm_input_of_read input n suffix hs, hpm]
      simp [hn, hne]
  · intro n sep suffix hsep
    exact ⟨parse_ampm_input_am n sep suffix hsep, parse_ampm_input_pm n sep suffix hsep⟩

/-- The text `hour_to_ampm` writes for an hour of the day is read back by
`parse_ampm_input` as that hour. -/
theorem parse_hour_to_ampm (h : Int) (h0 : 0 ≤ h) (h23 : h ≤ 23) :
    parse_ampm_input (hour_to_ampm h) = some h := by
  have ham : "AM".toList ∈ am_forms := by decide
  have hpm : "PM".toList ∈ pm_forms := by decide
  unfold hour_to_ampm
  by_cases c0 : h = 0
  · subst c0; decide
  · rw [if_neg c0]
    by_cases c1 : h < 12
    · rw [if_pos c1]
      have := parse_ampm_input_am h [] "AM".toList (Or.inl rfl) ham
      rw [List.append_nil, to_int_to_long h (by unfold int_range; omega)] at this
      rw [this]
      have hr : 1 ≤ h ∧ h ≤ 12 := by omega
      have hne : h ≠ 12 := by omega
      simp [hr, hne]
    · rw [if_neg c1]
      by_cases c2 : h = 12
      · subst c2; decide
      · rw [if_neg c2]
        have := parse_ampm_input_pm (h - 12) [] "PM".toList (Or.inl rfl) hpm
        rw [List.append_nil, to_int_to_long (h - 12) (by unfold int_range; omega)] at this
        rw [this]
        have hr : 1 ≤ h - 12 ∧ h - 12 ≤ 12 := by omega
        have hne : h - 12 ≠ 12 := by omega
        simp [hr, hne]

/-- C22: for every hour `h` in 0..23, `parse_ampm_input` applied to the text
`hour_to_ampm(h)` produces succeeds and returns `h`; so two hours of the day
shown by the same text are the same hour. -/
theorem hour_to_ampm_roundtrip (h : Int) (h0 : 0 ≤ h) (h23 : h ≤ 23) :
    parse_ampm_input (hour_to_ampm h) = some h
    ∧ ∀ h2 : Int, 0 ≤ h2 → h2 ≤ 23 → hour_to_ampm h2 = hour_to_ampm h → h2 = h := by
  refine ⟨parse_hour_to_ampm h h0 h23, ?_⟩
  intro h2 h20 h223 heq
  have e1 := parse_hour_to_ampm h h0 h23
  have e2 := parse_hour_to_ampm h2 h20 h223
  rw [heq, e1] at e2
  exact (Option.some.inj e2).symm

/-- C22 at a concrete input: 21 is shown as `9PM` and read back as 21. -/
theorem hour_to_ampm_roundtrip_witness :
    hour_to_ampm 21 = "9PM".toList ∧ parse_ampm_input (hour_to_ampm 21) = some 21 :=
  ⟨by decide, (hour_to_ampm_roundtrip 21 (by decide) (by decide)).1⟩

/-- C21 at the failing input: the twelve characters `4294967305AM` fit the
prompt buffer; `sscanf` stores the numeral into the `int` as 9, the range
test passes and `parse_ampm_input` succeeds with 9, though the number typed
is outside 1..12.  Likewise `-4294967287AM` gives 9 and `4294967297 PM`
gives 13. -/
theorem parse_ampm_input_wraps :
    sscanf_hour_period "4294967305AM".toList = some (9, "AM".toList, [])
    ∧ parse_ampm_input "4294967305AM".toList = some 9
    ∧ parse_ampm_input "-4294967287AM".toList = some 9
    ∧ parse_ampm_input "4294967297 PM".toList = some 13
    ∧ "4294967305AM".toList.length = 12 := by
  decide

end Slotmap
